import Mathlib

/-!
# ethereum-qr-code: the URI processor (`src/uriProcessor.js`)

A shallow embedding of the validator, the encoder and the decoder of
`uriProcessor.js`, together with the parts of the JavaScript platform the
module relies on (`ToString`, `parseInt`, `JSON.parse`, `JSON.stringify`) and
of the `bignumber.js` dependency (`new BigNumber(v)`, `isInteger`,
`toString(10)`, the relational comparison with `0`).

Conventions of the embedding
* JavaScript values are the type `JSVal`; an object is the list of its own
  enumerable properties in enumeration order. Values are trees: a value that holds
  itself (a cycle) is not part of the embedding, and neither are functions, symbols
  and BigNumber instances as property values. BigInt values are part of it.
* Numbers are exact decimals: an integer-valued number is `JSNum.int i`,
  a number with a fractional part is `JSNum.frac`, and `NaN` is `JSNum.nan`.
  Binary rounding is not modelled (the embedding is exact on the integers up to
  `2 ^ 53`), infinities are left out and `-0` is identified with `0`.
* A thrown error is the `Except.error` of an `Err`; `Err.message` renders the
  text of the thrown `Error`.
* Strings are sequences of characters, one character for one UTF-16 code unit (text of
  the Basic Multilingual Plane); text processing is done on `List Char`.
* The functions keep the names they have in `uriProcessor.js`.
-/

namespace EthQR

/-! ## Values -/

/-- A JavaScript number: an integer, a decimal `m / 10 ^ k` with a fractional
part (canonical when `0 < k` and `10 ∤ m`), or `NaN`. -/
inductive JSNum where
  | int (i : Int)
  | frac (neg : Bool) (m : Nat) (k : Nat)
  | nan
  deriving DecidableEq, Repr

/-- A JavaScript value. An object lists its own enumerable properties in the order
`Object.keys` reports them. -/
inductive JSVal where
  | undefined
  | null
  | bool (b : Bool)
  | num (n : JSNum)
  | str (s : String)
  | arr (xs : List JSVal)
  | obj (kvs : List (String × JSVal))
  | bigint (i : Int)
  deriving Repr

instance : Inhabited JSVal := ⟨JSVal.undefined⟩

mutual
/-- Decides the equality of two values. -/
def JSVal.decEq : (a b : JSVal) → Decidable (a = b)
  | .undefined, .undefined => isTrue rfl
  | .null, .null => isTrue rfl
  | .bool a, .bool b =>
    if h : a = b then isTrue (by rw [h]) else isFalse (by intro h'; injection h'; contradiction)
  | .num a, .num b =>
    if h : a = b then isTrue (by rw [h]) else isFalse (by intro h'; injection h'; contradiction)
  | .str a, .str b =>
    if h : a = b then isTrue (by rw [h]) else isFalse (by intro h'; injection h'; contradiction)
  | .arr a, .arr b =>
    match JSVal.decEqList a b with
    | isTrue h => isTrue (by rw [h])
    | isFalse h => isFalse (by intro h'; injection h'; contradiction)
  | .obj a, .obj b =>
    match JSVal.decEqProps a b with
    | isTrue h => isTrue (by rw [h])
    | isFalse h => isFalse (by intro h'; injection h'; contradiction)
  | .bigint a, .bigint b =>
    if h : a = b then isTrue (by rw [h]) else isFalse (by intro h'; injection h'; contradiction)
  | .undefined, .null | .undefined, .bool _ | .undefined, .num _ | .undefined, .str _
  | .undefined, .arr _ | .undefined, .obj _ | .undefined, .bigint _ =>
    isFalse (by intro h; cases h)
  | .null, .undefined | .null, .bool _ | .null, .num _ | .null, .str _ | .null, .arr _
  | .null, .obj _ | .null, .bigint _ =>
    isFalse (by intro h; cases h)
  | .bool _, .undefined | .bool _, .null | .bool _, .num _ | .bool _, .str _ | .bool _, .arr _
  | .bool _, .obj _ | .bool _, .bigint _ =>
    isFalse (by intro h; cases h)
  | .num _, .undefined | .num _, .null | .num _, .bool _ | .num _, .str _ | .num _, .arr _
  | .num _, .obj _ | .num _, .bigint _ =>
    isFalse (by intro h; cases h)
  | .str _, .undefined | .str _, .null | .str _, .bool _ | .str _, .num _ | .str _, .arr _
  | .str _, .obj _ | .str _, .bigint _ =>
    isFalse (by intro h; cases h)
  | .arr _, .undefined | .arr _, .null | .arr _, .bool _ | .arr _, .num _ | .arr _, .str _
  | .arr _, .obj _ | .arr _, .bigint _ =>
    isFalse (by intro h; cases h)
  | .obj _, .undefined | .obj _, .null | .obj _, .bool _ | .obj _, .num _ | .obj _, .str _
  | .obj _, .arr _ | .obj _, .bigint _ =>
    isFalse (by intro h; cases h)
  | .bigint _, .undefined | .bigint _, .null | .bigint _, .bool _ | .bigint _, .num _
  | .bigint _, .str _ | .bigint _, .arr _ | .bigint _, .obj _ =>
    isFalse (by intro h; cases h)
/-- Decides the equality of two lists of values. -/
def JSVal.decEqList : (a b : List JSVal) → Decidable (a = b)
  | [], [] => isTrue rfl
  | [], _ :: _ => isFalse (by intro h; cases h)
  | _ :: _, [] => isFalse (by intro h; cases h)
  | x :: xs, y :: ys =>
    match JSVal.decEq x y, JSVal.decEqList xs ys with
    | isTrue h1, isTrue h2 => isTrue (by rw [h1, h2])
    | isFalse h1, _ => isFalse (by intro h; injection h; contradiction)
    | _, isFalse h2 => isFalse (by intro h; injection h; contradiction)
/-- Decides the equality of two property lists. -/
def JSVal.decEqProps : (a b : List (String × JSVal)) → Decidable (a = b)
  | [], [] => isTrue rfl
  | [], _ :: _ => isFalse (by intro h; cases h)
  | _ :: _, [] => isFalse (by intro h; cases h)
  | (k, x) :: xs, (l, y) :: ys =>
    if hk : k = l then
      match JSVal.decEq x y, JSVal.decEqProps xs ys with
      | isTrue h1, isTrue h2 => isTrue (by rw [hk, h1, h2])
      | isFalse h1, _ => isFalse (by intro h; injection h with h3 h4; injection h3; contradiction)
      | _, isFalse h2 => isFalse (by intro h; injection h; contradiction)
    else isFalse (by intro h; injection h with h3 h4; injection h3; contradiction)
end


instance : DecidableEq JSVal := JSVal.decEq

/-! ## Decimal digits -/

/-- The character of a decimal digit. -/
def digitChar (d : Nat) : Char :=
  match d with
  | 0 => '0' | 1 => '1' | 2 => '2' | 3 => '3' | 4 => '4'
  | 5 => '5' | 6 => '6' | 7 => '7' | 8 => '8' | _ => '9'

/-- The value of a decimal digit character, if it is one. -/
def digitVal? (c : Char) : Option Nat :=
  if c = '0' then some 0 else if c = '1' then some 1 else if c = '2' then some 2
  else if c = '3' then some 3 else if c = '4' then some 4 else if c = '5' then some 5
  else if c = '6' then some 6 else if c = '7' then some 7 else if c = '8' then some 8
  else if c = '9' then some 9 else none

/-- Whether the character is one of `0`..`9`. -/
def isDigit (c : Char) : Bool := (digitVal? c).isSome

/-- Digits of `n`, most significant first, pushed in front of `acc`. -/
def natDigitsAux : Nat → Nat → List Char → List Char
  | 0, _, acc => acc
  | fuel + 1, n, acc =>
    if n < 10 then digitChar n :: acc
    else natDigitsAux fuel (n / 10) (digitChar (n % 10) :: acc)

/-- Plain decimal rendering of a natural number, without exponent, at any magnitude. -/
def natToDec (n : Nat) : List Char := natDigitsAux (n + 1) n []

/-- Value of a list of digit characters read from the left, starting from `acc`;
characters that are not digits count as `0`. -/
def digitsToNat (acc : Nat) : List Char → Nat
  | [] => acc
  | c :: cs => digitsToNat (acc * 10 + (digitVal? c).getD 0) cs

/-- Splits off the longest prefix of decimal digits. -/
def spanDigits : List Char → List Char × List Char
  | [] => ([], [])
  | c :: cs =>
    if isDigit c then ((spanDigits cs).1.cons c, (spanDigits cs).2) else ([], c :: cs)

/-- Removes the zeros at the end of a digit list. -/
def stripTrailingZeros (ds : List Char) : List Char :=
  (ds.reverse.dropWhile (fun c => c = '0')).reverse

/-- Pads a digit list with zeros on the left up to the width `w`. -/
def padZeros (w : Nat) (ds : List Char) : List Char :=
  List.replicate (w - ds.length) '0' ++ ds

/-- Fixed-point rendering of `m / 10 ^ k`: the integer part, then a point and the
fraction digits without trailing zeros when the fraction is not zero. -/
def fixedPoint (m k : Nat) : List Char :=
  let ip := m / 10 ^ k
  let fp := m % 10 ^ k
  if fp = 0 then natToDec ip
  else natToDec ip ++ '.' :: stripTrailingZeros (padZeros k (natToDec fp))

/-! ## ToString -/

/-- The text of `Number.prototype.toString()` for a non-negative integer: plain digits
below `10 ^ 21`, exponent notation from there on. -/
def natToJSString (n : Nat) : List Char :=
  if n < 10 ^ 21 then natToDec n
  else
    let ds := natToDec n
    let sig := stripTrailingZeros ds
    let ex := 'e' :: '+' :: natToDec (ds.length - 1)
    match sig with
    | [] => ds
    | [d] => d :: ex
    | d :: rest => d :: '.' :: (rest ++ ex)

/-- The text of a number (`ToString` applied to a number). -/
def JSNum.toChars : JSNum → List Char
  | .int (.ofNat n) => natToJSString n
  | .int (.negSucc n) => '-' :: natToJSString (n + 1)
  | .frac neg m k => (if neg then ['-'] else []) ++ fixedPoint m k
  | .nan => "NaN".data

mutual
/-- The abstract operation `ToString` on a value. -/
def toChars : JSVal → List Char
  | .undefined => "undefined".data
  | .null => "null".data
  | .bool true => "true".data
  | .bool false => "false".data
  | .num n => n.toChars
  | .str s => s.data
  | .arr xs => joinChars xs
  | .obj _ => "[object Object]".data
  | .bigint (.ofNat n) => natToDec n
  | .bigint (.negSucc n) => '-' :: natToDec (n + 1)
/-- The text of `Array.prototype.join(",")`: `null` and `undefined` elements are
rendered as the empty string. -/
def joinChars : List JSVal → List Char
  | [] => []
  | [x] => elemChars x
  | x :: y :: rest => elemChars x ++ ',' :: joinChars (y :: rest)
/-- The text of one array element inside `join`. -/
def elemChars : JSVal → List Char
  | .undefined => []
  | .null => []
  | .bool true => "true".data
  | .bool false => "false".data
  | .num n => n.toChars
  | .str s => s.data
  | .arr xs => joinChars xs
  | .obj _ => "[object Object]".data
  | .bigint (.ofNat n) => natToDec n
  | .bigint (.negSucc n) => '-' :: natToDec (n + 1)
end

/-- The string `String(v)`, as produced by a template literal or a string coercion. -/
def toStr (v : JSVal) : String := String.mk (toChars v)

/-- The abstract operation `ToBoolean`. -/
def truthy : JSVal → Bool
  | .undefined => false
  | .null => false
  | .bool b => b
  | .num (.int i) => i != 0
  | .num (.frac _ m _) => m != 0
  | .num .nan => false
  | .str s => s.data != []
  | .arr _ => true
  | .obj _ => true
  | .bigint i => i != 0

/-! ## Property access -/

/-- Looks a key up among the own properties of an object. -/
def lookup (k : String) : List (String × JSVal) → Option JSVal
  | [] => none
  | (k', v) :: rest => if k' = k then some v else lookup k rest

/-- The property read `v.k` for the property names this module reads (`mode`, `to`,
`from`, `amount`, `gas`, `chainId`, `functionSignature`, `argsDefaults`, `name`,
`payable`, `args`, `type`) on a value that is neither `null` nor `undefined`: none of
these names exists on a primitive, an array or a prototype, so only an own property of
an object yields a value. -/
def JSVal.get (v : JSVal) (k : String) : JSVal :=
  match v with
  | .obj kvs => (lookup k kvs).getD .undefined
  | _ => .undefined

/-- The assignment `o[k] = v` on an object: an existing property keeps its place. -/
def setProp (k : String) (v : JSVal) : List (String × JSVal) → List (String × JSVal)
  | [] => [(k, v)]
  | (k', v') :: rest => if k' = k then (k, v) :: rest else (k', v') :: setProp k v rest

/-- The index keys `"0"`, ..., `"n-1"` of an array or a string of length `n`. -/
def indexKeys (n : Nat) : List String :=
  (List.range n).map (fun i => String.mk (natToDec i))

/-! ## The `bignumber.js` dependency -/

/-- An arbitrary-precision decimal as `bignumber.js` holds it: `NaN`, or a sign, a
coefficient and a decimal exponent (`± m * 10 ^ e`). -/
inductive BigNumber where
  | nan
  | fin (neg : Bool) (m : Nat) (e : Int)
  deriving DecidableEq, Repr

/-- The exponent part of a decimal literal, `e` or `E`, an optional sign and at least
one digit up to the end of the text; the empty text is the exponent `0`. -/
def parseExponent : List Char → Option Int
  | [] => some 0
  | c :: rest =>
    if c = 'e' ∨ c = 'E' then
      match rest with
      | '+' :: ds => if ds ≠ [] ∧ ds.all isDigit then some (Int.ofNat (digitsToNat 0 ds)) else none
      | '-' :: ds => if ds ≠ [] ∧ ds.all isDigit then some (- Int.ofNat (digitsToNat 0 ds)) else none
      | ds => if ds ≠ [] ∧ ds.all isDigit then some (Int.ofNat (digitsToNat 0 ds)) else none
    else none

/-- The unsigned part of a decimal literal: `digits`, `digits.`, `digits.digits` or
`.digits`, followed by an optional exponent. -/
def parseUnsigned (neg : Bool) (cs : List Char) : BigNumber :=
  let ip := (spanDigits cs).1
  let r1 := (spanDigits cs).2
  match r1 with
  | '.' :: r2 =>
    let fp := (spanDigits r2).1
    let r3 := (spanDigits r2).2
    if ip = [] ∧ fp = [] then .nan
    else
      match parseExponent r3 with
      | some ex => .fin neg (digitsToNat 0 (ip ++ fp)) (ex - Int.ofNat fp.length)
      | none => .nan
  | _ =>
    if ip = [] then .nan
    else
      match parseExponent r1 with
      | some ex => .fin neg (digitsToNat 0 ip) ex
      | none => .nan

/-- The value `new BigNumber(text)` for a text: the decimal literals
`-?(\d+(\.\d*)?|\.\d+)(e[+-]?\d+)?` (case-insensitive) denote their value, any other
text is `NaN`. Radix prefixes, `Infinity`, surrounding white space, a leading `+` and
the exponent limits of the library are outside the model. -/
def BigNumber.ofChars : List Char → BigNumber
  | '-' :: rest => parseUnsigned true rest
  | cs => parseUnsigned false cs

/-- Whether `new BigNumber(n)` raises `number type has more than 15 significant digits`
for the integer number of magnitude `n`: the magnitude is above `Number.MAX_SAFE_INTEGER`
(`2 ^ 53 - 1`) and its digits without the trailing zeros are more than 15. -/
def tooManyDigits (n : Nat) : Bool :=
  decide (2 ^ 53 ≤ n) && decide (15 < (stripTrailingZeros (natToDec n)).length)

/-- The value `new BigNumber(v)`: a number keeps its value, any other argument is
converted to text first. Where the constructor raises an error (a number above
`2 ^ 53 - 1` with more than 15 significant digits, a text that is not a number) the
value is `NaN` here: the amount is rejected either way, in the code with the error of
the library and here with the error of the validator. -/
def BigNumber.ofVal : JSVal → BigNumber
  | .num (.int (.ofNat n)) => if tooManyDigits n then .nan else .fin false n 0
  | .num (.int (.negSucc n)) => if tooManyDigits (n + 1) then .nan else .fin true (n + 1) 0
  | .num (.frac neg m k) => .fin neg m (- Int.ofNat k)
  | .num .nan => .nan
  | v => BigNumber.ofChars (toChars v)

/-- The method `isInteger()`. -/
def BigNumber.isInteger : BigNumber → Bool
  | .nan => false
  | .fin _ _ (.ofNat _) => true
  | .fin _ m (.negSucc k) => m % 10 ^ (k + 1) == 0

/-- The relational expression `x >= 0` on a BigNumber `x`: the operand is converted
through `valueOf()` and `ToNumber`, so it holds unless `x` is `NaN` or a negative value
that does not round to `-0` (a magnitude of at most `2 ^ (-1075)` does). -/
def BigNumber.geZero : BigNumber → Bool
  | .nan => false
  | .fin neg m (.ofNat _) => !neg || m == 0
  | .fin neg m (.negSucc k) => !neg || m == 0 || decide (m * 2 ^ 1075 ≤ 10 ^ (k + 1))

/-- The integer a BigNumber denotes, when it is finite and has no fractional part. -/
def BigNumber.toInt? : BigNumber → Option Int
  | .nan => none
  | .fin neg m (.ofNat e) => some (if neg then - Int.ofNat (m * 10 ^ e) else Int.ofNat (m * 10 ^ e))
  | .fin neg m (.negSucc k) =>
    if m % 10 ^ (k + 1) = 0 then
      some (if neg then - Int.ofNat (m / 10 ^ (k + 1)) else Int.ofNat (m / 10 ^ (k + 1)))
    else none

/-- The method `toString(10)`: never exponent notation; the value is first rounded to
`DECIMAL_PLACES = 20` places with `ROUND_HALF_UP` (the defaults of the library), and
the sign is printed for every negative value that is not zero, also when it rounds to
zero (the text is then `-0`). -/
def BigNumber.toString10 : BigNumber → List Char
  | .nan => "NaN".data
  | .fin neg m (.ofNat e) =>
    (if neg ∧ m ≠ 0 then ['-'] else []) ++ natToDec (m * 10 ^ e)
  | .fin neg m (.negSucc k) =>
    let m' := if 20 < k + 1 then (m + 5 * 10 ^ (k - 20)) / 10 ^ (k + 1 - 20) else m
    let k' := if 20 < k + 1 then 20 else k + 1
    (if neg ∧ m ≠ 0 then ['-'] else []) ++ fixedPoint m' k'

/-! ## Errors -/

/-- The errors of the module, one constructor per `throw` site (sites with the same
message share a constructor), and the `TypeError` the engine raises when a property of
`null` or `undefined` is read or when `JSON.stringify` meets a BigInt. -/
inductive Err where
  | notAllowed (key : String) (allowed : List String)
  | invalidTo (v : JSVal)
  | invalidFrom (v : JSVal)
  | invalidAmount (v : JSVal)
  | invalidChainId (v : JSVal)
  | invalidGas (v : JSVal)
  | modeNotSupported (v : JSVal)
  | notSupportedUriMode (v : JSVal)
  | functionSignatureUndefined
  | invalidFunctionName (v : JSVal)
  | invalidPayable (v : JSVal)
  | argsNotArray (v : JSVal)
  | argsEmpty
  | invalidArgName (v : JSVal)
  | invalidArgType (v : JSVal)
  | argsDefaultsNotArray (v : JSVal)
  | argsDefaultsEmpty
  | argsDefaultsNoArgs (v : JSVal)
  | invalidDefaultName (v : JSVal)
  | defaultAmountMissing (v : JSVal)
  | defaultNameMismatch (v : JSVal)
  | typeError
  deriving DecidableEq, Repr

deriving instance DecidableEq for Except

/-- Whether the error is an `Error` thrown by the module itself (and not a `TypeError`
of the engine). -/
def Err.isValidationError : Err → Bool
  | .typeError => false
  | _ => true

/-- The message of the thrown error. -/
def Err.message : Err → String
  | .notAllowed key allowed =>
    "Not allowed property found: " ++ key ++ "! Allowed properties: " ++ ",".intercalate allowed
  | .invalidTo v => "Property \"to\" is not an valid Ethereum address: " ++ toStr v
  | .invalidFrom v => "Property \"from\" is not an valid Ethereum address: " ++ toStr v
  | .invalidAmount v => "Property \"amount\" is not an valid Ethereum amount: " ++ toStr v
  | .invalidChainId v => "Property \"chainId\" is not an valid Ethereum chainId: " ++ toStr v
  | .invalidGas v => "Property \"gas\" is not an valid gas amount: " ++ toStr v
  | .modeNotSupported v => "Chosen URI mode is not supported: " ++ toStr v
  | .notSupportedUriMode v => "Not supported URI mode: " ++ toStr v
  | .functionSignatureUndefined => "Property \"functionSignature\" is not defined"
  | .invalidFunctionName v => "Invalid function name: " ++ toStr v
  | .invalidPayable v => "Invalid \"payable\" mark: " ++ toStr v
  | .argsNotArray v => "Function \"args\" should be an array: " ++ toStr v
  | .argsEmpty =>
    "Function \"args\" is an empty array. Do not use this property if function " ++
      "does not have arguments"
  | .invalidArgName v => "Invalid \"name\" of function argument: " ++ toStr v
  | .invalidArgType v => "Invalid \"type\" of function argument: " ++ toStr v
  | .argsDefaultsNotArray v => "\"argsDefaults\" should be an array: " ++ toStr v
  | .argsDefaultsEmpty =>
    "\"argsDefaults\" is an empty array. Do not use this prop if you do not have default amounts"
  | .argsDefaultsNoArgs v =>
    "\"argsDefaults\" provided while function does not have arguments: " ++ toStr v
  | .invalidDefaultName v =>
    "Invalid \"name\" of function argument in \"argsDefaults\": " ++ toStr v
  | .defaultAmountMissing v => "Amount of the function argument is not provided: " ++ toStr v
  | .defaultNameMismatch v =>
    "\"name\" of the function argument with default amount does not fit function signature: " ++
      toStr v
  | .typeError => "TypeError"

/-! ## Basic validators -/

/-- The four values of `uriModes`. -/
def uriModes.contractFunction : String := "contract_function"
/-- The mode of an ERC-20 transfer. -/
def uriModes.erc20Transfer : String := "erc20__transfer"
/-- The mode of an ERC-20 approval. -/
def uriModes.erc20Approve : String := "erc20__approve"
/-- The mode of an ERC-20 transfer on behalf of another account. -/
def uriModes.erc20TransferFrom : String := "erc20__transferFrom"

/-- A hexadecimal digit in either case: the class `[0-9a-f]` under the flag `i`. -/
def isHexChar (c : Char) : Bool :=
  isDigit c || c = 'a' || c = 'b' || c = 'c' || c = 'd' || c = 'e' || c = 'f' ||
    c = 'A' || c = 'B' || c = 'C' || c = 'D' || c = 'E' || c = 'F'

/-- A lower-case ASCII letter. -/
def isLowerChar (c : Char) : Bool := 'a'.val ≤ c.val && c.val ≤ 'z'.val

/-- An upper-case ASCII letter. -/
def isUpperChar (c : Char) : Bool := 'A'.val ≤ c.val && c.val ≤ 'Z'.val

/-- The class `[a-z0-9\-_]` under the flag `i`. -/
def isNameChar (c : Char) : Bool :=
  isLowerChar c || isUpperChar c || isDigit c || c = '-' || c = '_'

/-- The class `[a-z0-9]` (no flag: lower case only). -/
def isTypeChar (c : Char) : Bool := isLowerChar c || isDigit c

/-- The pattern `/^0x[0-9a-f]{40}$/i` on a text. -/
def matchesAddress : List Char → Bool
  | c0 :: c1 :: rest =>
    c0 = '0' && (c1 = 'x' || c1 = 'X') && rest.length = 40 && rest.all isHexChar
  | _ => false

/-- The function `isValidAddress`: `RegExp.prototype.test` converts its argument to a
string. -/
def isValidAddress (address : JSVal) : Bool := matchesAddress (toChars address)

/-- The function `isValidEthAmount`. -/
def isValidEthAmount (amount : JSVal) : Bool :=
  let ethWeiAmount := BigNumber.ofVal amount
  ethWeiAmount.isInteger && ethWeiAmount.geZero

/-- The function `isValidGasAmount`: `Number.isInteger(gas) && gas >= 0`. -/
def isValidGasAmount : JSVal → Bool
  | .num (.int i) => decide (0 ≤ i)
  | _ => false

/-- The function `isValidChainId`: `Number.isInteger(chainId) && chainId > 0`. -/
def isValidChainId : JSVal → Bool
  | .num (.int i) => decide (0 < i)
  | _ => false

/-- The function `isValidContractFunctionName`: `str.length > 0` and the pattern
`/^[a-z0-9\-_]*$/i`. Only a string or an array has a `length` that can pass together
with the pattern (a number or a boolean has none; an object is the text
`[object Object]`, which the pattern rejects). -/
def isValidContractFunctionName : JSVal → Bool
  | .str s => decide (0 < s.data.length) && s.data.all isNameChar
  | .arr xs => decide (0 < xs.length) && (toChars (.arr xs)).all isNameChar
  | _ => false

/-- The function `isValidSolidityType`: `str.length > 0` and the pattern `/^[a-z0-9]*$/`. -/
def isValidSolidityType : JSVal → Bool
  | .str s => decide (0 < s.data.length) && s.data.all isTypeChar
  | .arr xs => decide (0 < xs.length) && (toChars (.arr xs)).all isTypeChar
  | _ => false

/-- The function `isValidFunctionArgumentName`, the same test as for a function name. -/
def isValidFunctionArgumentName : JSVal → Bool
  | .str s => decide (0 < s.data.length) && s.data.all isNameChar
  | .arr xs => decide (0 < xs.length) && (toChars (.arr xs)).all isNameChar
  | _ => false

/-- The function `isAmountDefined`: neither `null` nor `undefined`. -/
def isAmountDefined : JSVal → Bool
  | .undefined => false
  | .null => false
  | _ => true

/-- The function `isValidOptionalParam`. -/
def isValidOptionalParam (param : JSVal) (contentCheckFunc : JSVal → Bool) : Bool :=
  let isNull := !isAmountDefined param
  isNull || contentCheckFunc param

/-- The function `isValidRequiredParam`. -/
def isValidRequiredParam (param : JSVal) (contentCheckFunc : JSVal → Bool) : Bool :=
  let isNotNull := isAmountDefined param
  isNotNull && contentCheckFunc param

/-- The keys `Object.keys(v)` reports: the own properties of an object, the indices of
an array or of a string, nothing for a number or a boolean; `null` and `undefined`
raise a `TypeError`. -/
def objectKeys : JSVal → Except Err (List String)
  | .undefined => .error .typeError
  | .null => .error .typeError
  | .obj kvs => .ok (kvs.map Prod.fst)
  | .arr xs => .ok (indexKeys xs.length)
  | .str s => .ok (indexKeys s.data.length)
  | _ => .ok []

/-- The loop of `validateAllowedProperties` over the keys: the first key outside the
list throws. -/
def checkAllowed (allowedProperties : List String) : List String → Except Err Unit
  | [] => .ok ()
  | propertyName :: rest =>
    if propertyName ∈ allowedProperties then checkAllowed allowedProperties rest
    else .error (.notAllowed propertyName allowedProperties)

/-- The function `validateAllowedProperties`. -/
def validateAllowedProperties (testObj : JSVal) (allowedProperties : List String) :
    Except Err Unit :=
  match objectKeys testObj with
  | .error e => .error e
  | .ok keys => checkAllowed allowedProperties keys

/-- Strict equality `===`: primitives compare by value (`NaN` differs from itself), and
two arrays or objects are equal only when they are the same reference, which two
separately held values are not. -/
def strictEq : JSVal → JSVal → Bool
  | .undefined, .undefined => true
  | .null, .null => true
  | .bool a, .bool b => a == b
  | .num .nan, .num _ => false
  | .num a, .num b => a == b
  | .str a, .str b => a == b
  | .bigint a, .bigint b => a == b
  | _, _ => false

/-! ## Complex validators -/

/-- The body of the `forEach` in `validateFunctionSignature` for one argument. -/
def validateFunctionArg (functionArg : JSVal) : Except Err Unit :=
  match validateAllowedProperties functionArg ["name", "type"] with
  | .error e => .error e
  | .ok _ =>
    if isValidRequiredParam (functionArg.get "name") isValidFunctionArgumentName = false then
      .error (.invalidArgName (functionArg.get "name"))
    else if isValidRequiredParam (functionArg.get "type") isValidSolidityType = false then
      .error (.invalidArgType (functionArg.get "name"))
    else .ok ()

/-- Runs a check over the elements of an array in order, like a `forEach` whose callback
may throw. -/
def forEach (f : JSVal → Except Err Unit) : List JSVal → Except Err Unit
  | [] => .ok ()
  | x :: xs =>
    match f x with
    | .error e => .error e
    | .ok _ => forEach f xs

/-- The function `validateFunctionSignature`. -/
def validateFunctionSignature (signature : JSVal) : Except Err Unit :=
  if isValidRequiredParam (signature.get "name") isValidContractFunctionName = false then
    .error (.invalidFunctionName (signature.get "name"))
  else
    match signature.get "payable" with
    | .bool _ =>
      match signature.get "args" with
      | .null => .ok ()
      | .undefined => .ok ()
      | .arr [] => .error .argsEmpty
      | .arr (a :: as) => forEach validateFunctionArg (a :: as)
      | v => .error (.argsNotArray v)
    | v => .error (.invalidPayable v)

/-- The body of the `forEach` in `validateArgsDefaults` for one default. -/
def validateArgDefault (functionArgs : List JSVal) (argDefault : JSVal) : Except Err Unit :=
  match validateAllowedProperties argDefault ["name", "amount"] with
  | .error e => .error e
  | .ok _ =>
    if isValidRequiredParam (argDefault.get "name") isValidFunctionArgumentName = false then
      .error (.invalidDefaultName (argDefault.get "name"))
    else if isAmountDefined (argDefault.get "amount") = false then
      .error (.defaultAmountMissing (argDefault.get "amount"))
    else if functionArgs.any (fun arg => strictEq (arg.get "name") (argDefault.get "name")) then
      .ok ()
    else .error (.defaultNameMismatch (argDefault.get "name"))

/-- The function `validateArgsDefaults`. The argument list is the validated
`functionSignature.args` (an array, `null` or `undefined`) or a built-in array. -/
def validateArgsDefaults (argsDefaults : JSVal) (functionArgs : JSVal) : Except Err Unit :=
  match argsDefaults with
  | .null => .ok ()
  | .undefined => .ok ()
  | .arr [] => .error .argsDefaultsEmpty
  | .arr (d :: ds) =>
    match functionArgs with
    | .null => .error (.argsDefaultsNoArgs argsDefaults)
    | .undefined => .error (.argsDefaultsNoArgs argsDefaults)
    | .arr args => forEach (validateArgDefault args) (d :: ds)
    | _ => .error .typeError
  | v => .error (.argsDefaultsNotArray v)

/-- The function `validateUriSchemaBasic`. -/
def validateUriSchemaBasic (data : JSVal) : Except Err Unit :=
  match validateAllowedProperties data
      ["to", "from", "amount", "gas", "chainId"] with
  | .error e => .error e
  | .ok _ =>
    if isValidRequiredParam (data.get "to") isValidAddress = false then
      .error (.invalidTo (data.get "to"))
    else if isValidOptionalParam (data.get "from") isValidAddress = false then
      .error (.invalidFrom (data.get "from"))
    else if isValidOptionalParam (data.get "amount") isValidEthAmount = false then
      .error (.invalidAmount (data.get "amount"))
    else if isValidOptionalParam (data.get "chainId") isValidChainId = false then
      .error (.invalidChainId (data.get "chainId"))
    else if isValidOptionalParam (data.get "gas") isValidGasAmount = false then
      .error (.invalidGas (data.get "gas"))
    else .ok ()

/-- The function `validateUriSchemaFunction`. -/
def validateUriSchemaFunction (data : JSVal) : Except Err Unit :=
  match validateAllowedProperties data
      ["to", "from", "amount", "gas", "mode", "chainId", "functionSignature", "argsDefaults"] with
  | .error e => .error e
  | .ok _ =>
    if isValidRequiredParam (data.get "to") isValidAddress = false then
      .error (.invalidTo (data.get "to"))
    else if isValidOptionalParam (data.get "from") isValidAddress = false then
      .error (.invalidFrom (data.get "from"))
    else if isValidOptionalParam (data.get "amount") isValidEthAmount = false then
      .error (.invalidAmount (data.get "amount"))
    else if isValidOptionalParam (data.get "gas") isValidGasAmount = false then
      .error (.invalidGas (data.get "gas"))
    else if isValidOptionalParam (data.get "chainId") isValidChainId = false then
      .error (.invalidChainId (data.get "chainId"))
    else if strictEq (data.get "mode") (.str uriModes.contractFunction) = false then
      .error (.modeNotSupported (data.get "mode"))
    else if isAmountDefined (data.get "functionSignature") = false then
      .error .functionSignatureUndefined
    else
      match validateFunctionSignature (data.get "functionSignature") with
      | .error e => .error e
      | .ok _ =>
        if isAmountDefined (data.get "argsDefaults") then
          validateArgsDefaults (data.get "argsDefaults") ((data.get "functionSignature").get "args")
        else .ok ()

/-- An entry `{ name, type }` of a built-in argument list. -/
def builtinArg (name type : String) : JSVal :=
  .obj [("name", .str name), ("type", .str type)]

/-- The built-in argument list of `erc20__transfer`. -/
def erc20TransferArgs : JSVal :=
  .arr [builtinArg "to" "address", builtinArg "amount" "uint"]

/-- The built-in argument list of `erc20__approve`. -/
def erc20ApproveArgs : JSVal :=
  .arr [builtinArg "spender" "address", builtinArg "amount" "uint"]

/-- The built-in argument list of `erc20__transferFrom`. -/
def erc20TransferFromArgs : JSVal :=
  .arr [builtinArg "from" "address", builtinArg "to" "address", builtinArg "amount" "uint"]

/-- The function `validateUriSchemaERC20Transfer`. -/
def validateUriSchemaERC20Transfer (data : JSVal) : Except Err Unit :=
  match validateAllowedProperties data
      ["to", "from", "gas", "mode", "chainId", "argsDefaults"] with
  | .error e => .error e
  | .ok _ =>
    if isValidRequiredParam (data.get "to") isValidAddress = false then
      .error (.invalidTo (data.get "to"))
    else if isValidOptionalParam (data.get "from") isValidAddress = false then
      .error (.invalidFrom (data.get "from"))
    else if isValidOptionalParam (data.get "amount") isValidEthAmount = false then
      .error (.invalidAmount (data.get "amount"))
    else if isValidOptionalParam (data.get "gas") isValidGasAmount = false then
      .error (.invalidGas (data.get "gas"))
    else if isValidOptionalParam (data.get "chainId") isValidChainId = false then
      .error (.invalidChainId (data.get "chainId"))
    else if strictEq (data.get "mode") (.str uriModes.erc20Transfer) = false then
      .error (.modeNotSupported (data.get "mode"))
    else if isAmountDefined (data.get "argsDefaults") then
      validateArgsDefaults (data.get "argsDefaults") erc20TransferArgs
    else .ok ()

/-- The function `validateUriSchemaERC20Approve`. -/
def validateUriSchemaERC20Approve (data : JSVal) : Except Err Unit :=
  match validateAllowedProperties data
      ["to", "from", "gas", "mode", "chainId", "argsDefaults"] with
  | .error e => .error e
  | .ok _ =>
    if isValidRequiredParam (data.get "to") isValidAddress = false then
      .error (.invalidTo (data.get "to"))
    else if isValidOptionalParam (data.get "from") isValidAddress = false then
      .error (.invalidFrom (data.get "from"))
    else if isValidOptionalParam (data.get "amount") isValidEthAmount = false then
      .error (.invalidAmount (data.get "amount"))
    else if isValidOptionalParam (data.get "gas") isValidGasAmount = false then
      .error (.invalidGas (data.get "gas"))
    else if isValidOptionalParam (data.get "chainId") isValidChainId = false then
      .error (.invalidChainId (data.get "chainId"))
    else if strictEq (data.get "mode") (.str uriModes.erc20Approve) = false then
      .error (.modeNotSupported (data.get "mode"))
    else if isAmountDefined (data.get "argsDefaults") then
      validateArgsDefaults (data.get "argsDefaults") erc20ApproveArgs
    else .ok ()

/-- The function `validateUriSchemaERC20TransferFrom`. -/
def validateUriSchemaERC20TransferFrom (data : JSVal) : Except Err Unit :=
  match validateAllowedProperties data
      ["to", "from", "gas", "mode", "chainId", "argsDefaults"] with
  | .error e => .error e
  | .ok _ =>
    if isValidRequiredParam (data.get "to") isValidAddress = false then
      .error (.invalidTo (data.get "to"))
    else if isValidOptionalParam (data.get "from") isValidAddress = false then
      .error (.invalidFrom (data.get "from"))
    else if isValidOptionalParam (data.get "amount") isValidEthAmount = false then
      .error (.invalidAmount (data.get "amount"))
    else if isValidOptionalParam (data.get "gas") isValidGasAmount = false then
      .error (.invalidGas (data.get "gas"))
    else if isValidOptionalParam (data.get "chainId") isValidChainId = false then
      .error (.invalidChainId (data.get "chainId"))
    else if strictEq (data.get "mode") (.str uriModes.erc20TransferFrom) = false then
      .error (.modeNotSupported (data.get "mode"))
    else if isAmountDefined (data.get "argsDefaults") then
      validateArgsDefaults (data.get "argsDefaults") erc20TransferFromArgs
    else .ok ()

/-- The function `validateEthereumUri`. Reading `data.mode` raises a `TypeError` when
`data` is `null` or `undefined`. -/
def validateEthereumUri (data : JSVal) : Except Err Unit :=
  match data with
  | .null => .error .typeError
  | .undefined => .error .typeError
  | _ =>
    if isAmountDefined (data.get "mode") = false then validateUriSchemaBasic data
    else if strictEq (data.get "mode") (.str uriModes.contractFunction) then
      validateUriSchemaFunction data
    else if strictEq (data.get "mode") (.str uriModes.erc20Transfer) then
      validateUriSchemaERC20Transfer data
    else if strictEq (data.get "mode") (.str uriModes.erc20Approve) then
      validateUriSchemaERC20Approve data
    else if strictEq (data.get "mode") (.str uriModes.erc20TransferFrom) then
      validateUriSchemaERC20TransferFrom data
    else .error (.notSupportedUriMode (data.get "mode"))

/-! ## Encoders -/

/-- One entry of the `map` in `encodeEthSend`: the text `param=value` for a truthy
value, `null` otherwise. -/
def encodeParam (param : String) (value : JSVal) : JSVal :=
  if truthy value then .str (param ++ "=" ++ toStr value) else .null

/-- The texts of the entries that pass `filter((item) => !!item)`. -/
def keptItems : List JSVal → List String
  | [] => []
  | item :: rest => if truthy item then toStr item :: keptItems rest else keptItems rest

/-- The function `encodeEthSend`. -/
def encodeEthSend (data : JSVal) : String :=
  let to_ := data.get "to"
  let from_ := data.get "from"
  let amount := data.get "amount"
  let gas := data.get "gas"
  let chainId := data.get "chainId"
  let params : List (String × JSVal) :=
    [ ("from", if isAmountDefined from_ then from_ else .null),
      ("amount",
        if isAmountDefined amount then .str (String.mk (BigNumber.ofVal amount).toString10)
        else .null),
      ("gas", if isAmountDefined gas then gas else .null),
      ("chainId", if isAmountDefined chainId && isValidChainId chainId then chainId else .null) ]
  let paramsStr := "&".intercalate (keptItems (params.map (fun kv => encodeParam kv.1 kv.2)))
  "ethereum:" ++ toStr to_ ++ "?" ++ paramsStr

/-! ## `JSON.stringify` -/

/-- A lower-case hexadecimal digit. -/
def hexDigitChar (d : Nat) : Char :=
  match d with
  | 10 => 'a' | 11 => 'b' | 12 => 'c' | 13 => 'd' | 14 => 'e' | 15 => 'f'
  | n => digitChar n

/-- The text of one character inside a JSON string (`QuoteJSONString`): the quote, the
backslash and the control characters are escaped. -/
def escapeChar (c : Char) : List Char :=
  if c = '"' then ['\\', '"']
  else if c = '\\' then ['\\', '\\']
  else if c = '\x08' then ['\\', 'b']
  else if c = '\x0c' then ['\\', 'f']
  else if c = '\n' then ['\\', 'n']
  else if c = '\r' then ['\\', 'r']
  else if c = '\t' then ['\\', 't']
  else if c.toNat < 32 then
    ['\\', 'u', '0', '0', hexDigitChar (c.toNat / 16), hexDigitChar (c.toNat % 16)]
  else [c]

/-- The body of a quoted JSON string. -/
def escapeChars : List Char → List Char
  | [] => []
  | c :: cs => escapeChar c ++ escapeChars cs

/-- The quoted JSON text of a string. -/
def quoteJSONString (cs : List Char) : List Char := '"' :: (escapeChars cs ++ ['"'])

mutual
/-- Whether the value is a BigInt or holds one in an element or a property:
`JSON.stringify` raises a `TypeError` (`Do not know how to serialize a BigInt`) on such
a value. -/
def holdsBigInt : JSVal → Bool
  | .bigint _ => true
  | .arr xs => holdsBigIntList xs
  | .obj kvs => holdsBigIntProps kvs
  | _ => false
/-- Whether an element of the array holds a BigInt. -/
def holdsBigIntList : List JSVal → Bool
  | [] => false
  | x :: xs => holdsBigInt x || holdsBigIntList xs
/-- Whether the value of a property holds a BigInt. -/
def holdsBigIntProps : List (String × JSVal) → Bool
  | [] => false
  | (_, v) :: rest => holdsBigInt v || holdsBigIntProps rest
end

mutual
/-- The text `JSON.stringify` gives a value that is an array element or the argument of
the call: `undefined` and `NaN` are written `null`. A BigInt has no text: the call
raises on it (see `holdsBigInt`, which `encodeEthereumUri` tests first). -/
def stringifyVal : JSVal → List Char
  | .undefined => "null".data
  | .null => "null".data
  | .bool true => "true".data
  | .bool false => "false".data
  | .num .nan => "null".data
  | .num n => n.toChars
  | .str s => quoteJSONString s.data
  | .arr xs => '[' :: (stringifyElems xs ++ [']'])
  | .obj kvs => '{' :: (stringifyProps false kvs ++ ['}'])
  | .bigint _ => []
/-- The elements of an array, separated by commas. -/
def stringifyElems : List JSVal → List Char
  | [] => []
  | [x] => stringifyVal x
  | x :: y :: rest => stringifyVal x ++ ',' :: stringifyElems (y :: rest)
/-- The properties of an object, separated by commas; a property whose value is
`undefined` is left out. The flag tells whether a property was already written. -/
def stringifyProps : Bool → List (String × JSVal) → List Char
  | _, [] => []
  | started, (_, .undefined) :: rest => stringifyProps started rest
  | started, (k, v) :: rest =>
    (if started then [','] else []) ++ quoteJSONString k.data ++ ':' :: stringifyVal v ++
      stringifyProps true rest
end

/-- The function `JSON.stringify` on the value the encoder holds, when it returns (an
object that holds no BigInt; for the value `undefined` itself the call yields
`undefined`, which the encoder never passes). -/
def jsonStringify (v : JSVal) : String := String.mk (stringifyVal v)

/-! ## `JSON.parse` -/

/-- JSON white space: space, tab, line feed, carriage return. -/
def isJsonWs (c : Char) : Bool := c = ' ' || c = '\t' || c = '\n' || c = '\r'

/-- Drops leading JSON white space. -/
def skipWs : List Char → List Char
  | [] => []
  | c :: cs => if isJsonWs c then skipWs cs else c :: cs

/-- The value of a hexadecimal digit in either case. -/
def hexVal? (c : Char) : Option Nat :=
  match digitVal? c with
  | some d => some d
  | none =>
    if c = 'a' ∨ c = 'A' then some 10 else if c = 'b' ∨ c = 'B' then some 11
    else if c = 'c' ∨ c = 'C' then some 12 else if c = 'd' ∨ c = 'D' then some 13
    else if c = 'e' ∨ c = 'E' then some 14 else if c = 'f' ∨ c = 'F' then some 15
    else none

/-- The character of a `\uXXXX` escape. A code unit that is no character on its own (a
surrogate) is read as U+FFFD: text outside the Basic Multilingual Plane is not
modelled. -/
def unitChar (n : Nat) : Char :=
  if 0xD800 ≤ n ∧ n < 0xE000 then Char.ofNat 0xFFFD else Char.ofNat n

/-- Reads the body of a JSON string up to the closing quote; gives the characters and
the rest of the text. A raw control character and an unknown escape are errors. -/
def parseStringBody : List Char → Option (List Char × List Char)
  | [] => none
  | c :: cs =>
    if c = '"' then some ([], cs)
    else if c = '\\' then
      match cs with
      | [] => none
      | e :: rest =>
        if e = 'u' then
          match rest with
          | h1 :: h2 :: h3 :: h4 :: rest' =>
            match hexVal? h1, hexVal? h2, hexVal? h3, hexVal? h4 with
            | some a, some b, some c', some d =>
              match parseStringBody rest' with
              | some (s, r) => some (unitChar (((a * 16 + b) * 16 + c') * 16 + d) :: s, r)
              | none => none
            | _, _, _, _ => none
          | _ => none
        else
          let decoded : Option Char :=
            if e = '"' then some '"' else if e = '\\' then some '\\'
            else if e = '/' then some '/' else if e = 'b' then some '\x08'
            else if e = 'f' then some '\x0c' else if e = 'n' then some '\n'
            else if e = 'r' then some '\r' else if e = 't' then some '\t' else none
          match decoded with
          | some ch =>
            match parseStringBody rest with
            | some (s, r) => some (ch :: s, r)
            | none => none
          | none => none
    else if c.toNat < 32 then none
    else
      match parseStringBody cs with
      | some (s, r) => some (c :: s, r)
      | none => none

/-- Brings the decimal `m / 10 ^ k` to the canonical number: trailing zeros of the
fraction are removed, and a value without fraction is an integer. -/
def canonDecimal (neg : Bool) : Nat → Nat → JSNum
  | m, 0 => .int (if neg then - Int.ofNat m else Int.ofNat m)
  | m, k + 1 => if m % 10 = 0 then canonDecimal neg (m / 10) k else .frac neg m (k + 1)

/-- The number with the digits `m` and the decimal exponent `e`. -/
def decimalNum (neg : Bool) (m : Nat) : Int → JSNum
  | .ofNat e => canonDecimal neg (m * 10 ^ e) 0
  | .negSucc k => canonDecimal neg m (k + 1)

/-- The exponent part of a JSON number, if the text continues with one: the exponent
and the rest of the text. -/
def parseJsonExponent (cs : List Char) : Option (Int × List Char) :=
  match cs with
  | c :: rest =>
    if c = 'e' ∨ c = 'E' then
      match rest with
      | '+' :: ds =>
        if (spanDigits ds).1 = [] then none
        else some (Int.ofNat (digitsToNat 0 (spanDigits ds).1), (spanDigits ds).2)
      | '-' :: ds =>
        if (spanDigits ds).1 = [] then none
        else some (- Int.ofNat (digitsToNat 0 (spanDigits ds).1), (spanDigits ds).2)
      | ds =>
        if (spanDigits ds).1 = [] then none
        else some (Int.ofNat (digitsToNat 0 (spanDigits ds).1), (spanDigits ds).2)
    else some (0, cs)
  | [] => some (0, [])

/-- Reads the unsigned part of a JSON number: an integer part without a leading zero
(unless it is `0`), an optional fraction with at least one digit, an optional
exponent. -/
def parseJsonUnsigned (neg : Bool) (cs : List Char) : Option (JSNum × List Char) :=
  let ip := (spanDigits cs).1
  let r1 := (spanDigits cs).2
  if ip = [] ∨ (ip.head? = some '0' ∧ ip.length ≠ 1) then none
  else
    match r1 with
    | '.' :: r2 =>
      let fp := (spanDigits r2).1
      if fp = [] then none
      else
        match parseJsonExponent (spanDigits r2).2 with
        | some (ex, r) =>
          some (decimalNum neg (digitsToNat 0 (ip ++ fp)) (ex - Int.ofNat fp.length), r)
        | none => none
    | _ =>
      match parseJsonExponent r1 with
      | some (ex, r) => some (decimalNum neg (digitsToNat 0 ip) ex, r)
      | none => none

/-- Reads a JSON number. -/
def parseJsonNumber : List Char → Option (JSNum × List Char)
  | '-' :: rest => parseJsonUnsigned true rest
  | cs => parseJsonUnsigned false cs

mutual
/-- Reads one JSON value at the head of the text (white space already skipped) and
gives it with the rest of the text. The fuel bounds the number of values read. -/
def parseValue : Nat → List Char → Option (JSVal × List Char)
  | 0, _ => none
  | fuel + 1, cs =>
    match cs with
    | [] => none
    | c :: rest =>
      if c = '"' then
        match parseStringBody rest with
        | some (s, r) => some (.str (String.mk s), r)
        | none => none
      else if c = '[' then
        match skipWs rest with
        | ']' :: r => some (.arr [], r)
        | r => match parseElems fuel r with
          | some (xs, r') => some (.arr xs, r')
          | none => none
      else if c = '{' then
        match skipWs rest with
        | '}' :: r => some (.obj [], r)
        | r => match parseMembers fuel r with
          | some (kvs, r') => some (.obj kvs, r')
          | none => none
      else if c = 'n' then
        match rest with
        | 'u' :: 'l' :: 'l' :: r => some (.null, r)
        | _ => none
      else if c = 't' then
        match rest with
        | 'r' :: 'u' :: 'e' :: r => some (.bool true, r)
        | _ => none
      else if c = 'f' then
        match rest with
        | 'a' :: 'l' :: 's' :: 'e' :: r => some (.bool false, r)
        | _ => none
      else if c = '-' ∨ isDigit c then
        match parseJsonNumber (c :: rest) with
        | some (n, r) => some (.num n, r)
        | none => none
      else none
/-- Reads the elements of an array after the opening bracket, up to the closing one. -/
def parseElems : Nat → List Char → Option (List JSVal × List Char)
  | 0, _ => none
  | fuel + 1, cs =>
    match parseValue fuel (skipWs cs) with
    | none => none
    | some (v, r) =>
      match skipWs r with
      | ',' :: r' =>
        match parseElems fuel r' with
        | some (vs, r'') => some (v :: vs, r'')
        | none => none
      | ']' :: r' => some ([v], r')
      | _ => none
/-- Reads the members of an object after the opening brace, up to the closing one, in
the order of the text. -/
def parseMembers : Nat → List Char → Option (List (String × JSVal) × List Char)
  | 0, _ => none
  | fuel + 1, cs =>
    match skipWs cs with
    | '"' :: r0 =>
      match parseStringBody r0 with
      | none => none
      | some (k, r1) =>
        match skipWs r1 with
        | ':' :: r2 =>
          match parseValue fuel (skipWs r2) with
          | none => none
          | some (v, r3) =>
            match skipWs r3 with
            | ',' :: r4 =>
              match parseMembers fuel r4 with
              | some (kvs, r5) => some ((String.mk k, v) :: kvs, r5)
              | none => none
            | '}' :: r4 => some ([(String.mk k, v)], r4)
            | _ => none
        | _ => none
    | _ => none
end

mutual
/-- Builds the object of a list of members: a repeated key keeps its first place and
takes its last value; nested values are built the same way. -/
def buildVal : JSVal → JSVal
  | .arr xs => .arr (buildElems xs)
  | .obj kvs => .obj (buildProps kvs [])
  | v => v
/-- Builds the elements of an array. -/
def buildElems : List JSVal → List JSVal
  | [] => []
  | x :: xs => buildVal x :: buildElems xs
/-- Adds the members to the properties collected so far. -/
def buildProps : List (String × JSVal) → List (String × JSVal) → List (String × JSVal)
  | [], acc => acc
  | (k, v) :: rest, acc => buildProps rest (setProp k (buildVal v) acc)
end

/-- The function `JSON.parse` on a text: `none` when it throws a `SyntaxError`. -/
def jsonParse (text : String) : Option JSVal :=
  match parseValue (text.data.length + 1) (skipWs text.data) with
  | some (v, r) => if skipWs r = [] then some (buildVal v) else none
  | none => none

/-! ## Decoders -/

/-- White space that `parseInt` skips in front of the number (`StrWhiteSpaceChar`). -/
def isStrWhiteSpace (c : Char) : Bool :=
  c = ' ' || c = '\t' || c = '\n' || c = '\r' || c = '\x0b' || c = '\x0c' ||
    c.toNat = 0xA0 || c.toNat = 0xFEFF || c.toNat = 0x2028 || c.toNat = 0x2029 ||
    c.toNat = 0x1680 || (0x2000 ≤ c.toNat && c.toNat ≤ 0x200A) || c.toNat = 0x202F ||
    c.toNat = 0x205F || c.toNat = 0x3000

/-- The digits `parseInt` reads after the sign: the longest prefix of decimal digits;
without a digit the result is `NaN`. -/
def parseIntDigits (neg : Bool) (cs : List Char) : JSNum :=
  if (spanDigits cs).1 = [] then .nan
  else if neg then .int (- Int.ofNat (digitsToNat 0 (spanDigits cs).1))
  else .int (Int.ofNat (digitsToNat 0 (spanDigits cs).1))

/-- The sign `parseInt` reads after the white space. -/
def parseIntSigned : List Char → JSNum
  | '-' :: rest => parseIntDigits true rest
  | '+' :: rest => parseIntDigits false rest
  | cs => parseIntDigits false cs

/-- The call `parseInt(v, 10)`: the argument is converted to a string. -/
def parseInt (v : JSVal) : JSNum := parseIntSigned ((toChars v).dropWhile isStrWhiteSpace)

/-- The method `split` with a separator that matches single characters: the pieces
between the separators, in order (one empty piece for the empty text). -/
def splitAt (sep : Char → Bool) : List Char → List (List Char)
  | [] => [[]]
  | c :: cs =>
    if sep c then [] :: splitAt sep cs
    else
      match splitAt sep cs with
      | [] => [[c]]
      | piece :: pieces => (c :: piece) :: pieces

/-- The methods `convert` of `addressBlockParams`, by key. -/
def convert (key : String) (amount : JSVal) : JSVal :=
  if key = "gas" then .num (parseInt amount)
  else if key = "amount" then .str (String.mk (BigNumber.ofVal amount).toString10)
  else if key = "from" then amount
  else .num (parseInt amount)

/-- The element `parts[i]` of the pieces of a segment: `undefined` past the end. -/
def partAt (parts : List (List Char)) (i : Nat) : JSVal :=
  match parts.get? i with
  | some piece => .str (String.mk piece)
  | none => .undefined

/-- The body of the `forEach` over the segments in `decodeEthSend`. -/
def applySegment (result : List (String × JSVal)) (segment : List Char) :
    List (String × JSVal) :=
  let parts := splitAt (fun c => c = '=') segment
  let key := String.mk (parts.headD [])
  if key ∈ ["gas", "amount", "from", "chainId"] then
    setProp key (convert key (partAt parts 1)) result
  else result

/-- The function `decodeEthSend`: the sentinel `false`, or the object it builds. -/
def decodeEthSend (encodedStr : String) : JSVal :=
  let cs := encodedStr.data
  if cs = [] ∨ cs.take 9 ≠ "ethereum:".data then .bool false
  else
    let result : List (String × JSVal) :=
      if 51 ≤ cs.length ∧ isValidAddress (.str (String.mk ((cs.drop 9).take 42))) then
        [("to", .str (String.mk ((cs.drop 9).take 42)))]
      else []
    if 51 < cs.length then
      let uriSegments := (splitAt (fun c => c = '?' ∨ c = '&') (cs.drop 51)).tail
      .obj (uriSegments.foldl applySegment result)
    else .obj result

/-- The function `encodeEthereumUri`. The call `JSON.stringify(data)` raises a
`TypeError` when `data` holds a BigInt. -/
def encodeEthereumUri (data : JSVal) : Except Err String :=
  match validateEthereumUri data with
  | .error e => .error e
  | .ok _ =>
    if isAmountDefined (data.get "mode") = false then .ok (encodeEthSend data)
    else if holdsBigInt data then .error .typeError
    else .ok (jsonStringify data)

/-- The function `decodeEthereumUri`. -/
def decodeEthereumUri (encodedStr : String) : Except Err JSVal :=
  let data :=
    match jsonParse encodedStr with
    | some v => v
    | none => decodeEthSend encodedStr
  match validateEthereumUri data with
  | .error e => .error e
  | .ok _ => .ok data

/-! ## The allow-list of a payload -/

/-- The allow-list of the schema that `validateEthereumUri` selects for the payload,
as the five schema functions pass it to `validateAllowedProperties`; `none` when the
mode selects no schema. -/
def schemaAllowed (data : JSVal) : Option (List String) :=
  if isAmountDefined (data.get "mode") = false then
    some ["to", "from", "amount", "gas", "chainId"]
  else if strictEq (data.get "mode") (.str uriModes.contractFunction) then
    some ["to", "from", "amount", "gas", "mode", "chainId", "functionSignature", "argsDefaults"]
  else if strictEq (data.get "mode") (.str uriModes.erc20Transfer) ||
      strictEq (data.get "mode") (.str uriModes.erc20Approve) ||
      strictEq (data.get "mode") (.str uriModes.erc20TransferFrom) then
    some ["to", "from", "gas", "mode", "chainId", "argsDefaults"]
  else none

/-- The first key, in key order, that is outside a list of allowed keys. -/
def firstOutside (allowed : List String) : List String → Option String
  | [] => none
  | k :: ks => if k ∈ allowed then firstOutside allowed ks else some k

/-- The pieces joined with a separator character between them. -/
def joinWith (sep : Char) : List (List Char) → List Char
  | [] => []
  | [s] => s
  | s :: t :: rest => s ++ sep :: joinWith sep (t :: rest)

/-- The segment `key=value` that `encodeEthSend` emits for a parameter, as the list of
the segments the parameter contributes: none when the value is falsy. -/
def segmentOf (key : String) (value : JSVal) : List (List Char) :=
  if truthy value then [key.data ++ '=' :: toChars value] else []

/-- The four entries of `params` in `encodeEthSend`. -/
def sendParams (data : JSVal) : List (String × JSVal) :=
  [ ("from", if isAmountDefined (data.get "from") then data.get "from" else .null),
    ("amount",
      if isAmountDefined (data.get "amount") then
        .str (String.mk (BigNumber.ofVal (data.get "amount")).toString10)
      else .null),
    ("gas", if isAmountDefined (data.get "gas") then data.get "gas" else .null),
    ("chainId",
      if isAmountDefined (data.get "chainId") && isValidChainId (data.get "chainId") then
        data.get "chainId"
      else .null) ]

/-- The object `decodeEthSend` builds from the text of `encodeEthSend`: `to`, then one
property for each emitted segment. -/
def decodedSend (data : JSVal) : List (String × JSVal) :=
  [("to", JSVal.str (toStr (data.get "to")))] ++
    (if truthy (if isAmountDefined (data.get "from") = true then data.get "from" else .null) = true
      then [("from", JSVal.str (toStr (data.get "from")))] else []) ++
    (if isAmountDefined (data.get "amount") = true
      then [("amount", JSVal.str (String.mk (BigNumber.ofVal (data.get "amount")).toString10))]
      else []) ++
    (if truthy (if isAmountDefined (data.get "gas") = true then data.get "gas" else .null) = true
      then [("gas", JSVal.num (parseInt (.str (toStr (data.get "gas")))))] else []) ++
    (if truthy (if (isAmountDefined (data.get "chainId") && isValidChainId (data.get "chainId"))
          = true then data.get "chainId" else .null) = true
      then [("chainId", JSVal.num (parseInt (.str (toStr (data.get "chainId")))))] else [])

/-- Whether a JSON value may end in front of the text: at the end of the input or in
front of a comma, a closing bracket or a closing brace. -/
def isValueEnd : List Char → Bool
  | [] => true
  | c :: _ => c = ',' || c = ']' || c = '}'

mutual
/-- Plain JSON data: `null`, booleans, finite numbers (an integer, or a decimal in its
canonical form), strings, arrays of plain data and objects with distinct keys and plain
values. A value that is `undefined`, `NaN` or a BigInt is not plain, and neither is a
value that holds one. -/
def isPlain : JSVal → Bool
  | .undefined => false
  | .bigint _ => false
  | .null => true
  | .bool _ => true
  | .num (.int _) => true
  | .num (.frac _ m k) => decide (0 < k ∧ m % 10 ≠ 0)
  | .num .nan => false
  | .str _ => true
  | .arr xs => isPlainList xs
  | .obj kvs => isPlainProps kvs
/-- Plain elements of an array. -/
def isPlainList : List JSVal → Bool
  | [] => true
  | x :: xs => isPlain x && isPlainList xs
/-- Plain properties of an object, with distinct keys. -/
def isPlainProps : List (String × JSVal) → Bool
  | [] => true
  | (k, v) :: rest => isPlain v && decide (k ∉ rest.map Prod.fst) && isPlainProps rest
end

/-! ## Legacy queries -/

/-- One segment of the query of a legacy URI: the separator in front of it (`?` or
`&`), its key and its value. -/
structure QuerySegment where
  /-- The separator in front of the segment. -/
  sep : Char
  /-- The text before the `=`. -/
  key : String
  /-- The text after the `=`. -/
  value : String
  deriving Repr

/-- The text `key=value` of a segment. -/
def QuerySegment.body (s : QuerySegment) : List Char := s.key.data ++ '=' :: s.value.data

/-- The text of a query: every segment behind its separator. -/
def queryText : List QuerySegment → List Char
  | [] => []
  | s :: rest => s.sep :: (s.body ++ queryText rest)

/-- A character that may stand inside a key or a value: none of `?`, `&`, `=`. -/
def isSegmentChar (c : Char) : Bool := c != '?' && c != '&' && c != '='

/-- A well-formed segment: the separator is `?` or `&`, and neither the key nor the value
holds a `?`, an `&` or an `=`. -/
def QuerySegment.wellFormed (s : QuerySegment) : Bool :=
  (s.sep = '?' || s.sep = '&') && s.key.data.all isSegmentChar && s.value.data.all isSegmentChar

/-- The converted value of a segment in the reference parse: `gas` and `chainId` become
integers (the integer that the leading decimal digits of the value denote, as `parseInt`
with the radix 10 reads it), `amount` becomes the decimal string of its
arbitrary-precision value, `from` stays as it is. -/
def referenceValue (key value : String) : JSVal :=
  if key = "gas" ∨ key = "chainId" then .num (parseInt (.str value))
  else if key = "amount" then .str (String.mk (BigNumber.ofVal (.str value)).toString10)
  else .str value

/-- The reference parse of a legacy URI with the address `a` and the given segments: `to`
is the address, every segment whose key is `gas`, `amount`, `from` or `chainId` maps its
key to the converted value (a later segment with the same key replaces the value), and
the other segments are left out. -/
def referenceParse (a : String) (segs : List QuerySegment) : JSVal :=
  .obj ((segs.filter (fun s => s.key ∈ ["gas", "amount", "from", "chainId"])).foldl
    (fun r s => setProp s.key (referenceValue s.key s.value) r) [("to", .str a)])

/-- The argument names of an ERC-20 mode as the spec lists them: `to` and `amount` for
`erc20__transfer`, `spender` and `amount` for `erc20__approve`, `from`, `to` and `amount`
for `erc20__transferFrom`. -/
def erc20ArgNames (m : String) : List String :=
  if m = "erc20__transfer" then ["to", "amount"]
  else if m = "erc20__approve" then ["spender", "amount"]
  else if m = "erc20__transferFrom" then ["from", "to", "amount"]
  else []

/-! ## The segment `decodeEthSend` drops -/

/-- The value that `uriSegments.shift()` removes in `decodeEthSend` for a text longer than
51 characters: the first piece of the remainder split at `?` and `&`. -/
def droppedSegment (encodedStr : String) : List Char :=
  (splitAt (fun c => c = '?' ∨ c = '&') (encodedStr.data.drop 51)).headD []

/-! ## The part of `bignumber.js` that the embedding follows -/

/-- White space as the pattern `\s` of the library reads it: the white space of
`parseInt`, and U+180E, which older engines count as well. -/
def isPatternWhiteSpace (c : Char) : Bool := isStrWhiteSpace c || c.toNat = 0x180E

/-- Whether the text starts with a radix prefix that the constructor of `bignumber.js`
reads: an optional `-`, a `0` and one of `x`, `b`, `o` in either case. -/
def hasRadixPrefix : List Char → Bool
  | '-' :: '0' :: c :: _ => c = 'x' || c = 'X' || c = 'b' || c = 'B' || c = 'o' || c = 'O'
  | '0' :: c :: _ => c = 'x' || c = 'X' || c = 'b' || c = 'B' || c = 'o' || c = 'O'
  | _ => false

/-- A text that the constructor of `bignumber.js` reads as it stands: no white space at
either end, no `+` in front, no radix prefix. The constructor removes these from a text
that is not a decimal literal and reads the rest again, which `BigNumber.ofChars` does
not follow. -/
def readAsWritten (cs : List Char) : Bool :=
  !(cs.head?.any (fun c => isPatternWhiteSpace c || c = '+')) &&
    !(cs.getLast?.any isPatternWhiteSpace) && !hasRadixPrefix cs

/-- Whether the value lies within the exponent range of the library: it is `NaN` or
zero, or the exponent of its leading digit is between `-1e7` and `1e7` (the defaults
`MIN_EXP` and `MAX_EXP`). Past this range the constructor yields `Infinity` or zero,
which `BigNumber.ofChars` does not follow. -/
def BigNumber.inRange : BigNumber → Bool
  | .nan => true
  | .fin _ m e =>
    m == 0 || (decide (-10000000 ≤ Int.ofNat (natToDec m).length - 1 + e) &&
      decide (Int.ofNat (natToDec m).length - 1 + e ≤ 10000000))

/-- The amounts on which `BigNumber.ofVal` follows `new BigNumber(amount)`: `undefined`
and `null`, an integer number of magnitude at most `2 ^ 53` (above it a number of the
engine is not exact), a number with a fraction in its shortest form, `NaN`, and any
other value whose text is read as it stands and denotes a value within the exponent
range of the library. -/
def amountInScope : JSVal → Bool
  | .undefined => true
  | .null => true
  | .num (.int i) => decide (i.natAbs ≤ 2 ^ 53)
  | .num (.frac _ m k) => decide (0 < k ∧ m % 10 ≠ 0)
  | .num .nan => true
  | v => readAsWritten (toChars v) && (BigNumber.ofChars (toChars v)).inRange

/-- Whether the number is one that the engine holds exactly: `NaN`, a number with a
fraction, or an integer of magnitude at most `2 ^ 53` (above it `parseInt` rounds to the
nearest number of the engine, which the embedding does not follow). -/
def JSNum.isExact : JSNum → Bool
  | .int i => decide (i.natAbs ≤ 2 ^ 53)
  | _ => true

/-- The segments on which `convert` follows the code: the value of a `gas` or `chainId`
segment is read by `parseInt` as a number that the engine holds exactly, and the value of
an `amount` segment is a decimal literal within the exponent range of the library (on any
other text `new BigNumber` raises an error or rewrites the text first). -/
def QuerySegment.inScope (s : QuerySegment) : Bool :=
  if s.key = "gas" ∨ s.key = "chainId" then (parseInt (.str s.value)).isExact
  else if s.key = "amount" then
    decide (BigNumber.ofChars s.value.data ≠ .nan) && (BigNumber.ofChars s.value.data).inRange
  else true

end EthQR

/-! # Properties -/

namespace EthQR

/-! ## Decimal digits -/

theorem isDigit_digitChar (d : Nat) : isDigit (digitChar d) = true := by
  unfold digitChar
  split <;> decide

theorem digitVal_digitChar (d : Nat) (h : d < 10) : digitVal? (digitChar d) = some d := by
  interval_cases d <;> decide

theorem digitChar_ne_zero (d : Nat) (h : 0 < d) : digitChar d ≠ '0' := by
  unfold digitChar
  split <;> first | omega | decide

theorem natDigitsAux_fuel (fuel : Nat) :
    ∀ (fuel' n : Nat) (acc : List Char), n < fuel → n < fuel' →
      natDigitsAux fuel n acc = natDigitsAux fuel' n acc := by
  induction fuel with
  | zero => intro fuel' n acc h; omega
  | succ f ih =>
    intro fuel' n acc h h'
    cases fuel' with
    | zero => omega
    | succ f' =>
      unfold natDigitsAux
      by_cases hn : n < 10
      · simp [hn]
      · simp only [hn, if_false]
        exact ih f' (n / 10) _ (by omega) (by omega)

theorem natDigitsAux_acc (fuel : Nat) :
    ∀ (n : Nat) (acc : List Char), natDigitsAux fuel n acc = natDigitsAux fuel n [] ++ acc := by
  induction fuel with
  | zero => intro n acc; simp [natDigitsAux]
  | succ f ih =>
    intro n acc
    unfold natDigitsAux
    by_cases hn : n < 10
    · simp [hn]
    · simp only [hn, if_false]
      rw [ih (n / 10) (digitChar (n % 10) :: acc), ih (n / 10) [digitChar (n % 10)]]
      simp

theorem natToDec_lt (n : Nat) (h : n < 10) : natToDec n = [digitChar n] := by
  simp [natToDec, natDigitsAux, h]

theorem natToDec_ge (n : Nat) (h : 10 ≤ n) :
    natToDec n = natToDec (n / 10) ++ [digitChar (n % 10)] := by
  have hn : ¬ n < 10 := by omega
  unfold natToDec
  rw [natDigitsAux]
  simp only [hn, if_false]
  rw [natDigitsAux_acc, natDigitsAux_fuel n (n / 10 + 1) (n / 10) [] (by omega) (by omega)]

theorem natToDec_all_digits (n : Nat) : ∀ c ∈ natToDec n, isDigit c = true := by
  induction n using Nat.strong_induction_on with
  | _ n ih =>
    by_cases h : n < 10
    · rw [natToDec_lt n h]
      simp [isDigit_digitChar]
    · rw [natToDec_ge n (by omega)]
      intro c hc
      rcases List.mem_append.mp hc with hc | hc
      · exact ih (n / 10) (by omega) c hc
      · simp only [List.mem_singleton] at hc
        subst hc
        exact isDigit_digitChar _

theorem natToDec_ne_nil (n : Nat) : natToDec n ≠ [] := by
  by_cases h : n < 10
  · rw [natToDec_lt n h]; simp
  · rw [natToDec_ge n (by omega)]; simp

theorem natToDec_head (n : Nat) (hn : 0 < n) :
    ∃ d t, natToDec n = d :: t ∧ isDigit d = true ∧ d ≠ '0' := by
  induction n using Nat.strong_induction_on with
  | _ n ih =>
    by_cases h : n < 10
    · exact ⟨digitChar n, [], natToDec_lt n h, isDigit_digitChar n, digitChar_ne_zero n hn⟩
    · obtain ⟨d, t, h1, h2, h3⟩ := ih (n / 10) (by omega) (by omega)
      exact ⟨d, t ++ [digitChar (n % 10)], by rw [natToDec_ge n (by omega), h1]; rfl, h2, h3⟩

theorem digitsToNat_append (ds : List Char) :
    ∀ (acc : Nat) (c : Char),
      digitsToNat acc (ds ++ [c]) = digitsToNat acc ds * 10 + (digitVal? c).getD 0 := by
  induction ds with
  | nil => intro acc c; simp [digitsToNat]
  | cons d ds ih => intro acc c; simp [digitsToNat, ih]

theorem digitsToNat_natToDec (n : Nat) : digitsToNat 0 (natToDec n) = n := by
  induction n using Nat.strong_induction_on with
  | _ n ih =>
    by_cases h : n < 10
    · rw [natToDec_lt n h]
      simp [digitsToNat, digitVal_digitChar n h]
    · rw [natToDec_ge n (by omega), digitsToNat_append, ih (n / 10) (by omega),
        digitVal_digitChar (n % 10) (Nat.mod_lt _ (by omega))]
      simp only [Option.getD_some]
      omega

theorem digitsToNat_ge (ds : List Char) : ∀ acc : Nat, acc ≤ digitsToNat acc ds := by
  induction ds with
  | nil => intro acc; simp [digitsToNat]
  | cons d ds ih =>
    intro acc
    simp only [digitsToNat]
    exact le_trans (by omega) (ih _)

theorem spanDigits_append (ds rest : List Char) (hds : ∀ c ∈ ds, isDigit c = true)
    (hrest : ∀ c r, rest = c :: r → isDigit c = false) :
    spanDigits (ds ++ rest) = (ds, rest) := by
  induction ds with
  | nil =>
    cases rest with
    | nil => rfl
    | cons c r => simp [spanDigits, hrest c r rfl]
  | cons d ds ih =>
    have hd : isDigit d = true := hds d (List.mem_cons_self _ _)
    have ih' := ih (fun c hc => hds c (List.mem_cons_of_mem _ hc))
    simp [spanDigits, hd, ih']

theorem spanDigits_all (ds : List Char) (hds : ∀ c ∈ ds, isDigit c = true) :
    spanDigits ds = (ds, []) := by
  have := spanDigits_append ds [] hds (by intro c r h; cases h)
  simpa using this

theorem spanDigits_fst_digits (cs : List Char) : ∀ c ∈ (spanDigits cs).1, isDigit c = true := by
  induction cs with
  | nil => simp [spanDigits]
  | cons d ds ih =>
    by_cases hd : isDigit d = true
    · simp only [spanDigits, hd, if_true, List.mem_cons]
      rintro c (rfl | hc)
      · exact hd
      · exact ih c hc
    · simp [spanDigits, hd]

/-! ## Allow-lists -/

theorem checkAllowed_eq (allowed : List String) (keys : List String) :
    checkAllowed allowed keys =
      match firstOutside allowed keys with
      | some k => .error (.notAllowed k allowed)
      | none => .ok () := by
  induction keys with
  | nil => rfl
  | cons k ks ih =>
    by_cases h : k ∈ allowed
    · simp [checkAllowed, firstOutside, h, ih]
    · simp [checkAllowed, firstOutside, h]

theorem firstOutside_some_of_mem (allowed : List String) (keys : List String) (k : String)
    (hk : k ∈ keys) (hn : k ∉ allowed) : ∃ k0, firstOutside allowed keys = some k0 := by
  induction keys with
  | nil => simp at hk
  | cons a ks ih =>
    by_cases h : a ∈ allowed
    · have hk' : k ∈ ks := by
        rcases List.mem_cons.mp hk with rfl | h'
        · exact absurd h hn
        · exact h'
      simpa [firstOutside, h] using ih hk'
    · exact ⟨a, by simp [firstOutside, h]⟩

theorem firstOutside_spec (allowed : List String) (keys : List String) (k0 : String)
    (h : firstOutside allowed keys = some k0) : k0 ∈ keys ∧ k0 ∉ allowed := by
  induction keys with
  | nil => simp [firstOutside] at h
  | cons a ks ih =>
    by_cases ha : a ∈ allowed
    · simp only [firstOutside, ha, if_true] at h
      exact ⟨List.mem_cons_of_mem _ (ih h).1, (ih h).2⟩
    · simp only [firstOutside, ha, if_false, Option.some.injEq] at h
      subst h
      exact ⟨List.mem_cons_self _ _, ha⟩

theorem firstOutside_none (allowed : List String) (keys : List String)
    (h : firstOutside allowed keys = none) : ∀ k ∈ keys, k ∈ allowed := by
  induction keys with
  | nil => simp
  | cons a ks ih =>
    by_cases ha : a ∈ allowed
    · simp only [firstOutside, ha, if_true] at h
      intro k hk
      rcases List.mem_cons.mp hk with rfl | h'
      · exact ha
      · exact ih h k h'
    · simp [firstOutside, ha] at h

/-- What `validateEthereumUri` does first on a payload whose mode selects a schema: the
allow-list check of that schema. -/
theorem validate_notAllowed (data : JSVal) (keys allowed : List String) (k0 : String)
    (hkeys : objectKeys data = .ok keys) (hs : schemaAllowed data = some allowed)
    (h0 : firstOutside allowed keys = some k0) :
    validateEthereumUri data = .error (.notAllowed k0 allowed) := by
  have hnn : data ≠ .null ∧ data ≠ .undefined := by
    constructor <;> rintro rfl <;> simp [objectKeys] at hkeys
  unfold schemaAllowed at hs
  unfold validateEthereumUri
  split
  · exact absurd rfl hnn.1
  · exact absurd rfl hnn.2
  · split_ifs at hs with h1 h2 h3
    · cases hs
      simp [h1, validateUriSchemaBasic, validateAllowedProperties, hkeys, checkAllowed_eq, h0]
    · cases hs
      simp [h1, h2, validateUriSchemaFunction, validateAllowedProperties, hkeys,
        checkAllowed_eq, h0]
    · cases hs
      simp only [Bool.or_eq_true] at h3
      simp only [h1, h2, if_false, Bool.false_eq_true]
      split_ifs <;>
        simp_all [validateUriSchemaERC20Transfer, validateUriSchemaERC20Approve,
          validateUriSchemaERC20TransferFrom, validateAllowedProperties, checkAllowed_eq]

theorem objectKeys_ok_of_defined (data : JSVal) (h1 : data ≠ .null) (h2 : data ≠ .undefined) :
    ∃ keys, objectKeys data = .ok keys := by
  cases data <;> simp [objectKeys] at *

/-- What a successful validation guarantees about the payload: a schema was selected, no
key is outside its allow-list, and `to` is defined and matches the address pattern. -/
theorem validate_ok_inv (data : JSVal) (h : validateEthereumUri data = .ok ()) :
    isAmountDefined (data.get "to") = true ∧ isValidAddress (data.get "to") = true ∧
      ∃ allowed keys, schemaAllowed data = some allowed ∧ objectKeys data = .ok keys ∧
        ∀ k ∈ keys, k ∈ allowed := by
  have hnn : data ≠ .null ∧ data ≠ .undefined := by
    constructor <;> rintro rfl <;> simp [validateEthereumUri] at h
  obtain ⟨keys, hkeys⟩ := objectKeys_ok_of_defined data hnn.1 hnn.2
  have hsome : ∃ allowed, schemaAllowed data = some allowed := by
    unfold validateEthereumUri at h
    unfold schemaAllowed
    split at h
    · exact absurd rfl hnn.1
    · exact absurd rfl hnn.2
    · split_ifs at h ⊢ <;> simp_all
  obtain ⟨allowed, hs⟩ := hsome
  have hfirst : firstOutside allowed keys = none := by
    cases h0 : firstOutside allowed keys with
    | none => rfl
    | some k0 =>
      rw [validate_notAllowed data keys allowed k0 hkeys hs h0] at h
      cases h
  refine ⟨?_, ?_, allowed, keys, hs, hkeys, firstOutside_none allowed keys hfirst⟩
  all_goals
    unfold validateEthereumUri at h
    split at h
    · exact absurd rfl hnn.1
    · exact absurd rfl hnn.2
    · by_contra hto
      have hreq : isValidRequiredParam (data.get "to") isValidAddress = false := by
        simp only [isValidRequiredParam]
        cases h1 : isAmountDefined (data.get "to") <;>
          cases h2 : isValidAddress (data.get "to") <;> simp_all
      split_ifs at h <;>
        simp [validateUriSchemaBasic, validateUriSchemaFunction, validateUriSchemaERC20Transfer,
          validateUriSchemaERC20Approve, validateUriSchemaERC20TransferFrom, hreq] at h <;>
        (split at h <;> simp at h)

/-! ## The amount check -/

theorem neg_ofNat_ne_ofNat (a n : Nat) (ha : 0 < a) : - Int.ofNat a ≠ Int.ofNat n := by
  intro h
  have h1 : (0 : Int) ≤ Int.ofNat n := Int.ofNat_zero_le n
  have h2 : (0 : Int) < Int.ofNat a := Int.ofNat_pos.mpr ha
  omega

theorem mul_two_pow_not_le (m P e : Nat) (he : e ≠ 0) (hm : 0 < m) (hle : P ≤ m) :
    ¬ m * 2 ^ e ≤ P := by
  have h2 : 1 < 2 ^ e := Nat.one_lt_two_pow he
  generalize 2 ^ e = c at h2
  intro hc
  have : m * 2 ≤ m * c := Nat.mul_le_mul_left m h2
  omega

theorem integer_geZero_iff (b : BigNumber) :
    (b.isInteger && b.geZero) = true ↔ ∃ n : Nat, b.toInt? = some (Int.ofNat n) := by
  cases b with
  | nan => simp [BigNumber.isInteger, BigNumber.toInt?]
  | fin neg m e =>
    cases e with
    | ofNat e =>
      simp only [BigNumber.isInteger, BigNumber.geZero, BigNumber.toInt?, Bool.true_and]
      cases neg with
      | false => exact ⟨fun _ => ⟨_, rfl⟩, fun _ => by simp⟩
      | true =>
        by_cases hm : m = 0
        · subst hm
          exact ⟨fun _ => ⟨0, by simp⟩, fun _ => by simp⟩
        · have hpos : 0 < m * 10 ^ e := Nat.mul_pos (Nat.pos_of_ne_zero hm) (by positivity)
          constructor
          · intro h
            simp [hm] at h
          · rintro ⟨n, hn⟩
            simp only [if_true, Option.some.injEq] at hn
            exact absurd hn (neg_ofNat_ne_ofNat _ _ hpos)
    | negSucc k =>
      simp only [BigNumber.isInteger, BigNumber.geZero, BigNumber.toInt?]
      by_cases hdiv : m % 10 ^ (k + 1) = 0
      · simp only [hdiv, beq_self_eq_true, Bool.true_and, if_true]
        cases neg with
        | false => exact ⟨fun _ => ⟨_, rfl⟩, fun _ => rfl⟩
        | true =>
          by_cases hm : m = 0
          · subst hm
            exact ⟨fun _ => ⟨0, by simp⟩, fun _ => rfl⟩
          · have hp : 0 < 10 ^ (k + 1) := by positivity
            have hle : 10 ^ (k + 1) ≤ m :=
              Nat.le_of_dvd (Nat.pos_of_ne_zero hm) (Nat.dvd_of_mod_eq_zero hdiv)
            have hq : 0 < m / 10 ^ (k + 1) := Nat.div_pos hle hp
            have hbig : ¬ m * 2 ^ 1075 ≤ 10 ^ (k + 1) :=
              mul_two_pow_not_le m _ 1075 (by omega) (Nat.pos_of_ne_zero hm) hle
            constructor
            · intro h
              simp only [Bool.not_true, Bool.false_or, Bool.or_eq_true, beq_iff_eq,
                decide_eq_true_eq] at h
              rcases h with h | h
              · exact absurd h hm
              · exact absurd h hbig
            · rintro ⟨n, hn⟩
              simp only [if_true, Option.some.injEq] at hn
              exact absurd hn (neg_ofNat_ne_ofNat _ _ hq)
      · have hb : (m % 10 ^ (k + 1) == 0) = false := by simpa using hdiv
        rw [if_neg hdiv, hb]
        constructor
        · intro h
          cases h
        · rintro ⟨n, hn⟩
          cases hn

theorem isValidEthAmount_iff (amount : JSVal) :
    isValidEthAmount amount = true ↔
      ∃ n : Nat, (BigNumber.ofVal amount).toInt? = some (Int.ofNat n) := by
  unfold isValidEthAmount
  exact integer_geZero_iff _

/-! ## Field checks -/

theorem isAmountDefined_eq_false (v : JSVal) :
    isAmountDefined v = false ↔ v = .undefined ∨ v = .null := by
  cases v <;> simp [isAmountDefined]

theorem isAmountDefined_eq_true (v : JSVal) :
    isAmountDefined v = true ↔ v ≠ .undefined ∧ v ≠ .null := by
  cases v <;> simp [isAmountDefined]

theorem isValidOptionalParam_iff (v : JSVal) (f : JSVal → Bool) :
    isValidOptionalParam v f = true ↔ v = .undefined ∨ v = .null ∨ f v = true := by
  cases v <;> simp [isValidOptionalParam, isAmountDefined]

theorem isValidRequiredParam_iff (v : JSVal) (f : JSVal → Bool) :
    isValidRequiredParam v f = true ↔ v ≠ .undefined ∧ v ≠ .null ∧ f v = true := by
  cases v <;> simp [isValidRequiredParam, isAmountDefined]

theorem isValidGasAmount_iff (v : JSVal) :
    isValidGasAmount v = true ↔ ∃ n : Nat, v = .num (.int (Int.ofNat n)) := by
  unfold isValidGasAmount
  split
  · rename_i i
    simp only [decide_eq_true_eq, JSVal.num.injEq, JSNum.int.injEq]
    constructor
    · intro h
      exact ⟨i.toNat, by simp [Int.toNat_of_nonneg h]⟩
    · rintro ⟨n, rfl⟩
      exact Int.ofNat_zero_le n
  · rename_i hne
    simp only [Bool.false_eq_true, false_iff, not_exists]
    intro n hn
    exact hne _ hn

theorem isValidChainId_iff (v : JSVal) :
    isValidChainId v = true ↔ ∃ n : Nat, 0 < n ∧ v = .num (.int (Int.ofNat n)) := by
  unfold isValidChainId
  split
  · rename_i i
    simp only [decide_eq_true_eq, JSVal.num.injEq, JSNum.int.injEq]
    constructor
    · intro h
      refine ⟨i.toNat, by omega, ?_⟩
      simp [Int.toNat_of_nonneg (le_of_lt h)]
    · rintro ⟨n, hn, rfl⟩
      exact Int.ofNat_pos.mpr hn
  · rename_i hne
    simp only [Bool.false_eq_true, false_iff, not_exists, not_and]
    intro n _ hn
    exact hne _ hn

theorem firstOutside_eq_none_iff (allowed keys : List String) :
    firstOutside allowed keys = none ↔ ∀ k ∈ keys, k ∈ allowed := by
  constructor
  · exact firstOutside_none allowed keys
  · intro h
    cases h0 : firstOutside allowed keys with
    | none => rfl
    | some k0 =>
      have := firstOutside_spec allowed keys k0 h0
      exact absurd (h k0 this.1) this.2

/-- The basic schema as one conjunction of its checks. -/
theorem validateUriSchemaBasic_ok_iff (kvs : List (String × JSVal)) :
    validateUriSchemaBasic (.obj kvs) = .ok () ↔
      (∀ k ∈ kvs.map Prod.fst, k ∈ ["to", "from", "amount", "gas", "chainId"]) ∧
      isValidRequiredParam ((JSVal.obj kvs).get "to") isValidAddress = true ∧
      isValidOptionalParam ((JSVal.obj kvs).get "from") isValidAddress = true ∧
      isValidOptionalParam ((JSVal.obj kvs).get "amount") isValidEthAmount = true ∧
      isValidOptionalParam ((JSVal.obj kvs).get "gas") isValidGasAmount = true ∧
      isValidOptionalParam ((JSVal.obj kvs).get "chainId") isValidChainId = true := by
  unfold validateUriSchemaBasic validateAllowedProperties
  simp only [objectKeys, checkAllowed_eq]
  rw [← firstOutside_eq_none_iff]
  cases h0 : firstOutside ["to", "from", "amount", "gas", "chainId"] (kvs.map Prod.fst) with
  | some k0 => simp
  | none =>
    simp only [true_and]
    cases isValidRequiredParam ((JSVal.obj kvs).get "to") isValidAddress <;>
    cases isValidOptionalParam ((JSVal.obj kvs).get "from") isValidAddress <;>
    cases isValidOptionalParam ((JSVal.obj kvs).get "amount") isValidEthAmount <;>
    cases isValidOptionalParam ((JSVal.obj kvs).get "gas") isValidGasAmount <;>
    cases isValidOptionalParam ((JSVal.obj kvs).get "chainId") isValidChainId <;>
    simp

theorem validate_basic_eq (kvs : List (String × JSVal))
    (hmode : isAmountDefined ((JSVal.obj kvs).get "mode") = false) :
    validateEthereumUri (.obj kvs) = validateUriSchemaBasic (.obj kvs) := by
  simp [validateEthereumUri, hmode]

/-! ## BigNumber on decimal texts -/

theorem natToDec_head_digit (n : Nat) :
    ∃ d t, natToDec n = d :: t ∧ isDigit d = true := by
  cases h : natToDec n with
  | nil => exact absurd h (natToDec_ne_nil n)
  | cons d t =>
    exact ⟨d, t, rfl, natToDec_all_digits n d (by rw [h]; exact List.mem_cons_self _ _)⟩

theorem ofChars_natToDec (n : Nat) : BigNumber.ofChars (natToDec n) = .fin false n 0 := by
  obtain ⟨d, t, hdt, hd⟩ := natToDec_head_digit n
  have hne : d ≠ '-' := by
    rintro rfl
    exact absurd hd (by decide)
  have hspan := spanDigits_all (natToDec n) (natToDec_all_digits n)
  have hval := digitsToNat_natToDec n
  rw [hdt] at hspan hval ⊢
  unfold BigNumber.ofChars
  split
  · rename_i h
    injection h with h1 _
    exact absurd h1 hne
  · simp [parseUnsigned, hspan, parseExponent, hval]

theorem toString10_natural (n : Nat) :
    (BigNumber.fin false n 0).toString10 = natToDec n := by
  show (BigNumber.fin false n (Int.ofNat 0)).toString10 = natToDec n
  simp [BigNumber.toString10]

theorem fixedPoint_of_dvd (m k : Nat) (h : m % 10 ^ k = 0) :
    fixedPoint m k = natToDec (m / 10 ^ k) := by
  simp [fixedPoint, h]

theorem toString10_of_toInt (b : BigNumber) (n : Nat) (h : b.toInt? = some (Int.ofNat n)) :
    b.toString10 = natToDec n := by
  cases b with
  | nan => simp [BigNumber.toInt?] at h
  | fin neg m e =>
    cases e with
    | ofNat e =>
      simp only [BigNumber.toInt?, Option.some.injEq] at h
      cases neg with
      | false =>
        simp only [Bool.false_eq_true, if_false] at h
        have : m * 10 ^ e = n := Int.ofNat.inj h
        simp [BigNumber.toString10, this]
      | true =>
        simp only [if_true] at h
        have h0 : m * 10 ^ e = 0 := by
          by_contra hne
          exact neg_ofNat_ne_ofNat _ n (Nat.pos_of_ne_zero hne) h
        have hn : n = 0 := by
          rw [h0] at h
          have : (0 : Int) = Int.ofNat n := by simpa using h
          exact (Int.ofNat.inj this).symm
        have hm : m = 0 := by
          rcases Nat.mul_eq_zero.mp h0 with h1 | h1
          · exact h1
          · exact absurd h1 (by positivity)
        subst hm hn
        simp [BigNumber.toString10]
    | negSucc k =>
      simp only [BigNumber.toInt?] at h
      by_cases hdiv : m % 10 ^ (k + 1) = 0
      · simp only [hdiv, if_true, Option.some.injEq] at h
        have hq : (if neg = true then m = 0 else True) ∧ m / 10 ^ (k + 1) = n := by
          cases neg with
          | false =>
            simp only [Bool.false_eq_true, if_false] at h
            exact ⟨by simp, Int.ofNat.inj h⟩
          | true =>
            simp only [if_true] at h
            have h0 : m / 10 ^ (k + 1) = 0 := by
              by_contra hne
              exact neg_ofNat_ne_ofNat _ n (Nat.pos_of_ne_zero hne) h
            have hn : n = 0 := by
              rw [h0] at h
              have : (0 : Int) = Int.ofNat n := by simpa using h
              exact (Int.ofNat.inj this).symm
            have hm : m = 0 := by
              have := Nat.div_add_mod m (10 ^ (k + 1))
              rw [h0, hdiv] at this
              simpa using this.symm
            exact ⟨by simpa using hm, by rw [h0, hn]⟩
        obtain ⟨hsign, hq⟩ := hq
        have hmq : m = n * 10 ^ (k + 1) := by
          have := Nat.div_add_mod m (10 ^ (k + 1))
          rw [hq, hdiv] at this
          rw [← this]; ring
        simp only [BigNumber.toString10]
        by_cases hk : 20 < k + 1
        · simp only [hk, if_true]
          have hpow : 10 ^ (k + 1) = 10 ^ 20 * 10 ^ (k + 1 - 20) := by
            rw [← pow_add]; congr 1; omega
          have hlt : 5 * 10 ^ (k - 20) < 10 ^ (k + 1 - 20) := by
            have : k + 1 - 20 = (k - 20) + 1 := by omega
            rw [this, pow_succ]
            have : 0 < 10 ^ (k - 20) := by positivity
            omega
          have hm' : (m + 5 * 10 ^ (k - 20)) / 10 ^ (k + 1 - 20) = n * 10 ^ 20 := by
            rw [hmq, hpow, ← mul_assoc, Nat.add_comm, Nat.add_mul_div_right _ _ (by positivity),
              Nat.div_eq_of_lt hlt]
            simp
          rw [hm']
          have hs : ¬ (neg = true ∧ m ≠ 0) := by
            rintro ⟨h1, h2⟩
            simp only [h1, if_true] at hsign
            exact h2 hsign
          rw [if_neg hs, fixedPoint_of_dvd _ _ (by simp)]
          simp
        · simp only [hk, if_false]
          have hs : ¬ (neg = true ∧ m ≠ 0) := by
            rintro ⟨h1, h2⟩
            simp only [h1, if_true] at hsign
            exact h2 hsign
          rw [if_neg hs, fixedPoint_of_dvd _ _ hdiv, hq]
          simp
      · simp [hdiv] at h

theorem isValidEthAmount_natToDec (n : Nat) :
    isValidEthAmount (.str (String.mk (natToDec n))) = true := by
  rw [isValidEthAmount_iff]
  refine ⟨n, ?_⟩
  show (BigNumber.ofChars (natToDec n)).toInt? = _
  rw [ofChars_natToDec]
  show (BigNumber.fin false n (Int.ofNat 0)).toInt? = _
  simp [BigNumber.toInt?]

theorem convert_amount_natToDec (n : Nat) :
    convert "amount" (.str (String.mk (natToDec n))) = .str (String.mk (natToDec n)) := by
  have h : BigNumber.ofVal (.str (String.mk (natToDec n))) = .fin false n 0 :=
    ofChars_natToDec n
  simp only [convert, h, toString10_natural]
  rw [if_neg (by decide), if_pos trivial]

/-! ## Texts -/

theorem isDigit_iff (c : Char) :
    isDigit c = true ↔
      c = '0' ∨ c = '1' ∨ c = '2' ∨ c = '3' ∨ c = '4' ∨ c = '5' ∨ c = '6' ∨ c = '7' ∨
        c = '8' ∨ c = '9' := by
  unfold isDigit digitVal?
  constructor
  · intro h
    split_ifs at h <;> simp_all
  · rintro (h | h | h | h | h | h | h | h | h | h) <;> subst h <;> decide

theorem joinWith_cons (sep : Char) (s : List Char) (rest : List (List Char)) :
    joinWith sep (s :: rest) = s ++ rest.flatMap (fun a => sep :: a) := by
  induction rest generalizing s with
  | nil => simp [joinWith]
  | cons t rest ih => simp [joinWith, ih]

theorem intercalate_go_data (sep : String) (l : List String) :
    ∀ acc : String,
      (String.intercalate.go acc sep l).data = acc.data ++ l.flatMap (fun a => sep.data ++ a.data) := by
  induction l with
  | nil => intro acc; simp [String.intercalate.go]
  | cons a l ih =>
    intro acc
    simp [String.intercalate.go, ih, String.data_append]

theorem intercalate_amp_data (l : List String) :
    ("&".intercalate l).data = joinWith '&' (l.map String.data) := by
  cases l with
  | nil => rfl
  | cons a l =>
    simp only [String.intercalate, intercalate_go_data, List.map_cons, joinWith_cons]
    congr 1
    induction l with
    | nil => rfl
    | cons b l ih =>
      simp only [List.flatMap_cons, List.map_cons, ih]
      rfl

theorem splitAt_ne_nil (sep : Char → Bool) (cs : List Char) : splitAt sep cs ≠ [] := by
  cases cs with
  | nil => simp [splitAt]
  | cons c cs =>
    unfold splitAt
    split_ifs
    · simp
    · split <;> simp

theorem splitAt_no_sep (sep : Char → Bool) (s : List Char) (hs : ∀ c ∈ s, sep c = false) :
    splitAt sep s = [s] := by
  induction s with
  | nil => rfl
  | cons c s ih =>
    have hc : sep c = false := hs c (List.mem_cons_self _ _)
    have ih' := ih (fun x hx => hs x (List.mem_cons_of_mem _ hx))
    simp [splitAt, hc, ih']

theorem splitAt_append_sep (sep : Char → Bool) (s : List Char) (c0 : Char) (r : List Char)
    (hs : ∀ c ∈ s, sep c = false) (h0 : sep c0 = true) :
    splitAt sep (s ++ c0 :: r) = s :: splitAt sep r := by
  induction s with
  | nil => simp [splitAt, h0]
  | cons c s ih =>
    have hc : sep c = false := hs c (List.mem_cons_self _ _)
    have ih' := ih (fun x hx => hs x (List.mem_cons_of_mem _ hx))
    simp [splitAt, hc, ih']

theorem splitAt_joinWith (sep : Char → Bool) (c0 : Char) (h0 : sep c0 = true)
    (segs : List (List Char)) (hne : segs ≠ [])
    (hs : ∀ s ∈ segs, ∀ c ∈ s, sep c = false) :
    splitAt sep (joinWith c0 segs) = segs := by
  induction segs with
  | nil => exact absurd rfl hne
  | cons s rest ih =>
    cases rest with
    | nil => simpa [joinWith] using splitAt_no_sep sep s (hs s (List.mem_cons_self _ _))
    | cons t rest =>
      have ih' := ih (by simp) (fun x hx => hs x (List.mem_cons_of_mem _ hx))
      simp only [joinWith]
      rw [splitAt_append_sep sep s c0 _ (hs s (List.mem_cons_self _ _)) h0, ih']

theorem applySegment_nil (result : List (String × JSVal)) : applySegment result [] = result := by
  simp [applySegment, splitAt]

theorem applySegment_keyValue (result : List (String × JSVal)) (k : String) (v : List Char)
    (hk : k ∈ ["gas", "amount", "from", "chainId"]) (hv : ∀ c ∈ v, c ≠ '=') :
    applySegment result (k.data ++ '=' :: v) =
      setProp k (convert k (.str (String.mk v))) result := by
  have hkd : ∀ c ∈ k.data, (fun c => decide (c = '=')) c = false := by
    simp only [List.mem_cons, List.mem_singleton, List.not_mem_nil, or_false] at hk
    rcases hk with rfl | rfl | rfl | rfl <;> decide
  have hsplit : splitAt (fun c => decide (c = '=')) (k.data ++ '=' :: v) = [k.data, v] := by
    rw [splitAt_append_sep _ k.data '=' v hkd (by simp), splitAt_no_sep]
    intro c hc
    simpa using hv c hc
  simp only [applySegment, hsplit, List.headD_cons, partAt, List.get?_cons_succ,
    List.get?_cons_zero]
  rw [if_pos hk]

theorem stripTrailingZeros_subset (ds : List Char) : ∀ c ∈ stripTrailingZeros ds, c ∈ ds := by
  intro c hc
  unfold stripTrailingZeros at hc
  rw [List.mem_reverse] at hc
  have hsub : List.Sublist (List.dropWhile (fun c => decide (c = '0')) ds.reverse) ds.reverse :=
    List.dropWhile_sublist _
  have := hsub.subset hc
  exact List.mem_reverse.mp this

theorem stripTrailingZeros_cons (d : Char) (t : List Char) (hd : d ≠ '0') :
    ∃ t', stripTrailingZeros (d :: t) = d :: t' := by
  unfold stripTrailingZeros
  have hrev : (d :: t).reverse = t.reverse ++ [d] := by simp
  rw [hrev]
  have hmem : d ∈ List.dropWhile (fun c => decide (c = '0')) (t.reverse ++ [d]) ∧
      ∃ pre, List.dropWhile (fun c => decide (c = '0')) (t.reverse ++ [d]) = pre ++ [d] := by
    generalize t.reverse = r
    induction r with
    | nil => simp [List.dropWhile, hd]
    | cons x r ih =>
      by_cases hx : x = '0'
      · simpa [List.dropWhile, hx] using ih
      · exact ⟨by simp [List.dropWhile, hx], x :: r, by simp [List.dropWhile, hx]⟩
  obtain ⟨_, pre, hpre⟩ := hmem
  exact ⟨pre.reverse, by rw [hpre]; simp⟩

theorem natToJSString_chars (n : Nat) :
    ∀ c ∈ natToJSString n, isDigit c = true ∨ c = '.' ∨ c = 'e' ∨ c = '+' := by
  have hd := natToDec_all_digits
  have hsub := stripTrailingZeros_subset (natToDec n)
  unfold natToJSString
  split_ifs with h
  · exact fun c hc => Or.inl (hd n c hc)
  · simp only
    split
    · exact fun c hc => Or.inl (hd n c hc)
    · rename_i d hsig
      intro c hc
      simp only [List.mem_cons] at hc
      rcases hc with rfl | rfl | rfl | hc
      · exact Or.inl (hd n _ (hsub _ (by rw [hsig]; simp)))
      · simp
      · simp
      · exact Or.inl (hd _ c hc)
    · rename_i d rest _ hsig
      intro c hc
      simp only [List.mem_cons, List.mem_append] at hc
      rcases hc with rfl | rfl | hc | rfl | rfl | hc
      · exact Or.inl (hd n _ (hsub _ (by rw [hsig]; simp)))
      · simp
      · exact Or.inl (hd n _ (hsub _ (by rw [hsig]; simp [hc])))
      · simp
      · simp
      · exact Or.inl (hd _ c hc)

theorem natToJSString_head (n : Nat) (hn : 0 < n) :
    ∃ d t, natToJSString n = d :: t ∧ isDigit d = true ∧ d ≠ '0' := by
  obtain ⟨d, t, hdt, hd, hd0⟩ := natToDec_head n hn
  unfold natToJSString
  split_ifs with h
  · exact ⟨d, t, hdt, hd, hd0⟩
  · simp only
    obtain ⟨t', ht'⟩ := stripTrailingZeros_cons d t hd0
    rw [hdt, ht']
    cases t' with
    | nil => exact ⟨d, _, rfl, hd, hd0⟩
    | cons x xs => exact ⟨d, _, rfl, hd, hd0⟩

theorem isDigit_not_space (d : Char) (hd : isDigit d = true) : isStrWhiteSpace d = false := by
  rcases (isDigit_iff d).mp hd with h | h | h | h | h | h | h | h | h | h <;> subst h <;> decide

theorem digitVal_pos (d : Char) (hd : isDigit d = true) (h0 : d ≠ '0') :
    0 < (digitVal? d).getD 0 := by
  rcases (isDigit_iff d).mp hd with h | h | h | h | h | h | h | h | h | h <;> subst h <;>
    first | exact absurd rfl h0 | decide

theorem parseInt_of_head (d : Char) (t : List Char) (hd : isDigit d = true) (h0 : d ≠ '0') :
    ∃ v : Nat, 0 < v ∧ parseInt (.str (String.mk (d :: t))) = .int (Int.ofNat v) := by
  have hsp : isStrWhiteSpace d = false := isDigit_not_space d hd
  have hm : d ≠ '-' := by rintro rfl; exact absurd hd (by decide)
  have hp : d ≠ '+' := by rintro rfl; exact absurd hd (by decide)
  have hdrop : List.dropWhile isStrWhiteSpace (d :: t) = d :: t := by
    simp [List.dropWhile, hsp]
  have hsigned : parseIntSigned (d :: t) = parseIntDigits false (d :: t) := by
    unfold parseIntSigned
    split
    · rename_i h; injection h with h1 _; exact absurd h1 hm
    · rename_i h; injection h with h1 _; exact absurd h1 hp
    · rfl
  have hspan : (spanDigits (d :: t)).1 = d :: (spanDigits t).1 := by
    simp [spanDigits, hd]
  refine ⟨digitsToNat 0 (d :: (spanDigits t).1), ?_, ?_⟩
  · simp only [digitsToNat, Nat.zero_mul, Nat.zero_add]
    exact lt_of_lt_of_le (digitVal_pos d hd h0) (digitsToNat_ge _ _)
  · show parseIntSigned (List.dropWhile isStrWhiteSpace (d :: t)) = _
    rw [hdrop, hsigned]
    simp [parseIntDigits, hspan]

/-! ## The text of `encodeEthSend` -/

theorem isHexChar_iff (c : Char) :
    isHexChar c = true ↔
      isDigit c = true ∨ c = 'a' ∨ c = 'b' ∨ c = 'c' ∨ c = 'd' ∨ c = 'e' ∨ c = 'f' ∨
        c = 'A' ∨ c = 'B' ∨ c = 'C' ∨ c = 'D' ∨ c = 'E' ∨ c = 'F' := by
  simp [isHexChar, or_assoc]

/-- The characters the query of a URI is split at. -/
theorem isDigit_not_sep (c : Char) (h : isDigit c = true) : c ≠ '?' ∧ c ≠ '&' ∧ c ≠ '=' := by
  rcases (isDigit_iff c).mp h with h | h | h | h | h | h | h | h | h | h <;> subst h <;> decide

theorem isHexChar_not_sep (c : Char) (h : isHexChar c = true) : c ≠ '?' ∧ c ≠ '&' ∧ c ≠ '=' := by
  rcases (isHexChar_iff c).mp h with h | h | h | h | h | h | h | h | h | h | h | h | h
  · exact isDigit_not_sep c h
  all_goals subst h; decide

theorem matchesAddress_length (cs : List Char) (h : matchesAddress cs = true) :
    cs.length = 42 := by
  unfold matchesAddress at h
  split at h
  · simp only [Bool.and_eq_true, decide_eq_true_eq] at h
    simp [h.1.2]
  · cases h

theorem matchesAddress_not_sep (cs : List Char) (h : matchesAddress cs = true) :
    ∀ c ∈ cs, c ≠ '?' ∧ c ≠ '&' ∧ c ≠ '=' := by
  unfold matchesAddress at h
  split at h
  · rename_i c0 c1 rest
    simp only [Bool.and_eq_true, decide_eq_true_eq, Bool.or_eq_true, List.all_eq_true] at h
    obtain ⟨⟨⟨h0, h1⟩, _⟩, hall⟩ := h
    intro c hc
    simp only [List.mem_cons] at hc
    rcases hc with rfl | rfl | hc
    · subst h0; decide
    · rcases h1 with h1 | h1 <;> subst h1 <;> decide
    · exact isHexChar_not_sep c (hall c hc)
  · cases h

theorem matchesAddress_has_x (cs : List Char) (h : matchesAddress cs = true) :
    ∃ c ∈ cs, c = 'x' ∨ c = 'X' := by
  unfold matchesAddress at h
  split at h
  · rename_i c0 c1 rest
    simp only [Bool.and_eq_true, decide_eq_true_eq, Bool.or_eq_true] at h
    exact ⟨c1, by simp, h.1.1.2⟩
  · cases h

theorem fixedPoint_chars (m k : Nat) : ∀ c ∈ fixedPoint m k, isDigit c = true ∨ c = '.' := by
  unfold fixedPoint
  simp only
  split_ifs
  · exact fun c hc => Or.inl (natToDec_all_digits _ c hc)
  · intro c hc
    simp only [List.mem_append, List.mem_cons] at hc
    rcases hc with hc | rfl | hc
    · exact Or.inl (natToDec_all_digits _ c hc)
    · exact Or.inr rfl
    · have h2 := stripTrailingZeros_subset _ c hc
      simp only [padZeros, List.mem_append, List.mem_replicate] at h2
      rcases h2 with ⟨_, rfl⟩ | h2
      · exact Or.inl (by decide)
      · exact Or.inl (natToDec_all_digits _ c h2)

theorem num_toChars_no_x (n : JSNum) : ∀ c ∈ n.toChars, c ≠ 'x' ∧ c ≠ 'X' := by
  have hdig : ∀ c : Char, isDigit c = true → c ≠ 'x' ∧ c ≠ 'X' := by
    intro c hc
    rcases (isDigit_iff c).mp hc with h | h | h | h | h | h | h | h | h | h <;> subst h <;> decide
  have hjs : ∀ (n : Nat), ∀ c ∈ natToJSString n, c ≠ 'x' ∧ c ≠ 'X' := by
    intro n c hc
    rcases natToJSString_chars n c hc with h | rfl | rfl | rfl
    · exact hdig c h
    all_goals decide
  cases n with
  | int i =>
    cases i with
    | ofNat n => exact hjs n
    | negSucc n =>
      intro c hc
      simp only [JSNum.toChars, List.mem_cons] at hc
      rcases hc with rfl | hc
      · decide
      · exact hjs _ c hc
  | frac neg m k =>
    intro c hc
    simp only [JSNum.toChars, List.mem_append] at hc
    rcases hc with hc | hc
    · split_ifs at hc
      · simp only [List.mem_singleton] at hc
        subst hc; decide
      · simp at hc
    · rcases fixedPoint_chars m k c hc with h | rfl
      · exact hdig c h
      · decide
  | nan =>
    intro c hc
    simp only [JSNum.toChars, List.mem_cons, List.mem_singleton, List.not_mem_nil, or_false] at hc
    rcases hc with rfl | rfl | rfl <;> decide

/-- A defined value that matches the address pattern is truthy. -/
theorem truthy_of_address (v : JSVal) (h : isValidAddress v = true) : truthy v = true := by
  unfold isValidAddress at h
  cases v with
  | undefined => exact absurd h (by decide)
  | null => exact absurd h (by decide)
  | bool b => cases b <;> exact absurd h (by decide)
  | num n =>
    obtain ⟨c, hc, hx⟩ := matchesAddress_has_x _ h
    have := num_toChars_no_x n c hc
    rcases hx with rfl | rfl
    · exact absurd rfl this.1
    · exact absurd rfl this.2
  | str s =>
    have := matchesAddress_length _ h
    simp only [toChars] at this
    simp only [truthy, bne_iff_ne, ne_eq]
    intro h0
    rw [h0] at this
    cases this
  | arr xs => rfl
  | obj kvs => rfl
  | bigint i =>
    obtain ⟨c, hc, hx⟩ := matchesAddress_has_x _ h
    have hd : isDigit c = true ∨ c = '-' := by
      cases i with
      | ofNat n =>
        have hc' : c ∈ natToDec n := by simpa [toChars] using hc
        exact Or.inl (natToDec_all_digits n c hc')
      | negSucc n =>
        have hc' : c ∈ '-' :: natToDec (n + 1) := by simpa [toChars] using hc
        rcases List.mem_cons.1 hc' with rfl | h1
        · exact Or.inr rfl
        · exact Or.inl (natToDec_all_digits _ c h1)
    rcases hx with rfl | rfl <;> exact absurd hd (by decide)

theorem keptItems_encodeParam (k : String) (v : JSVal) (items : List JSVal) :
    (keptItems (encodeParam k v :: items)).map String.data =
      segmentOf k v ++ (keptItems items).map String.data := by
  by_cases ht : truthy v = true
  · have hstr : truthy (.str (k ++ "=" ++ toStr v)) = true := by
      simp [truthy, String.data_append]
    have hd : (toStr (.str (k ++ "=" ++ toStr v))).data = k.data ++ '=' :: toChars v := by
      simp [toStr, toChars, String.data_append]
    rw [encodeParam, if_pos ht, keptItems, if_pos hstr, segmentOf, if_pos ht, List.map_cons, hd]
    rfl
  · have hnull : truthy .null = false := rfl
    rw [encodeParam, if_neg ht, keptItems, segmentOf, if_neg ht]
    simp [hnull]

theorem keptItems_data (params : List (String × JSVal)) :
    (keptItems (params.map (fun kv => encodeParam kv.1 kv.2))).map String.data =
      params.flatMap (fun kv => segmentOf kv.1 kv.2) := by
  induction params with
  | nil => rfl
  | cons kv rest ih =>
    rw [List.map_cons, keptItems_encodeParam, ih, List.flatMap_cons]

theorem encodeEthSend_eq (data : JSVal) :
    encodeEthSend data =
      "ethereum:" ++ toStr (data.get "to") ++ "?" ++
        "&".intercalate (keptItems ((sendParams data).map (fun kv => encodeParam kv.1 kv.2))) :=
  rfl

theorem encodeEthSend_data (data : JSVal) :
    (encodeEthSend data).data =
      "ethereum:".data ++ toChars (data.get "to") ++
        '?' :: joinWith '&' ((sendParams data).flatMap (fun kv => segmentOf kv.1 kv.2)) := by
  rw [encodeEthSend_eq]
  simp only [String.data_append, intercalate_amp_data, keptItems_data]
  simp [toStr]

theorem keptItems_cons_encodeParam (k : String) (v : JSVal) (items : List JSVal) :
    keptItems (encodeParam k v :: items) =
      (if truthy v = true then [k ++ "=" ++ toStr v] else []) ++ keptItems items := by
  by_cases ht : truthy v = true
  · have hstr : truthy (.str (k ++ "=" ++ toStr v)) = true := by
      simp [truthy, String.data_append]
    rw [encodeParam, if_pos ht, keptItems, if_pos hstr, if_pos ht]
    rfl
  · have hnull : truthy .null = false := rfl
    rw [encodeParam, if_neg ht, keptItems, if_neg ht]
    simp [hnull]

theorem segment_ne_empty (k v : String) : k ++ "=" ++ v ≠ "" := by
  intro h
  have := congrArg String.data h
  simp [String.data_append] at this

theorem truthy_guard (c : Bool) (v : JSVal) (h : truthy (if c = true then v else .null) = true) :
    c = true ∧ (if c = true then v else JSVal.null) = v := by
  cases c with
  | true => exact ⟨rfl, rfl⟩
  | false => simp [truthy] at h

theorem keptItems_sendParams (P : JSVal) :
    keptItems ((sendParams P).map (fun kv => encodeParam kv.1 kv.2)) =
      (if truthy (if isAmountDefined (P.get "from") = true then P.get "from" else .null) = true
        then ["from" ++ "=" ++
          toStr (if isAmountDefined (P.get "from") = true then P.get "from" else .null)]
        else []) ++
      ((if truthy (if isAmountDefined (P.get "amount") = true then
            .str (String.mk (BigNumber.ofVal (P.get "amount")).toString10) else .null) = true
        then ["amount" ++ "=" ++
          toStr (if isAmountDefined (P.get "amount") = true then
            .str (String.mk (BigNumber.ofVal (P.get "amount")).toString10) else .null)]
        else []) ++
      ((if truthy (if isAmountDefined (P.get "gas") = true then P.get "gas" else .null) = true
        then ["gas" ++ "=" ++
          toStr (if isAmountDefined (P.get "gas") = true then P.get "gas" else .null)]
        else []) ++
      (if truthy (if (isAmountDefined (P.get "chainId") && isValidChainId (P.get "chainId")) = true
            then P.get "chainId" else .null) = true
        then ["chainId" ++ "=" ++
          toStr (if (isAmountDefined (P.get "chainId") && isValidChainId (P.get "chainId")) = true
            then P.get "chainId" else .null)]
        else []))) := by
  simp only [sendParams, List.map_cons, List.map_nil]
  rw [keptItems_cons_encodeParam, keptItems_cons_encodeParam, keptItems_cons_encodeParam,
    keptItems_cons_encodeParam]
  simp only [keptItems, List.append_nil]

theorem segment_sublist (k : String) (c : Bool) (v : JSVal) :
    (if truthy (if c = true then v else .null) = true
      then [k ++ "=" ++ toStr (if c = true then v else .null)] else []).Sublist
      [k ++ "=" ++ toStr v] := by
  cases c with
  | true =>
    by_cases h : truthy v = true
    · simp [h]
    · simp [h]
  | false => simp [truthy]

theorem segment_mem_ne_empty (c : Prop) [Decidable c] (k v : String) :
    ∀ s ∈ (if c then [k ++ "=" ++ v] else []), s ≠ "" := by
  intro s hs
  by_cases h : c
  · rw [if_pos h, List.mem_singleton] at hs
    subst hs
    exact segment_ne_empty _ _
  · rw [if_neg h] at hs
    simp at hs

theorem truthy_natToDec (n : Nat) : truthy (.str (String.mk (natToDec n))) = true := by
  simp [truthy, natToDec_ne_nil]

/-! ## Decoding the text of `encodeEthSend` -/

theorem parseValue_letter_e (fuel : Nat) (r : List Char) : parseValue fuel ('e' :: r) = none := by
  cases fuel with
  | zero => rfl
  | succ f => rfl

/-- A text that starts with the letter `e` is not JSON. -/
theorem jsonParse_letter_e (s : String) (r : List Char) (h : s.data = 'e' :: r) :
    jsonParse s = none := by
  unfold jsonParse
  rw [h]
  have : skipWs ('e' :: r) = 'e' :: r := by simp [skipWs, isJsonWs]
  rw [this, parseValue_letter_e]

theorem decodeEthSend_uri (a : String) (segs : List (List Char))
    (ha : matchesAddress a.data = true)
    (hs : ∀ s ∈ segs, ∀ c ∈ s, c ≠ '?' ∧ c ≠ '&') :
    decodeEthSend (String.mk ("ethereum:".data ++ a.data ++ '?' :: joinWith '&' segs)) =
      .obj (segs.foldl applySegment [("to", .str a)]) := by
  have hlen := matchesAddress_length _ ha
  have hpre : ("ethereum:".data ++ a.data).length = 51 := by
    rw [List.length_append, hlen]; rfl
  have h9 : "ethereum:".data.length = 9 := rfl
  unfold decodeEthSend
  simp only
  have hne : ¬ ("ethereum:".data ++ a.data ++ '?' :: joinWith '&' segs = [] ∨
      List.take 9 ("ethereum:".data ++ a.data ++ '?' :: joinWith '&' segs) ≠ "ethereum:".data) := by
    rw [List.append_assoc, List.take_left' h9]
    simp
  rw [if_neg hne]
  have hdrop9 : List.drop 9 ("ethereum:".data ++ a.data ++ '?' :: joinWith '&' segs) =
      a.data ++ '?' :: joinWith '&' segs := by
    rw [List.append_assoc, List.drop_left' h9]
  have htake : List.take 42 (List.drop 9
      ("ethereum:".data ++ a.data ++ '?' :: joinWith '&' segs)) = a.data := by
    rw [hdrop9, List.take_left' hlen]
  have hdrop51 : List.drop 51 ("ethereum:".data ++ a.data ++ '?' :: joinWith '&' segs) =
      '?' :: joinWith '&' segs := List.drop_left' hpre
  have hl : ("ethereum:".data ++ a.data ++ '?' :: joinWith '&' segs).length =
      52 + (joinWith '&' segs).length := by
    rw [List.length_append, hpre, List.length_cons]; omega
  have hvalid : isValidAddress (.str a) = true := ha
  rw [htake, hdrop51, hl]
  have hto : (51 ≤ 52 + (joinWith '&' segs).length ∧ isValidAddress (.str (String.mk a.data)) = true) :=
    ⟨by omega, hvalid⟩
  rw [if_pos hto, if_pos (by omega)]
  have hsplit : (splitAt (fun c => decide (c = '?' ∨ c = '&')) ('?' :: joinWith '&' segs)).tail =
      splitAt (fun c => decide (c = '?' ∨ c = '&')) (joinWith '&' segs) := by
    simp [splitAt]
  rw [hsplit]
  cases segs with
  | nil => simp [joinWith, splitAt, applySegment_nil]
  | cons s rest =>
    rw [splitAt_joinWith _ '&' (by simp) (s :: rest) (by simp)]
    intro x hx c hc
    have := hs x hx c hc
    simp [this.1, this.2]

theorem foldl_segmentOf (k : String) (v : JSVal) (r : List (String × JSVal))
    (hk : k ∈ ["gas", "amount", "from", "chainId"])
    (hv : truthy v = true → ∀ c ∈ toChars v, c ≠ '=') :
    (segmentOf k v).foldl applySegment r =
      if truthy v = true then setProp k (convert k (.str (toStr v))) r else r := by
  unfold segmentOf
  by_cases ht : truthy v = true
  · rw [if_pos ht, if_pos ht, List.foldl_cons, List.foldl_nil,
      applySegment_keyValue r k (toChars v) hk (hv ht)]
    rfl
  · rw [if_neg ht, if_neg ht, List.foldl_nil]

theorem no_sep_of_digitish (cs : List Char)
    (h : ∀ c ∈ cs, isDigit c = true ∨ c = '.' ∨ c = 'e' ∨ c = '+') :
    ∀ c ∈ cs, c ≠ '?' ∧ c ≠ '&' ∧ c ≠ '=' := by
  intro c hc
  rcases h c hc with h1 | rfl | rfl | rfl
  · exact isDigit_not_sep c h1
  all_goals decide

/-- The text of a truthy valid gas or chain identifier: a positive integer. -/
theorem truthy_int_text (v : JSVal) (hv : isValidGasAmount v = true) (ht : truthy v = true) :
    ∃ g : Nat, 0 < g ∧ v = .num (.int (Int.ofNat g)) ∧ toChars v = natToJSString g := by
  obtain ⟨g, hg⟩ := (isValidGasAmount_iff v).mp hv
  subst hg
  refine ⟨g, ?_, rfl, rfl⟩
  simp only [truthy, bne_iff_ne, ne_eq] at ht
  rcases Nat.eq_zero_or_pos g with h | h
  · subst h; exact absurd rfl ht
  · exact h

theorem isValidGasAmount_of_chainId (v : JSVal) (h : isValidChainId v = true) :
    isValidGasAmount v = true := by
  obtain ⟨c, _, hc⟩ := (isValidChainId_iff v).mp h
  exact (isValidGasAmount_iff v).mpr ⟨c, hc⟩

theorem convert_int_text (k : String) (hk : k = "gas" ∨ k = "chainId") (g : Nat) (hg : 0 < g) :
    ∃ w : Nat, 0 < w ∧
      convert k (.str (String.mk (natToJSString g))) = .num (.int (Int.ofNat w)) := by
  obtain ⟨d, t, hdt, hd, hd0⟩ := natToJSString_head g hg
  obtain ⟨w, hw, hp⟩ := parseInt_of_head d t hd hd0
  refine ⟨w, hw, ?_⟩
  rw [hdt]
  rcases hk with rfl | rfl
  · simp only [convert, if_true, hp]
  · rw [convert, if_neg (by decide), if_neg (by decide), if_neg (by decide), hp]

theorem validate_basic_fields (kvs : List (String × JSVal))
    (hmode : isAmountDefined ((JSVal.obj kvs).get "mode") = false)
    (hv : validateEthereumUri (.obj kvs) = .ok ()) :
    isValidAddress ((JSVal.obj kvs).get "to") = true ∧
    isValidOptionalParam ((JSVal.obj kvs).get "from") isValidAddress = true ∧
    isValidOptionalParam ((JSVal.obj kvs).get "amount") isValidEthAmount = true ∧
    isValidOptionalParam ((JSVal.obj kvs).get "gas") isValidGasAmount = true ∧
    isValidOptionalParam ((JSVal.obj kvs).get "chainId") isValidChainId = true := by
  rw [validate_basic_eq kvs hmode, validateUriSchemaBasic_ok_iff] at hv
  obtain ⟨_, hT, hF, hA, hG, hC⟩ := hv
  exact ⟨((isValidRequiredParam_iff _ _).mp hT).2.2, hF, hA, hG, hC⟩

theorem optional_valid (v : JSVal) (f : JSVal → Bool) (h : isValidOptionalParam v f = true)
    (hd : isAmountDefined v = true) : f v = true := by
  rcases (isValidOptionalParam_iff _ _).mp h with h1 | h1 | h1
  · rw [h1] at hd; cases hd
  · rw [h1] at hd; cases hd
  · exact h1

/-- The object of four optional properties after `to`, validated field by field. -/
theorem validate_decoded_shape (a : String) (tF dA tG tC : Bool) (vF vA vG vC : JSVal)
    (ha : isValidAddress (.str a) = true)
    (hF : tF = true → isValidAddress vF = true ∧ isAmountDefined vF = true)
    (hA : dA = true → isValidEthAmount vA = true)
    (hG : tG = true → isValidGasAmount vG = true)
    (hC : tC = true → isValidChainId vC = true) :
    validateEthereumUri (.obj ([("to", JSVal.str a)] ++
      (if tF = true then [("from", vF)] else []) ++
      (if dA = true then [("amount", vA)] else []) ++
      (if tG = true then [("gas", vG)] else []) ++
      (if tC = true then [("chainId", vC)] else []))) = .ok () := by
  have hmode : isAmountDefined ((JSVal.obj ([("to", JSVal.str a)] ++
      (if tF = true then [("from", vF)] else []) ++
      (if dA = true then [("amount", vA)] else []) ++
      (if tG = true then [("gas", vG)] else []) ++
      (if tC = true then [("chainId", vC)] else []))).get "mode") = false := by
    cases tF <;> cases dA <;> cases tG <;> cases tC <;> rfl
  rw [validate_basic_eq _ hmode, validateUriSchemaBasic_ok_iff]
  cases tF <;> cases dA <;> cases tG <;> cases tC <;>
    simp [JSVal.get, lookup, isValidRequiredParam, isValidOptionalParam, isAmountDefined, ha,
      hF, hA, hG, hC]

theorem setProp_shape (a : String) (tF dA tG tC : Bool) (vF vA vG vC : JSVal) :
    (if tC = true then setProp "chainId" vC else id)
      ((if tG = true then setProp "gas" vG else id)
        ((if dA = true then setProp "amount" vA else id)
          ((if tF = true then setProp "from" vF else id) [("to", JSVal.str a)]))) =
    [("to", JSVal.str a)] ++
      (if tF = true then [("from", vF)] else []) ++
      (if dA = true then [("amount", vA)] else []) ++
      (if tG = true then [("gas", vG)] else []) ++
      (if tC = true then [("chainId", vC)] else []) := by
  cases tF <;> cases dA <;> cases tG <;> cases tC <;> simp [setProp]

theorem from_segment (F : JSVal) (hF : isValidOptionalParam F isValidAddress = true)
    (ht : truthy (if isAmountDefined F = true then F else .null) = true) :
    (∀ c ∈ toChars (if isAmountDefined F = true then F else .null),
        c ≠ '?' ∧ c ≠ '&' ∧ c ≠ '=') ∧
      convert "from" (.str (toStr (if isAmountDefined F = true then F else .null))) =
        .str (toStr F) ∧
      isValidAddress (.str (toStr F)) = true ∧ isAmountDefined (JSVal.str (toStr F)) = true := by
  obtain ⟨hd, heq⟩ := truthy_guard _ _ ht
  have hvalid := optional_valid F _ hF hd
  rw [heq]
  refine ⟨matchesAddress_not_sep _ hvalid, ?_, hvalid, rfl⟩
  rw [convert, if_neg (by decide), if_neg (by decide), if_pos rfl]

theorem amount_segment (A : JSVal) (hA : isValidOptionalParam A isValidEthAmount = true)
    (hd : isAmountDefined A = true) :
    truthy (if isAmountDefined A = true then
        JSVal.str (String.mk (BigNumber.ofVal A).toString10) else .null) = true ∧
      (∀ c ∈ toChars (if isAmountDefined A = true then
          JSVal.str (String.mk (BigNumber.ofVal A).toString10) else .null),
        c ≠ '?' ∧ c ≠ '&' ∧ c ≠ '=') ∧
      convert "amount" (.str (toStr (if isAmountDefined A = true then
          JSVal.str (String.mk (BigNumber.ofVal A).toString10) else .null))) =
        .str (String.mk (BigNumber.ofVal A).toString10) ∧
      isValidEthAmount (.str (String.mk (BigNumber.ofVal A).toString10)) = true := by
  obtain ⟨n, hn⟩ := (isValidEthAmount_iff _).mp (optional_valid A _ hA hd)
  have hs := toString10_of_toInt _ n hn
  rw [if_pos hd, hs]
  refine ⟨truthy_natToDec n, ?_, convert_amount_natToDec n, isValidEthAmount_natToDec n⟩
  intro c hc
  exact isDigit_not_sep c (natToDec_all_digits n c hc)

theorem int_segment (k : String) (hk : k = "gas" ∨ k = "chainId") (G : JSVal)
    (hG : isValidGasAmount G = true) (ht : truthy G = true) :
    (∀ c ∈ toChars G, c ≠ '?' ∧ c ≠ '&' ∧ c ≠ '=') ∧
      convert k (.str (toStr G)) = .num (parseInt (.str (toStr G))) ∧
      isValidChainId (.num (parseInt (.str (toStr G)))) = true := by
  obtain ⟨g, hg, _, htext⟩ := truthy_int_text G hG ht
  have hstr : toStr G = String.mk (natToJSString g) := by rw [toStr, htext]
  refine ⟨?_, ?_, ?_⟩
  · rw [htext]
    exact no_sep_of_digitish _ (natToJSString_chars g)
  · rcases hk with rfl | rfl
    · simp only [convert, if_true]
    · rw [convert, if_neg (by decide), if_neg (by decide), if_neg (by decide)]
  · obtain ⟨w, hw, hc⟩ := convert_int_text "gas" (Or.inl rfl) g hg
    rw [hstr]
    simp only [convert, if_true, JSVal.num.injEq] at hc
    rw [hc]
    exact (isValidChainId_iff _).mpr ⟨w, hw, rfl⟩

theorem segmentOf_no_sep (k : String) (hk : k ∈ ["gas", "amount", "from", "chainId"]) (v : JSVal)
    (hv : truthy v = true → ∀ c ∈ toChars v, c ≠ '?' ∧ c ≠ '&' ∧ c ≠ '=') :
    ∀ s ∈ segmentOf k v, ∀ c ∈ s, c ≠ '?' ∧ c ≠ '&' := by
  intro s hs c hc
  unfold segmentOf at hs
  by_cases ht : truthy v = true
  · rw [if_pos ht, List.mem_singleton] at hs
    subst hs
    simp only [List.mem_append, List.mem_cons] at hc
    rcases hc with hc | rfl | hc
    · simp only [List.mem_cons, List.mem_singleton, List.not_mem_nil, or_false] at hk
      rcases hk with rfl | rfl | rfl | rfl <;> revert c <;> decide
    · decide
    · exact ⟨(hv ht c hc).1, (hv ht c hc).2.1⟩
  · rw [if_neg ht] at hs
    simp at hs

/-- What `decodeEthereumUri` does on the text `encodeEthSend` gives a payload without a
mode that passes validation: the text is not JSON, `decodeEthSend` rebuilds `to` and
one property for each emitted segment, and the rebuilt object passes validation. -/
theorem decode_of_encodeEthSend (kvs : List (String × JSVal))
    (hmode : isAmountDefined ((JSVal.obj kvs).get "mode") = false)
    (hv : validateEthereumUri (.obj kvs) = .ok ()) :
    jsonParse (encodeEthSend (.obj kvs)) = none ∧
      decodeEthSend (encodeEthSend (.obj kvs)) = .obj (decodedSend (.obj kvs)) ∧
      validateEthereumUri (.obj (decodedSend (.obj kvs))) = .ok () := by
  obtain ⟨vT, hF, hA, hG, hC⟩ := validate_basic_fields kvs hmode hv
  generalize JSVal.obj kvs = P at *
  have hdata := encodeEthSend_data P
  have hform : encodeEthSend P =
      String.mk ("ethereum:".data ++ (toStr (P.get "to")).data ++
        '?' :: joinWith '&' ((sendParams P).flatMap (fun kv => segmentOf kv.1 kv.2))) := by
    have h2 : encodeEthSend P = String.mk (encodeEthSend P).data := rfl
    rw [h2, hdata]
    rfl
  -- the guarded chain identifier is valid whenever it is truthy
  have hCg : ∀ ht : truthy (if (isAmountDefined (P.get "chainId") &&
      isValidChainId (P.get "chainId")) = true then P.get "chainId" else .null) = true,
      (if (isAmountDefined (P.get "chainId") && isValidChainId (P.get "chainId")) = true
        then P.get "chainId" else JSVal.null) = P.get "chainId" ∧
      isValidGasAmount (P.get "chainId") = true ∧ truthy (P.get "chainId") = true := by
    intro ht
    obtain ⟨hc, heq⟩ := truthy_guard _ _ ht
    rw [heq] at ht
    simp only [Bool.and_eq_true] at hc
    exact ⟨heq, isValidGasAmount_of_chainId _ hc.2, ht⟩
  have hGg : ∀ ht : truthy (if isAmountDefined (P.get "gas") = true then P.get "gas"
      else .null) = true,
      (if isAmountDefined (P.get "gas") = true then P.get "gas" else JSVal.null) = P.get "gas" ∧
      isValidGasAmount (P.get "gas") = true ∧ truthy (P.get "gas") = true := by
    intro ht
    obtain ⟨hc, heq⟩ := truthy_guard _ _ ht
    rw [heq] at ht
    exact ⟨heq, optional_valid _ _ hG hc, ht⟩
  have hAt : truthy (if isAmountDefined (P.get "amount") = true then
      JSVal.str (String.mk (BigNumber.ofVal (P.get "amount")).toString10) else .null) = true ↔
      isAmountDefined (P.get "amount") = true := by
    constructor
    · intro ht
      exact (truthy_guard _ _ ht).1
    · intro hd
      exact (amount_segment _ hA hd).1
  have stepF : ∀ r, (segmentOf "from"
      (if isAmountDefined (P.get "from") = true then P.get "from" else .null)).foldl
        applySegment r =
      (if truthy (if isAmountDefined (P.get "from") = true then P.get "from" else .null) = true
        then setProp "from" (JSVal.str (toStr (P.get "from"))) else id) r := by
    intro r
    rw [foldl_segmentOf "from" _ _ (by decide) (fun ht c hc => ((from_segment _ hF ht).1 c hc).2.2)]
    by_cases ht : truthy (if isAmountDefined (P.get "from") = true then P.get "from"
        else .null) = true
    · rw [if_pos ht, if_pos ht, (from_segment _ hF ht).2.1]
    · rw [if_neg ht, if_neg ht]
      rfl
  have stepA : ∀ r, (segmentOf "amount" (if isAmountDefined (P.get "amount") = true then
      JSVal.str (String.mk (BigNumber.ofVal (P.get "amount")).toString10) else .null)).foldl
        applySegment r =
      (if isAmountDefined (P.get "amount") = true
        then setProp "amount" (JSVal.str (String.mk (BigNumber.ofVal (P.get "amount")).toString10))
        else id) r := by
    intro r
    rw [foldl_segmentOf "amount" _ _ (by decide)
      (fun ht c hc => ((amount_segment _ hA (hAt.mp ht)).2.1 c hc).2.2)]
    by_cases hd : isAmountDefined (P.get "amount") = true
    · rw [(amount_segment _ hA hd).2.2.1, if_pos (hAt.mpr hd), if_pos hd]
    · rw [if_neg (fun h => hd (hAt.mp h)), if_neg hd]
      rfl
  have stepG : ∀ r, (segmentOf "gas"
      (if isAmountDefined (P.get "gas") = true then P.get "gas" else .null)).foldl
        applySegment r =
      (if truthy (if isAmountDefined (P.get "gas") = true then P.get "gas" else .null) = true
        then setProp "gas" (JSVal.num (parseInt (.str (toStr (P.get "gas"))))) else id) r := by
    intro r
    rw [foldl_segmentOf "gas" _ _ (by decide) (fun ht c hc => by
      have h3 := hGg ht
      rw [h3.1] at hc
      exact ((int_segment "gas" (Or.inl rfl) _ h3.2.1 h3.2.2).1 c hc).2.2)]
    by_cases ht : truthy (if isAmountDefined (P.get "gas") = true then P.get "gas"
        else .null) = true
    · have h3 := hGg ht
      rw [if_pos ht, if_pos ht, h3.1, (int_segment "gas" (Or.inl rfl) _ h3.2.1 h3.2.2).2.1]
    · rw [if_neg ht, if_neg ht]
      rfl
  have stepC : ∀ r, (segmentOf "chainId"
      (if (isAmountDefined (P.get "chainId") && isValidChainId (P.get "chainId")) = true
        then P.get "chainId" else .null)).foldl applySegment r =
      (if truthy (if (isAmountDefined (P.get "chainId") && isValidChainId (P.get "chainId"))
          = true then P.get "chainId" else .null) = true
        then setProp "chainId" (JSVal.num (parseInt (.str (toStr (P.get "chainId"))))) else id) r := by
    intro r
    rw [foldl_segmentOf "chainId" _ _ (by decide) (fun ht c hc => by
      have h3 := hCg ht
      rw [h3.1] at hc
      exact ((int_segment "chainId" (Or.inr rfl) _ h3.2.1 h3.2.2).1 c hc).2.2)]
    by_cases ht : truthy (if (isAmountDefined (P.get "chainId") &&
        isValidChainId (P.get "chainId")) = true then P.get "chainId" else .null) = true
    · have h3 := hCg ht
      rw [if_pos ht, if_pos ht, h3.1, (int_segment "chainId" (Or.inr rfl) _ h3.2.1 h3.2.2).2.1]
    · rw [if_neg ht, if_neg ht]
      rfl
  have hsegs : ∀ s ∈ (sendParams P).flatMap (fun kv => segmentOf kv.1 kv.2),
      ∀ c ∈ s, c ≠ '?' ∧ c ≠ '&' := by
    intro s hs
    simp only [sendParams, List.flatMap_cons, List.flatMap_nil, List.append_nil,
      List.mem_append] at hs
    rcases hs with hs | hs | hs | hs
    · exact segmentOf_no_sep "from" (by decide) _ (fun ht => (from_segment _ hF ht).1) s hs
    · exact segmentOf_no_sep "amount" (by decide) _
        (fun ht => (amount_segment _ hA (hAt.mp ht)).2.1) s hs
    · refine segmentOf_no_sep "gas" (by decide) _ (fun ht => ?_) s hs
      have h3 := hGg ht
      rw [h3.1]
      exact (int_segment "gas" (Or.inl rfl) _ h3.2.1 h3.2.2).1
    · refine segmentOf_no_sep "chainId" (by decide) _ (fun ht => ?_) s hs
      have h3 := hCg ht
      rw [h3.1]
      exact (int_segment "chainId" (Or.inr rfl) _ h3.2.1 h3.2.2).1
  refine ⟨?_, ?_, ?_⟩
  · exact jsonParse_letter_e _ _ (by rw [hdata]; rfl)
  · rw [hform, decodeEthSend_uri (toStr (P.get "to")) _ vT hsegs]
    congr 1
    simp only [sendParams, List.flatMap_cons, List.flatMap_nil, List.append_nil,
      List.foldl_append]
    rw [stepF, stepA, stepG, stepC, setProp_shape]
    rfl
  · unfold decodedSend
    apply validate_decoded_shape
    · exact vT
    · intro ht
      have := from_segment _ hF ht
      exact ⟨this.2.2.1, this.2.2.2⟩
    · intro hd
      exact (amount_segment _ hA hd).2.2.2
    · intro ht
      have h3 := hGg ht
      have h4 := (int_segment "gas" (Or.inl rfl) _ h3.2.1 h3.2.2).2.2
      obtain ⟨w, _, hw⟩ := (isValidChainId_iff _).mp h4
      exact (isValidGasAmount_iff _).mpr ⟨w, hw⟩
    · intro ht
      have h3 := hCg ht
      exact (int_segment "chainId" (Or.inr rfl) _ h3.2.1 h3.2.2).2.2

/-! ## JSON: strings -/

theorem parseStringBody_cons (c : Char) (cs : List Char) :
    parseStringBody (c :: cs) =
      if c = '"' then some ([], cs)
      else if c = '\\' then
        match cs with
        | [] => none
        | e :: rest =>
          if e = 'u' then
            match rest with
            | h1 :: h2 :: h3 :: h4 :: rest' =>
              match hexVal? h1, hexVal? h2, hexVal? h3, hexVal? h4 with
              | some a, some b, some c', some d =>
                match parseStringBody rest' with
                | some (s, r) => some (unitChar (((a * 16 + b) * 16 + c') * 16 + d) :: s, r)
                | none => none
              | _, _, _, _ => none
            | _ => none
          else
            let decoded : Option Char :=
              if e = '"' then some '"' else if e = '\\' then some '\\'
              else if e = '/' then some '/' else if e = 'b' then some '\x08'
              else if e = 'f' then some '\x0c' else if e = 'n' then some '\n'
              else if e = 'r' then some '\r' else if e = 't' then some '\t' else none
            match decoded with
            | some ch =>
              match parseStringBody rest with
              | some (s, r) => some (ch :: s, r)
              | none => none
            | none => none
      else if c.toNat < 32 then none
      else
        match parseStringBody cs with
        | some (s, r) => some (c :: s, r)
        | none => none := by
  rw [parseStringBody.eq_def]

theorem hexVal_hexDigitChar (d : Nat) (h : d < 16) : hexVal? (hexDigitChar d) = some d := by
  interval_cases d <;> decide

theorem control_char_eq (c : Char) (h : c.toNat < 32) :
    unitChar (((0 * 16 + 0) * 16 + c.toNat / 16) * 16 + c.toNat % 16) = c := by
  have h1 : ((0 * 16 + 0) * 16 + c.toNat / 16) * 16 + c.toNat % 16 = c.toNat := by omega
  rw [h1]
  have h2 : ¬ (0xD800 ≤ c.toNat ∧ c.toNat < 0xE000) := by omega
  rw [unitChar, if_neg h2]
  exact Char.ofNat_toNat c

theorem parseStringBody_escape (c : Char) (cs s rest : List Char)
    (ih : parseStringBody cs = some (s, rest)) :
    parseStringBody (escapeChar c ++ cs) = some (c :: s, rest) := by
  unfold escapeChar
  split_ifs with h1 h2 h3 h4 h5 h6 h7 h8
  · subst h1
    simp [parseStringBody_cons, ih]
  · subst h2
    simp [parseStringBody_cons, ih]
  · subst h3
    simp [parseStringBody_cons, ih]
  · subst h4
    simp [parseStringBody_cons, ih]
  · subst h5
    simp [parseStringBody_cons, ih]
  · subst h6
    simp [parseStringBody_cons, ih]
  · subst h7
    simp [parseStringBody_cons, ih]
  · have ha := hexVal_hexDigitChar (c.toNat / 16) (by omega)
    have hb := hexVal_hexDigitChar (c.toNat % 16) (by omega)
    have h0 : hexVal? '0' = some 0 := by decide
    have hc := control_char_eq c h8
    simp only [List.cons_append, List.nil_append]
    rw [parseStringBody_cons, if_neg (by decide), if_pos rfl]
    simp only [if_true, h0, ha, hb, ih, hc]
  · simp only [List.cons_append, List.nil_append]
    rw [parseStringBody_cons, if_neg h1, if_neg h2, if_neg h8, ih]

theorem parseStringBody_escapeChars (cs rest : List Char) :
    parseStringBody (escapeChars cs ++ '"' :: rest) = some (cs, rest) := by
  induction cs with
  | nil => simp [escapeChars, parseStringBody_cons]
  | cons c cs ih =>
    rw [escapeChars, List.append_assoc]
    exact parseStringBody_escape c _ cs rest ih

/-! ## JSON: numbers -/

theorem valueEnd_head (tail : List Char) (h : isValueEnd tail = true) :
    ∀ c r, tail = c :: r → isDigit c = false ∧ c ≠ '.' ∧ c ≠ 'e' ∧ c ≠ 'E' := by
  intro c r hc
  subst hc
  simp only [isValueEnd, Bool.or_eq_true, decide_eq_true_eq] at h
  rcases h with (rfl | rfl) | rfl <;> decide

theorem parseJsonExponent_end (tail : List Char) (h : isValueEnd tail = true) :
    parseJsonExponent tail = some (0, tail) := by
  cases tail with
  | nil => rfl
  | cons c r =>
    have := valueEnd_head _ h c r rfl
    simp [parseJsonExponent, this.2.2.1, this.2.2.2]

theorem parseJsonExponent_plus (n : Nat) (tail : List Char) (h : isValueEnd tail = true) :
    parseJsonExponent ('e' :: '+' :: (natToDec n ++ tail)) = some (Int.ofNat n, tail) := by
  have hspan := spanDigits_append (natToDec n) tail (natToDec_all_digits n)
    (fun c r hc => (valueEnd_head tail h c r hc).1)
  simp [parseJsonExponent, hspan, natToDec_ne_nil, digitsToNat_natToDec]

theorem strip_decomp (ds : List Char) :
    ds = stripTrailingZeros ds ++
      List.replicate (ds.length - (stripTrailingZeros ds).length) '0' := by
  have h1 := List.takeWhile_append_dropWhile (fun c => decide (c = '0')) ds.reverse
  have h2 : List.takeWhile (fun c => decide (c = '0')) ds.reverse =
      List.replicate (List.takeWhile (fun c => decide (c = '0')) ds.reverse).length '0' := by
    rw [List.eq_replicate_iff]
    refine ⟨rfl, fun b hb => ?_⟩
    simpa using List.mem_takeWhile_imp hb
  have h3 : ds = stripTrailingZeros ds ++
      (List.takeWhile (fun c => decide (c = '0')) ds.reverse).reverse := by
    unfold stripTrailingZeros
    rw [← List.reverse_append, h1, List.reverse_reverse]
  have h4 : ds.length = (stripTrailingZeros ds).length +
      (List.takeWhile (fun c => decide (c = '0')) ds.reverse).length := by
    conv_lhs => rw [h3]
    simp
  have h5 : ds.length - (stripTrailingZeros ds).length =
      (List.takeWhile (fun c => decide (c = '0')) ds.reverse).length := by omega
  rw [h5]
  conv_lhs => rw [h3, h2]
  rw [List.reverse_replicate]

theorem digitsToNat_zeros (ds : List Char) (z : Nat) :
    digitsToNat 0 (ds ++ List.replicate z '0') = digitsToNat 0 ds * 10 ^ z := by
  induction z with
  | zero => simp
  | succ z ih =>
    rw [List.replicate_succ', ← List.append_assoc, digitsToNat_append, ih]
    have : (digitVal? '0').getD 0 = 0 := by decide
    rw [this, pow_succ]
    ring

theorem parseJsonUnsigned_natToDec (neg : Bool) (m : Nat) (tail : List Char)
    (h : isValueEnd tail = true) :
    parseJsonUnsigned neg (natToDec m ++ tail) =
      some (.int (if neg = true then - Int.ofNat m else Int.ofNat m), tail) := by
  have hspan := spanDigits_append (natToDec m) tail (natToDec_all_digits m)
    (fun c r hc => (valueEnd_head tail h c r hc).1)
  have hlead : ¬ (natToDec m = [] ∨ ((natToDec m).head? = some '0' ∧ (natToDec m).length ≠ 1)) := by
    rintro (h0 | ⟨h1, h2⟩)
    · exact natToDec_ne_nil m h0
    · rcases Nat.eq_zero_or_pos m with hm | hm
      · subst hm
        exact h2 rfl
      · obtain ⟨d, t, hdt, _, hd0⟩ := natToDec_head m hm
        rw [hdt] at h1
        simp only [List.head?_cons, Option.some.injEq] at h1
        exact hd0 h1
  unfold parseJsonUnsigned
  simp only [hspan]
  rw [if_neg hlead]
  have hexp := parseJsonExponent_end tail h
  cases tail with
  | nil =>
    simp only [hexp, digitsToNat_natToDec]
    cases neg <;> simp [decimalNum, canonDecimal]
  | cons c r =>
    have hc := (valueEnd_head _ h c r rfl).2.1
    split
    · rename_i heq
      injection heq with h1 _
      exact absurd h1 hc
    · simp only [hexp, digitsToNat_natToDec]
      cases neg <;> simp [decimalNum, canonDecimal]

theorem spanDigits_single (d c : Char) (r : List Char) (hd : isDigit d = true)
    (hc : isDigit c = false) : spanDigits (d :: c :: r) = ([d], c :: r) := by
  simp [spanDigits, hd, hc]

theorem digitsToNat_single_le (sig : List Char) (ds : List Char) (z : Nat)
    (h : ds = sig ++ List.replicate z '0') :
    digitsToNat 0 ds = digitsToNat 0 sig * 10 ^ z := by
  rw [h, digitsToNat_zeros]

/-- The exponent form of a number text reads back as the integer. -/
theorem parseJsonUnsigned_exponent (neg : Bool) (m : Nat) (hm : ¬ m < 10 ^ 21)
    (tail : List Char) (h : isValueEnd tail = true) :
    parseJsonUnsigned neg (natToJSString m ++ tail) =
      some (.int (if neg = true then - Int.ofNat m else Int.ofNat m), tail) := by
  have hpos : 0 < m := by
    have : 0 < 10 ^ 21 := by positivity
    omega
  obtain ⟨d, t, hdt, hd, hd0⟩ := natToDec_head m hpos
  obtain ⟨t', ht'⟩ := stripTrailingZeros_cons d t hd0
  have hdec := strip_decomp (natToDec m)
  have hval := digitsToNat_natToDec m
  have hsigdig : ∀ c ∈ stripTrailingZeros (natToDec m), isDigit c = true :=
    fun c hc => natToDec_all_digits m c (stripTrailingZeros_subset _ c hc)
  have hlen : (stripTrailingZeros (natToDec m)).length ≤ (natToDec m).length := by
    conv_rhs => rw [hdec]
    simp
  rw [hdt] at hdec hval hsigdig hlen
  rw [ht'] at hdec hsigdig hlen
  have hmval : m = digitsToNat 0 (d :: t') * 10 ^ ((d :: t).length - (d :: t').length) := by
    rw [← hval]
    exact digitsToNat_single_le _ _ _ hdec
  have hexp := parseJsonExponent_plus ((d :: t).length - 1) tail h
  unfold natToJSString
  rw [if_neg hm]
  simp only [hdt, ht']
  have hlead : ¬ ([d] = [] ∨ (([d] : List Char).head? = some '0' ∧ ([d] : List Char).length ≠ 1)) := by
    simp
  cases t' with
  | nil =>
    have hspan : spanDigits (d :: ('e' :: '+' :: natToDec ((d :: t).length - 1) ++ tail)) =
        ([d], 'e' :: '+' :: natToDec ((d :: t).length - 1) ++ tail) :=
      spanDigits_single d 'e' _ hd (by decide)
    show parseJsonUnsigned neg (d :: ('e' :: '+' :: natToDec ((d :: t).length - 1) ++ tail)) = _
    unfold parseJsonUnsigned
    simp only [hspan]
    rw [if_neg hlead]
    have hexp' : parseJsonExponent ('e' :: '+' :: natToDec ((d :: t).length - 1) ++ tail) =
        some (Int.ofNat ((d :: t).length - 1), tail) := hexp
    simp only [hexp']
    have hmv : digitsToNat 0 [d] * 10 ^ ((d :: t).length - 1) = m := by
      rw [hmval]
      rfl
    show some (decimalNum neg (digitsToNat 0 [d]) (Int.ofNat ((d :: t).length - 1)), tail) = _
    simp only [decimalNum, canonDecimal, hmv]
  | cons x xs =>
    have hxs : ∀ c ∈ x :: xs, isDigit c = true :=
      fun c hc => hsigdig c (List.mem_cons_of_mem _ hc)
    have hspan1 : spanDigits (d :: '.' :: ((x :: xs) ++ 'e' :: '+' ::
        natToDec ((d :: t).length - 1) ++ tail)) =
        ([d], '.' :: ((x :: xs) ++ 'e' :: '+' :: natToDec ((d :: t).length - 1) ++ tail)) :=
      spanDigits_single d '.' _ hd (by decide)
    have hspan2 : spanDigits ((x :: xs) ++ ('e' :: '+' ::
        (natToDec ((d :: t).length - 1) ++ tail))) =
        (x :: xs, 'e' :: '+' :: (natToDec ((d :: t).length - 1) ++ tail)) :=
      spanDigits_append _ _ hxs (by
        intro c r hc
        injection hc with h1 _
        subst h1
        decide)
    have hform : (d :: '.' :: (x :: xs ++ 'e' :: '+' :: natToDec ((d :: t).length - 1))) ++ tail =
        d :: '.' :: ((x :: xs) ++ ('e' :: '+' :: (natToDec ((d :: t).length - 1) ++ tail))) := by
      simp
    rw [hform]
    unfold parseJsonUnsigned
    have hspan1' : spanDigits (d :: '.' :: ((x :: xs) ++ ('e' :: '+' ::
        (natToDec ((d :: t).length - 1) ++ tail)))) =
        ([d], '.' :: ((x :: xs) ++ ('e' :: '+' :: (natToDec ((d :: t).length - 1) ++ tail)))) :=
      spanDigits_single d '.' _ hd (by decide)
    simp only [hspan1']
    rw [if_neg hlead]
    simp only [hspan2]
    rw [if_neg (by simp)]
    simp only [hexp]
    have hk : Int.ofNat ((d :: t).length - 1) - Int.ofNat (x :: xs).length =
        Int.ofNat ((d :: t).length - (d :: x :: xs).length) := by
      simp only [List.length_cons] at hlen ⊢
      simp only [Int.ofNat_eq_coe]
      omega
    rw [hk]
    have hmv : digitsToNat 0 ([d] ++ (x :: xs)) *
        10 ^ ((d :: t).length - (d :: x :: xs).length) = m := by
      rw [hmval]
      rfl
    simp only [decimalNum, canonDecimal, hmv]

theorem parseJsonUnsigned_natToJSString (neg : Bool) (m : Nat) (tail : List Char)
    (h : isValueEnd tail = true) :
    parseJsonUnsigned neg (natToJSString m ++ tail) =
      some (.int (if neg = true then - Int.ofNat m else Int.ofNat m), tail) := by
  by_cases hm : m < 10 ^ 21
  · have : natToJSString m = natToDec m := by
      unfold natToJSString
      rw [if_pos hm]
    rw [this]
    exact parseJsonUnsigned_natToDec neg m tail h
  · exact parseJsonUnsigned_exponent neg m hm tail h

theorem parseJsonNumber_int (i : Int) (tail : List Char) (h : isValueEnd tail = true) :
    parseJsonNumber ((JSNum.int i).toChars ++ tail) = some (.int i, tail) := by
  cases i with
  | ofNat m =>
    have hp := parseJsonUnsigned_natToJSString false m tail h
    obtain ⟨d, t, hdt, hd⟩ : ∃ d t, natToJSString m = d :: t ∧ d ≠ '-' := by
      rcases Nat.eq_zero_or_pos m with h0 | h0
      · subst h0
        exact ⟨'0', [], by decide, by decide⟩
      · obtain ⟨d, t, h1, h2, _⟩ := natToJSString_head m h0
        exact ⟨d, t, h1, by rintro rfl; exact absurd h2 (by decide)⟩
    simp only [JSNum.toChars]
    rw [hdt] at hp ⊢
    unfold parseJsonNumber
    split
    · rename_i heq
      injection heq with h1 _
      exact absurd h1 hd
    · simpa using hp
  | negSucc m =>
    have hp := parseJsonUnsigned_natToJSString true (m + 1) tail h
    simp only [JSNum.toChars, List.cons_append, parseJsonNumber]
    rw [hp]
    rfl

/-! ## JSON: numbers with a fraction -/

theorem natToDec_length_le (k : Nat) : ∀ n, n < 10 ^ (k + 1) → (natToDec n).length ≤ k + 1 := by
  induction k with
  | zero =>
    intro n hn
    rw [natToDec_lt n (by simpa using hn)]
    simp
  | succ k ih =>
    intro n hn
    by_cases h : n < 10
    · rw [natToDec_lt n h]
      simp
    · rw [natToDec_ge n (by omega), List.length_append]
      have : n / 10 < 10 ^ (k + 1) := by
        rw [Nat.div_lt_iff_lt_mul (by norm_num)]
        rw [pow_succ] at hn
        exact hn
      have := ih (n / 10) this
      simp only [List.length_singleton]
      omega

theorem natToDec_last (n : Nat) (h : n % 10 ≠ 0) :
    ∃ l c, natToDec n = l ++ [c] ∧ c ≠ '0' := by
  have hc : digitChar (n % 10) ≠ '0' := digitChar_ne_zero _ (Nat.pos_of_ne_zero h)
  by_cases hn : n < 10
  · refine ⟨[], digitChar n, by rw [natToDec_lt n hn]; rfl, ?_⟩
    rw [Nat.mod_eq_of_lt hn] at hc
    exact hc
  · exact ⟨natToDec (n / 10), digitChar (n % 10), natToDec_ge n (by omega), hc⟩

theorem stripTrailingZeros_snoc (l : List Char) (c : Char) (hc : c ≠ '0') :
    stripTrailingZeros (l ++ [c]) = l ++ [c] := by
  unfold stripTrailingZeros
  rw [List.reverse_append]
  simp [List.dropWhile, hc]

theorem digitsToNat_fold (A : List Char) :
    ∀ (acc : Nat) (B : List Char), digitsToNat acc (A ++ B) = digitsToNat (digitsToNat acc A) B := by
  induction A with
  | nil => intro acc B; rfl
  | cons a A ih => intro acc B; simp [digitsToNat, ih]

theorem digitsToNat_acc (B : List Char) :
    ∀ acc : Nat, digitsToNat acc B = acc * 10 ^ B.length + digitsToNat 0 B := by
  induction B with
  | nil => intro acc; simp [digitsToNat]
  | cons c cs ih =>
    intro acc
    simp only [digitsToNat, List.length_cons, Nat.zero_mul, Nat.zero_add]
    rw [ih (acc * 10 + (digitVal? c).getD 0), ih ((digitVal? c).getD 0), pow_succ]
    ring

theorem digitsToNat_leading_zeros (j : Nat) (ds : List Char) :
    digitsToNat 0 (List.replicate j '0' ++ ds) = digitsToNat 0 ds := by
  induction j with
  | zero => rfl
  | succ j ih =>
    rw [List.replicate_succ, List.cons_append]
    simp only [digitsToNat, Nat.zero_mul, Nat.zero_add]
    have : (digitVal? '0').getD 0 = 0 := by decide
    rw [this]
    exact ih

/-- The fraction digits of a canonical decimal: exactly `k` digits, the last one not `0`. -/
theorem fraction_digits (m k : Nat) (hk : 0 < k) (hm : m % 10 ≠ 0) :
    m % 10 ^ k ≠ 0 ∧
      stripTrailingZeros (padZeros k (natToDec (m % 10 ^ k))) =
        padZeros k (natToDec (m % 10 ^ k)) ∧
      (padZeros k (natToDec (m % 10 ^ k))).length = k ∧
      (∀ c ∈ padZeros k (natToDec (m % 10 ^ k)), isDigit c = true) ∧
      digitsToNat 0 (padZeros k (natToDec (m % 10 ^ k))) = m % 10 ^ k := by
  have hdvd : 10 ∣ 10 ^ k := dvd_pow_self 10 (by omega)
  have hmod : (m % 10 ^ k) % 10 = m % 10 := Nat.mod_mod_of_dvd m hdvd
  have hfp : m % 10 ^ k ≠ 0 := by
    intro h0
    rw [h0] at hmod
    exact hm hmod.symm
  have hlt : m % 10 ^ k < 10 ^ k := Nat.mod_lt _ (by positivity)
  obtain ⟨k', rfl⟩ : ∃ k', k = k' + 1 := ⟨k - 1, by omega⟩
  have hlen := natToDec_length_le k' _ hlt
  obtain ⟨l, c, hlc, hc⟩ := natToDec_last (m % 10 ^ (k' + 1)) (by rw [hmod]; exact hm)
  refine ⟨hfp, ?_, ?_, ?_, ?_⟩
  · unfold padZeros
    rw [hlc, ← List.append_assoc]
    exact stripTrailingZeros_snoc _ c hc
  · unfold padZeros
    rw [List.length_append, List.length_replicate]
    omega
  · intro c hc
    unfold padZeros at hc
    rcases List.mem_append.mp hc with h | h
    · rw [List.mem_replicate] at h
      rw [h.2]
      decide
    · exact natToDec_all_digits _ c h
  · unfold padZeros
    rw [digitsToNat_leading_zeros, digitsToNat_natToDec]

theorem parseJsonUnsigned_frac (neg : Bool) (m k : Nat) (hk : 0 < k) (hm : m % 10 ≠ 0)
    (tail : List Char) (h : isValueEnd tail = true) :
    parseJsonUnsigned neg (fixedPoint m k ++ tail) = some (.frac neg m k, tail) := by
  obtain ⟨hfp, hstrip, hflen, hfdig, hfval⟩ := fraction_digits m k hk hm
  have hfix : fixedPoint m k =
      natToDec (m / 10 ^ k) ++ '.' :: padZeros k (natToDec (m % 10 ^ k)) := by
    unfold fixedPoint
    simp only
    rw [if_neg hfp, hstrip]
  have hspan1 : spanDigits (natToDec (m / 10 ^ k) ++
      ('.' :: (padZeros k (natToDec (m % 10 ^ k)) ++ tail))) =
      (natToDec (m / 10 ^ k), '.' :: (padZeros k (natToDec (m % 10 ^ k)) ++ tail)) :=
    spanDigits_append _ _ (natToDec_all_digits _) (by
      intro c r hc
      injection hc with h1 _
      subst h1
      decide)
  have hspan2 : spanDigits (padZeros k (natToDec (m % 10 ^ k)) ++ tail) =
      (padZeros k (natToDec (m % 10 ^ k)), tail) :=
    spanDigits_append _ _ hfdig (fun c r hc => (valueEnd_head tail h c r hc).1)
  have hlead : ¬ (natToDec (m / 10 ^ k) = [] ∨
      ((natToDec (m / 10 ^ k)).head? = some '0' ∧ (natToDec (m / 10 ^ k)).length ≠ 1)) := by
    rintro (h0 | ⟨h1, h2⟩)
    · exact natToDec_ne_nil _ h0
    · rcases Nat.eq_zero_or_pos (m / 10 ^ k) with hz | hz
      · rw [hz] at h2
        exact h2 rfl
      · obtain ⟨d, t, hdt, _, hd0⟩ := natToDec_head _ hz
        rw [hdt] at h1
        simp only [List.head?_cons, Option.some.injEq] at h1
        exact hd0 h1
  have hne : padZeros k (natToDec (m % 10 ^ k)) ≠ [] := by
    intro h0
    rw [h0] at hflen
    simp at hflen
    omega
  have hval : digitsToNat 0 (natToDec (m / 10 ^ k) ++ padZeros k (natToDec (m % 10 ^ k))) = m := by
    rw [digitsToNat_fold, digitsToNat_natToDec, digitsToNat_acc, hflen, hfval]
    exact Nat.div_add_mod' m (10 ^ k)
  have hform : fixedPoint m k ++ tail = natToDec (m / 10 ^ k) ++
      ('.' :: (padZeros k (natToDec (m % 10 ^ k)) ++ tail)) := by
    rw [hfix]
    simp
  rw [hform]
  unfold parseJsonUnsigned
  simp only [hspan1]
  rw [if_neg hlead]
  simp only [hspan2]
  rw [if_neg hne, parseJsonExponent_end tail h]
  simp only [hval, hflen]
  obtain ⟨k', rfl⟩ : ∃ k', k = k' + 1 := ⟨k - 1, by omega⟩
  have hexp : (0 : Int) - Int.ofNat (k' + 1) = Int.negSucc k' := by
    rw [Int.negSucc_eq]
    simp only [Int.ofNat_eq_coe]
    push_cast
    ring
  rw [hexp]
  simp [decimalNum, canonDecimal, hm]

theorem parseJsonNumber_frac (neg : Bool) (m k : Nat) (hk : 0 < k) (hm : m % 10 ≠ 0)
    (tail : List Char) (h : isValueEnd tail = true) :
    parseJsonNumber ((JSNum.frac neg m k).toChars ++ tail) = some (.frac neg m k, tail) := by
  cases neg with
  | true =>
    have hp := parseJsonUnsigned_frac true m k hk hm tail h
    simp only [JSNum.toChars, if_true, List.cons_append, List.nil_append, parseJsonNumber]
    exact hp
  | false =>
    have hp := parseJsonUnsigned_frac false m k hk hm tail h
    obtain ⟨d, t, hdt, hd⟩ : ∃ d t, fixedPoint m k = d :: t ∧ d ≠ '-' := by
      obtain ⟨d, t, h1, h2⟩ := natToDec_head_digit (m / 10 ^ k)
      have hfp := (fraction_digits m k hk hm).1
      refine ⟨d, t ++ '.' :: stripTrailingZeros (padZeros k (natToDec (m % 10 ^ k))), ?_, ?_⟩
      · unfold fixedPoint
        simp only
        rw [if_neg hfp, h1]
        rfl
      · rintro rfl
        exact absurd h2 (by decide)
    simp only [JSNum.toChars, Bool.false_eq_true, if_false, List.nil_append]
    rw [hdt] at hp ⊢
    unfold parseJsonNumber
    split
    · rename_i heq
      injection heq with h1 _
      exact absurd h1 hd
    · simpa using hp

/-! ## JSON: values -/

theorem parseValue_succ (fuel : Nat) (c : Char) (rest : List Char) :
    parseValue (fuel + 1) (c :: rest) =
      if c = '"' then
        match parseStringBody rest with
        | some (s, r) => some (.str (String.mk s), r)
        | none => none
      else if c = '[' then
        match skipWs rest with
        | ']' :: r => some (.arr [], r)
        | r => match parseElems fuel r with
          | some (xs, r') => some (.arr xs, r')
          | none => none
      else if c = '{' then
        match skipWs rest with
        | '}' :: r => some (.obj [], r)
        | r => match parseMembers fuel r with
          | some (kvs, r') => some (.obj kvs, r')
          | none => none
      else if c = 'n' then
        match rest with
        | 'u' :: 'l' :: 'l' :: r => some (.null, r)
        | _ => none
      else if c = 't' then
        match rest with
        | 'r' :: 'u' :: 'e' :: r => some (.bool true, r)
        | _ => none
      else if c = 'f' then
        match rest with
        | 'a' :: 'l' :: 's' :: 'e' :: r => some (.bool false, r)
        | _ => none
      else if c = '-' ∨ isDigit c then
        match parseJsonNumber (c :: rest) with
        | some (n, r) => some (.num n, r)
        | none => none
      else none := rfl

theorem parseElems_succ (fuel : Nat) (cs : List Char) :
    parseElems (fuel + 1) cs =
      match parseValue fuel (skipWs cs) with
      | none => none
      | some (v, r) =>
        match skipWs r with
        | ',' :: r' =>
          match parseElems fuel r' with
          | some (vs, r'') => some (v :: vs, r'')
          | none => none
        | ']' :: r' => some ([v], r')
        | _ => none := rfl

theorem parseMembers_succ (fuel : Nat) (cs : List Char) :
    parseMembers (fuel + 1) cs =
      match skipWs cs with
      | '"' :: r0 =>
        match parseStringBody r0 with
        | none => none
        | some (k, r1) =>
          match skipWs r1 with
          | ':' :: r2 =>
            match parseValue fuel (skipWs r2) with
            | none => none
            | some (v, r3) =>
              match skipWs r3 with
              | ',' :: r4 =>
                match parseMembers fuel r4 with
                | some (kvs, r5) => some ((String.mk k, v) :: kvs, r5)
                | none => none
              | '}' :: r4 => some ([(String.mk k, v)], r4)
              | _ => none
          | _ => none
      | _ => none := rfl

theorem skipWs_cons (c : Char) (cs : List Char) (h : isJsonWs c = false) :
    skipWs (c :: cs) = c :: cs := by
  simp [skipWs, h]

theorem parseElems_last (fuel : Nat) (cs : List Char) (v : JSVal) (r : List Char)
    (h : parseValue fuel (skipWs cs) = some (v, ']' :: r)) :
    parseElems (fuel + 1) cs = some ([v], r) := by
  rw [parseElems_succ, h]
  simp [skipWs_cons ']' r (by decide)]

theorem parseElems_more (fuel : Nat) (cs : List Char) (v : JSVal) (r : List Char)
    (vs : List JSVal) (r' : List Char)
    (h : parseValue fuel (skipWs cs) = some (v, ',' :: r))
    (h' : parseElems fuel r = some (vs, r')) :
    parseElems (fuel + 1) cs = some (v :: vs, r') := by
  rw [parseElems_succ, h]
  simp [skipWs_cons ',' r (by decide), h']

theorem parseMembers_last (fuel : Nat) (cs r0 : List Char) (k : List Char) (r2 : List Char)
    (v : JSVal) (r4 : List Char) (h0 : skipWs cs = '"' :: r0)
    (h1 : parseStringBody r0 = some (k, ':' :: r2))
    (h2 : parseValue fuel (skipWs r2) = some (v, '}' :: r4)) :
    parseMembers (fuel + 1) cs = some ([(String.mk k, v)], r4) := by
  rw [parseMembers_succ, h0]
  simp [h1, skipWs_cons ':' r2 (by decide), h2, skipWs_cons '}' r4 (by decide)]

theorem parseMembers_more (fuel : Nat) (cs r0 : List Char) (k : List Char) (r2 : List Char)
    (v : JSVal) (r4 : List Char) (kvs : List (String × JSVal)) (r5 : List Char)
    (h0 : skipWs cs = '"' :: r0)
    (h1 : parseStringBody r0 = some (k, ':' :: r2))
    (h2 : parseValue fuel (skipWs r2) = some (v, ',' :: r4))
    (h3 : parseMembers fuel r4 = some (kvs, r5)) :
    parseMembers (fuel + 1) cs = some ((String.mk k, v) :: kvs, r5) := by
  rw [parseMembers_succ, h0]
  simp [h1, skipWs_cons ':' r2 (by decide), h2, skipWs_cons ',' r4 (by decide), h3]

theorem parseValue_number (fuel : Nat) (c : Char) (rest : List Char)
    (hc : c = '-' ∨ isDigit c = true) :
    parseValue (fuel + 1) (c :: rest) =
      match parseJsonNumber (c :: rest) with
      | some (n, r) => some (.num n, r)
      | none => none := by
  have h : c = '-' ∨ c = '0' ∨ c = '1' ∨ c = '2' ∨ c = '3' ∨ c = '4' ∨ c = '5' ∨ c = '6' ∨
      c = '7' ∨ c = '8' ∨ c = '9' := by
    rcases hc with h | h
    · exact Or.inl h
    · exact Or.inr ((isDigit_iff c).mp h)
  rcases h with h | h | h | h | h | h | h | h | h | h | h <;> subst h <;> rfl

theorem parseValue_array (fuel : Nat) (c : Char) (rest : List Char) (xs : List JSVal)
    (r : List Char) (hws : isJsonWs c = false) (hc : c ≠ ']')
    (h : parseElems fuel (c :: rest) = some (xs, r)) :
    parseValue (fuel + 1) ('[' :: c :: rest) = some (.arr xs, r) := by
  rw [parseValue_succ, if_neg (by decide), if_pos rfl, skipWs_cons c rest hws]
  split
  · rename_i heq
    injection heq with h1 _
    exact absurd h1 hc
  · rw [h]

theorem parseValue_object (fuel : Nat) (c : Char) (rest : List Char)
    (kvs : List (String × JSVal)) (r : List Char) (hws : isJsonWs c = false) (hc : c ≠ '}')
    (h : parseMembers fuel (c :: rest) = some (kvs, r)) :
    parseValue (fuel + 1) ('{' :: c :: rest) = some (.obj kvs, r) := by
  rw [parseValue_succ, if_neg (by decide), if_neg (by decide), if_pos rfl,
    skipWs_cons c rest hws]
  split
  · rename_i heq
    injection heq with h1 _
    exact absurd h1 hc
  · rw [h]

theorem parseValue_string (fuel : Nat) (s rest : List Char) :
    parseValue (fuel + 1) (quoteJSONString s ++ rest) = some (.str (String.mk s), rest) := by
  have : quoteJSONString s ++ rest = '"' :: (escapeChars s ++ '"' :: rest) := by
    simp [quoteJSONString]
  rw [this, parseValue_succ, if_pos rfl, parseStringBody_escapeChars]

theorem stringifyProps_cons (started : Bool) (k : String) (v : JSVal)
    (rest : List (String × JSVal)) (hv : v ≠ .undefined) :
    stringifyProps started ((k, v) :: rest) =
      (if started then [','] else []) ++ quoteJSONString k.data ++ ':' :: stringifyVal v ++
        stringifyProps true rest := by
  cases v with
  | undefined => exact absurd rfl hv
  | _ => rfl

theorem isPlain_ne_undefined (v : JSVal) (h : isPlain v = true) : v ≠ .undefined := by
  rintro rfl
  cases h

theorem isPlainProps_cons (k : String) (v : JSVal) (rest : List (String × JSVal)) :
    isPlainProps ((k, v) :: rest) =
      (isPlain v && decide (k ∉ rest.map Prod.fst) && isPlainProps rest) := rfl

theorem isPlainList_cons (x : JSVal) (xs : List JSVal) :
    isPlainList (x :: xs) = (isPlain x && isPlainList xs) := rfl

theorem stringifyProps_true (kv : String × JSVal) (rest : List (String × JSVal))
    (h : isPlainProps (kv :: rest) = true) :
    stringifyProps true (kv :: rest) = ',' :: stringifyProps false (kv :: rest) := by
  obtain ⟨k, v⟩ := kv
  rw [isPlainProps_cons] at h
  simp only [Bool.and_eq_true] at h
  have hv := isPlain_ne_undefined v h.1.1
  rw [stringifyProps_cons true k v rest hv, stringifyProps_cons false k v rest hv]
  simp

theorem stringifyVal_start (v : JSVal) (h : isPlain v = true) :
    ∃ c t, stringifyVal v = c :: t ∧ isJsonWs c = false ∧ c ≠ ']' ∧ c ≠ '}' := by
  cases v with
  | undefined => cases h
  | null => exact ⟨'n', _, rfl, by decide, by decide, by decide⟩
  | bool b => cases b <;> exact ⟨_, _, rfl, by decide, by decide, by decide⟩
  | num n =>
    cases n with
    | int i =>
      cases i with
      | ofNat m =>
        rcases Nat.eq_zero_or_pos m with h0 | h0
        · subst h0
          exact ⟨'0', [], by decide, by decide, by decide, by decide⟩
        · obtain ⟨d, t, h1, h2, _⟩ := natToJSString_head m h0
          refine ⟨d, t, h1, ?_, ?_, ?_⟩
          · rcases (isDigit_iff d).mp h2 with h | h | h | h | h | h | h | h | h | h <;>
              subst h <;> decide
          · rintro rfl; exact absurd h2 (by decide)
          · rintro rfl; exact absurd h2 (by decide)
      | negSucc m => exact ⟨'-', _, rfl, by decide, by decide, by decide⟩
    | frac neg m k =>
      cases neg with
      | true => exact ⟨'-', _, rfl, by decide, by decide, by decide⟩
      | false =>
        have hk : 0 < k ∧ m % 10 ≠ 0 := of_decide_eq_true h
        obtain ⟨d, t, h1, h2⟩ := natToDec_head_digit (m / 10 ^ k)
        have hfp := (fraction_digits m k hk.1 hk.2).1
        refine ⟨d, t ++ '.' :: stripTrailingZeros (padZeros k (natToDec (m % 10 ^ k))), ?_, ?_, ?_,
          ?_⟩
        · show ([] : List Char) ++ fixedPoint m k = _
          unfold fixedPoint
          simp only
          rw [if_neg hfp, h1]
          rfl
        · rcases (isDigit_iff d).mp h2 with h | h | h | h | h | h | h | h | h | h <;>
            subst h <;> decide
        · rintro rfl; exact absurd h2 (by decide)
        · rintro rfl; exact absurd h2 (by decide)
    | nan => cases h
  | str s => exact ⟨'"', _, rfl, by decide, by decide, by decide⟩
  | arr xs => exact ⟨'[', _, rfl, by decide, by decide, by decide⟩
  | obj kvs => exact ⟨'{', _, rfl, by decide, by decide, by decide⟩
  | bigint i => cases h

theorem stringifyVal_length_pos (v : JSVal) (h : isPlain v = true) :
    0 < (stringifyVal v).length := by
  obtain ⟨c, t, hct, _⟩ := stringifyVal_start v h
  rw [hct]
  simp

theorem skipWs_stringifyVal (v : JSVal) (h : isPlain v = true) (rest : List Char) :
    skipWs (stringifyVal v ++ rest) = stringifyVal v ++ rest := by
  obtain ⟨c, t, hct, hws, _⟩ := stringifyVal_start v h
  rw [hct]
  exact skipWs_cons c _ hws

/-- Reading back the text of plain data: the value, the elements of an array and the
members of an object, with fuel for the length of the text. -/
theorem parse_stringify (fuel : Nat) :
    (∀ v tail, isPlain v = true → (stringifyVal v).length ≤ fuel → isValueEnd tail = true →
      parseValue fuel (stringifyVal v ++ tail) = some (v, tail)) ∧
    (∀ x xs tail, isPlainList (x :: xs) = true →
      (stringifyElems (x :: xs)).length + 1 ≤ fuel →
      parseElems fuel (stringifyElems (x :: xs) ++ ']' :: tail) = some (x :: xs, tail)) ∧
    (∀ kv kvs tail, isPlainProps (kv :: kvs) = true →
      (stringifyProps false (kv :: kvs)).length + 1 ≤ fuel →
      parseMembers fuel (stringifyProps false (kv :: kvs) ++ '}' :: tail) =
        some (kv :: kvs, tail)) := by
  induction fuel with
  | zero =>
    refine ⟨?_, ?_, ?_⟩
    · intro v tail hp hl _
      have := stringifyVal_length_pos v hp
      omega
    · intro x xs tail _ hl
      omega
    · intro kv kvs tail _ hl
      omega
  | succ f ih =>
    obtain ⟨ihV, ihE, ihM⟩ := ih
    refine ⟨?_, ?_, ?_⟩
    · intro v tail hp hl hend
      cases v with
      | undefined => cases hp
      | null => rfl
      | bool b => cases b <;> rfl
      | num n =>
        cases n with
        | int i =>
          have hnum := parseJsonNumber_int i tail hend
          obtain ⟨c, t, hct, _, _, _⟩ := stringifyVal_start (.num (.int i)) hp
          have hct' : (JSNum.int i).toChars = c :: t := hct
          have hc : c = '-' ∨ isDigit c = true := by
            cases i with
            | ofNat m =>
              right
              rcases Nat.eq_zero_or_pos m with h0 | h0
              · subst h0
                have : (JSNum.int (Int.ofNat 0)).toChars = ['0'] := by decide
                rw [this] at hct'
                injection hct' with h1 _
                subst h1
                decide
              · obtain ⟨d, t', h1, h2, _⟩ := natToJSString_head m h0
                have : (JSNum.int (Int.ofNat m)).toChars = d :: t' := h1
                rw [this] at hct'
                injection hct' with h3 _
                subst h3
                exact h2
            | negSucc m =>
              left
              have : (JSNum.int (Int.negSucc m)).toChars = '-' :: natToJSString (m + 1) := rfl
              rw [this] at hct'
              injection hct' with h3 _
              exact h3.symm
          show parseValue (f + 1) ((JSNum.int i).toChars ++ tail) = _
          rw [hct'] at hnum ⊢
          rw [List.cons_append, parseValue_number f c _ hc]
          rw [List.cons_append] at hnum
          rw [hnum]
        | frac neg m k =>
          have hk : 0 < k ∧ m % 10 ≠ 0 := of_decide_eq_true hp
          have hnum := parseJsonNumber_frac neg m k hk.1 hk.2 tail hend
          obtain ⟨c, t, hct, _, _, _⟩ := stringifyVal_start (.num (.frac neg m k)) hp
          have hct' : (JSNum.frac neg m k).toChars = c :: t := hct
          have hc : c = '-' ∨ isDigit c = true := by
            cases neg with
            | true =>
              left
              have : (JSNum.frac true m k).toChars = '-' :: fixedPoint m k := rfl
              rw [this] at hct'
              injection hct' with h3 _
              exact h3.symm
            | false =>
              right
              have hfix : (JSNum.frac false m k).toChars = fixedPoint m k := rfl
              rw [hfix] at hct'
              have hmem : c ∈ fixedPoint m k := by rw [hct']; exact List.mem_cons_self _ _
              rcases fixedPoint_chars m k c hmem with h1 | h1
              · exact h1
              · exfalso
                obtain ⟨d, t', h2, h3⟩ := natToDec_head_digit (m / 10 ^ k)
                have hfp := (fraction_digits m k hk.1 hk.2).1
                unfold fixedPoint at hct'
                simp only at hct'
                rw [if_neg hfp, h2] at hct'
                injection hct' with h4 _
                rw [h4, h1] at h3
                exact absurd h3 (by decide)
          show parseValue (f + 1) ((JSNum.frac neg m k).toChars ++ tail) = _
          rw [hct'] at hnum ⊢
          rw [List.cons_append, parseValue_number f c _ hc]
          rw [List.cons_append] at hnum
          rw [hnum]
        | nan => cases hp
      | str s => exact parseValue_string f s.data tail
      | arr xs =>
        cases xs with
        | nil => rfl
        | cons x xs =>
          have hpx : isPlain x = true := by
            have : isPlainList (x :: xs) = true := hp
            rw [isPlainList_cons] at this
            simp only [Bool.and_eq_true] at this
            exact this.1
          have hlen : (stringifyVal (.arr (x :: xs))).length =
              (stringifyElems (x :: xs)).length + 2 := by
            show ('[' :: (stringifyElems (x :: xs) ++ [']'])).length = _
            simp
          have hE := ihE x xs tail hp (by omega)
          obtain ⟨c, t, hct, hws, hc1, _⟩ : ∃ c t, stringifyElems (x :: xs) = c :: t ∧
              isJsonWs c = false ∧ c ≠ ']' ∧ c ≠ '}' := by
            obtain ⟨c, t, hct, h2⟩ := stringifyVal_start x hpx
            cases xs with
            | nil => exact ⟨c, t, hct, h2⟩
            | cons y ys =>
              refine ⟨c, t ++ ',' :: stringifyElems (y :: ys), ?_, h2⟩
              show stringifyVal x ++ ',' :: stringifyElems (y :: ys) = _
              rw [hct]
              rfl
          show parseValue (f + 1) ('[' :: (stringifyElems (x :: xs) ++ [']']) ++ tail) = _
          rw [hct] at hE ⊢
          have hform : '[' :: (c :: t ++ [']']) ++ tail = '[' :: c :: (t ++ ']' :: tail) := by
            simp
          rw [hform]
          exact parseValue_array f c _ _ _ hws hc1 hE
      | obj kvs =>
        cases kvs with
        | nil => rfl
        | cons kv kvs =>
          have hlen : (stringifyVal (.obj (kv :: kvs))).length =
              (stringifyProps false (kv :: kvs)).length + 2 := by
            show ('{' :: (stringifyProps false (kv :: kvs) ++ ['}'])).length = _
            simp
          have hM := ihM kv kvs tail hp (by omega)
          obtain ⟨t, hct⟩ : ∃ t, stringifyProps false (kv :: kvs) = '"' :: t := by
            obtain ⟨k, v⟩ := kv
            have hp' : isPlainProps ((k, v) :: kvs) = true := hp
            rw [isPlainProps_cons] at hp'
            simp only [Bool.and_eq_true] at hp'
            rw [stringifyProps_cons false k v kvs (isPlain_ne_undefined v hp'.1.1)]
            exact ⟨_, rfl⟩
          show parseValue (f + 1) ('{' :: (stringifyProps false (kv :: kvs) ++ ['}']) ++ tail) = _
          rw [hct] at hM ⊢
          have hform : '{' :: ('"' :: t ++ ['}']) ++ tail = '{' :: '"' :: (t ++ '}' :: tail) := by
            simp
          rw [hform]
          exact parseValue_object f '"' _ _ _ (by decide) (by decide) hM
      | bigint i => cases hp
    · intro x xs tail hp hl
      have hp' := hp
      rw [isPlainList_cons] at hp'
      simp only [Bool.and_eq_true] at hp'
      have hpos := stringifyVal_length_pos x hp'.1
      cases xs with
      | nil =>
        have hE : stringifyElems [x] = stringifyVal x := rfl
        rw [hE] at hl ⊢
        apply parseElems_last
        rw [skipWs_stringifyVal x hp'.1]
        exact ihV x (']' :: tail) hp'.1 (by omega) (by simp [isValueEnd])
      | cons y ys =>
        have hE : stringifyElems (x :: y :: ys) =
            stringifyVal x ++ ',' :: stringifyElems (y :: ys) := rfl
        rw [hE] at hl ⊢
        simp only [List.length_append, List.length_cons] at hl
        rw [List.append_assoc, List.cons_append]
        apply parseElems_more f _ x _ (y :: ys) tail
        · rw [skipWs_stringifyVal x hp'.1]
          exact ihV x _ hp'.1 (by omega) (by simp [isValueEnd])
        · exact ihE y ys tail hp'.2 (by omega)
    · intro kv kvs tail hp hl
      obtain ⟨k, v⟩ := kv
      have hp' := hp
      rw [isPlainProps_cons] at hp'
      simp only [Bool.and_eq_true] at hp'
      have hv := isPlain_ne_undefined v hp'.1.1
      have hpos := stringifyVal_length_pos v hp'.1.1
      rw [stringifyProps_cons false k v kvs hv] at hl ⊢
      simp only [Bool.false_eq_true, if_false, List.nil_append, quoteJSONString, List.length_append,
        List.length_cons, List.cons_append, List.append_assoc] at hl ⊢
      cases kvs with
      | nil =>
        have hnil : stringifyProps true [] = [] := rfl
        rw [hnil] at hl ⊢
        simp only [List.nil_append]
        refine parseMembers_last f _ _ k.data _ v tail (skipWs_cons '"' _ (by decide))
          (parseStringBody_escapeChars k.data _) ?_
        rw [skipWs_stringifyVal v hp'.1.1]
        exact ihV v _ hp'.1.1 (by omega) (by simp [isValueEnd])
      | cons kv' kvs' =>
        rw [stringifyProps_true kv' kvs' hp'.2] at hl ⊢
        simp only [List.length_cons, List.cons_append] at hl ⊢
        refine parseMembers_more f _ _ k.data _ v
          (stringifyProps false (kv' :: kvs') ++ '}' :: tail) (kv' :: kvs') tail
          (skipWs_cons '"' _ (by decide)) (parseStringBody_escapeChars k.data _) ?_ ?_
        · rw [skipWs_stringifyVal v hp'.1.1]
          exact ihV v _ hp'.1.1 (by omega) (by simp [isValueEnd])
        · exact ihM kv' kvs' tail hp'.2 (by omega)

theorem setProp_append (k : String) (v : JSVal) (acc : List (String × JSVal))
    (h : k ∉ acc.map Prod.fst) : setProp k v acc = acc ++ [(k, v)] := by
  induction acc with
  | nil => rfl
  | cons kv acc ih =>
    obtain ⟨k', v'⟩ := kv
    simp only [List.map_cons, List.mem_cons, not_or] at h
    have hne : ¬ k' = k := fun h' => h.1 h'.symm
    simp [setProp, hne, ih h.2]

theorem buildProps_cons (k : String) (v : JSVal) (rest acc : List (String × JSVal)) :
    buildProps ((k, v) :: rest) acc = buildProps rest (setProp k (buildVal v) acc) := rfl

/-- Plain data holds no BigInt, so `JSON.stringify` returns on it. -/
theorem isPlain_no_bigint (v : JSVal) : isPlain v = true → holdsBigInt v = false := by
  refine @JSVal.rec
    (fun v => isPlain v = true → holdsBigInt v = false)
    (fun xs => isPlainList xs = true → holdsBigIntList xs = false)
    (fun kvs => isPlainProps kvs = true → holdsBigIntProps kvs = false)
    (fun kv => isPlain kv.2 = true → holdsBigInt kv.2 = false)
    ?_ ?_ ?_ ?_ ?_ ?_ ?_ ?_ ?_ ?_ ?_ ?_ ?_ v
  · intro _; rfl
  · intro _; rfl
  · intro b _; rfl
  · intro n _; rfl
  · intro s _; rfl
  · intro xs ih hp
    exact ih hp
  · intro kvs ih hp
    exact ih hp
  · intro i hp
    cases hp
  · intro _; rfl
  · intro x xs ihx ihxs hp
    rw [isPlainList_cons] at hp
    simp only [Bool.and_eq_true] at hp
    show (holdsBigInt x || holdsBigIntList xs) = false
    rw [ihx hp.1, ihxs hp.2]
    rfl
  · intro _; rfl
  · intro kv kvs ihkv ihkvs hp
    obtain ⟨k, v⟩ := kv
    rw [isPlainProps_cons] at hp
    simp only [Bool.and_eq_true] at hp
    show (holdsBigInt v || holdsBigIntProps kvs) = false
    rw [ihkv hp.1.1, ihkvs hp.2]
    rfl
  · intro k v ih hp
    exact ih hp

/-- Building the object of plain data changes nothing: no key is repeated. -/
theorem buildVal_plain (v : JSVal) : isPlain v = true → buildVal v = v := by
  refine @JSVal.rec
    (fun v => isPlain v = true → buildVal v = v)
    (fun xs => isPlainList xs = true → buildElems xs = xs)
    (fun kvs => isPlainProps kvs = true →
      ∀ acc, (∀ kv ∈ kvs, kv.1 ∉ acc.map Prod.fst) → buildProps kvs acc = acc ++ kvs)
    (fun kv => isPlain kv.2 = true → buildVal kv.2 = kv.2)
    ?_ ?_ ?_ ?_ ?_ ?_ ?_ ?_ ?_ ?_ ?_ ?_ ?_ v
  · intro _; rfl
  · intro _; rfl
  · intro b _; rfl
  · intro n _; rfl
  · intro s _; rfl
  · intro xs ih hp
    show JSVal.arr (buildElems xs) = _
    rw [ih hp]
  · intro kvs ih hp
    show JSVal.obj (buildProps kvs []) = _
    rw [ih hp [] (by simp)]
    rfl
  · intro i _; rfl
  · intro _; rfl
  · intro x xs ihx ihxs hp
    rw [isPlainList_cons] at hp
    simp only [Bool.and_eq_true] at hp
    show buildVal x :: buildElems xs = _
    rw [ihx hp.1, ihxs hp.2]
  · intro _ acc _
    show acc = acc ++ []
    simp
  · intro kv rest ihkv ihrest hp acc hacc
    obtain ⟨k, v⟩ := kv
    rw [isPlainProps_cons] at hp
    simp only [Bool.and_eq_true, decide_eq_true_eq] at hp
    have hv : buildVal v = v := ihkv hp.1.1
    have hk : k ∉ acc.map Prod.fst := hacc (k, v) (List.mem_cons_self _ _)
    rw [buildProps_cons, hv, setProp_append k v acc hk, ihrest hp.2]
    · simp
    · intro kv hkv
      simp only [List.map_append, List.map_cons, List.map_nil, List.mem_append,
        List.mem_singleton, not_or]
      refine ⟨hacc kv (List.mem_cons_of_mem _ hkv), ?_⟩
      intro heq
      exact hp.1.2 (by rw [← heq]; exact List.mem_map_of_mem _ hkv)
  · intro k v ih hp
    exact ih hp

/-- `JSON.parse` of the `JSON.stringify` text of plain data gives the data back. -/
theorem jsonParse_jsonStringify (v : JSVal) (h : isPlain v = true) :
    jsonParse (jsonStringify v) = some v := by
  have hp := (parse_stringify ((stringifyVal v).length + 1)).1 v [] h (by omega) rfl
  rw [List.append_nil] at hp
  unfold jsonParse jsonStringify
  simp only
  rw [← List.append_nil (stringifyVal v), skipWs_stringifyVal v h, List.append_nil, hp]
  simp [skipWs, buildVal_plain v h]

/-! ## Legacy queries -/

theorem isSegmentChar_iff (c : Char) :
    isSegmentChar c = true ↔ c ≠ '?' ∧ c ≠ '&' ∧ c ≠ '=' := by
  simp [isSegmentChar, and_assoc]

theorem body_no_sep (s : QuerySegment) (h : s.wellFormed = true) :
    ∀ c ∈ s.body, (fun c => decide (c = '?' ∨ c = '&')) c = false := by
  simp only [QuerySegment.wellFormed, Bool.and_eq_true, List.all_eq_true] at h
  intro c hc
  simp only [QuerySegment.body, List.mem_append, List.mem_cons] at hc
  rcases hc with hc | rfl | hc
  · have := (isSegmentChar_iff c).1 (h.1.2 c hc)
    simp [this.1, this.2.1]
  · decide
  · have := (isSegmentChar_iff c).1 (h.2 c hc)
    simp [this.1, this.2.1]

theorem splitAt_body_queryText (s : QuerySegment) (rest : List QuerySegment)
    (hs : s.wellFormed = true) (hr : ∀ t ∈ rest, t.wellFormed = true) :
    splitAt (fun c => decide (c = '?' ∨ c = '&')) (s.body ++ queryText rest) =
      s.body :: rest.map QuerySegment.body := by
  induction rest generalizing s with
  | nil =>
    simp only [queryText, List.append_nil, List.map_nil]
    exact splitAt_no_sep _ _ (body_no_sep s hs)
  | cons t rest ih =>
    have ht := hr t (List.mem_cons_self _ _)
    have hsep : (fun c => decide (c = '?' ∨ c = '&')) t.sep = true := by
      simp only [QuerySegment.wellFormed, Bool.and_eq_true, Bool.or_eq_true,
        decide_eq_true_eq] at ht
      simpa using ht.1.1
    simp only [queryText, List.map_cons]
    rw [splitAt_append_sep _ _ _ _ (body_no_sep s hs) hsep,
      ih t ht (fun u hu => hr u (List.mem_cons_of_mem _ hu))]

theorem applySegment_other (result : List (String × JSVal)) (s : QuerySegment)
    (hs : s.wellFormed = true) (hk : s.key ∉ ["gas", "amount", "from", "chainId"]) :
    applySegment result s.body = result := by
  simp only [QuerySegment.wellFormed, Bool.and_eq_true, List.all_eq_true] at hs
  have hkd : ∀ c ∈ s.key.data, (fun c => decide (c = '=')) c = false := by
    intro c hc
    have := (isSegmentChar_iff c).1 (hs.1.2 c hc)
    simp [this.2.2]
  have hsplit : splitAt (fun c => decide (c = '=')) (s.key.data ++ '=' :: s.value.data) =
      [s.key.data, s.value.data] := by
    rw [splitAt_append_sep _ s.key.data '=' s.value.data hkd (by simp), splitAt_no_sep]
    intro c hc
    have := (isSegmentChar_iff c).1 (hs.2 c hc)
    simp [this.2.2]
  simp only [applySegment, QuerySegment.body, hsplit, List.headD_cons]
  rw [if_neg hk]

theorem convert_eq_referenceValue (k v : String)
    (hk : k ∈ ["gas", "amount", "from", "chainId"]) :
    convert k (.str v) = referenceValue k v := by
  simp only [List.mem_cons, List.mem_singleton, List.not_mem_nil, or_false] at hk
  rcases hk with rfl | rfl | rfl | rfl <;> rfl

theorem applySegment_known (result : List (String × JSVal)) (s : QuerySegment)
    (hs : s.wellFormed = true) (hk : s.key ∈ ["gas", "amount", "from", "chainId"]) :
    applySegment result s.body = setProp s.key (referenceValue s.key s.value) result := by
  simp only [QuerySegment.wellFormed, Bool.and_eq_true, List.all_eq_true] at hs
  have hv : ∀ c ∈ s.value.data, c ≠ '=' := fun c hc => ((isSegmentChar_iff c).1 (hs.2 c hc)).2.2
  rw [QuerySegment.body, applySegment_keyValue result s.key s.value.data hk hv,
    ← convert_eq_referenceValue _ _ hk]

theorem foldl_applySegment_bodies (segs : List QuerySegment)
    (hs : ∀ s ∈ segs, s.wellFormed = true) (r : List (String × JSVal)) :
    (segs.map QuerySegment.body).foldl applySegment r =
      (segs.filter (fun s => s.key ∈ ["gas", "amount", "from", "chainId"])).foldl
        (fun r s => setProp s.key (referenceValue s.key s.value) r) r := by
  induction segs generalizing r with
  | nil => rfl
  | cons s rest ih =>
    have hs0 := hs s (List.mem_cons_self _ _)
    have hrest := fun u hu => hs u (List.mem_cons_of_mem _ hu)
    rw [List.map_cons, List.foldl_cons]
    by_cases hk : s.key ∈ ["gas", "amount", "from", "chainId"]
    · rw [List.filter_cons_of_pos (by simpa using hk), List.foldl_cons,
        applySegment_known r s hs0 hk, ih hrest]
    · rw [List.filter_cons_of_neg (by simpa using hk), applySegment_other r s hs0 hk, ih hrest]

theorem decodeEthSend_query (a : String) (segs : List QuerySegment)
    (ha : matchesAddress a.data = true) (hs : ∀ s ∈ segs, s.wellFormed = true) :
    decodeEthSend (String.mk ("ethereum:".data ++ a.data ++ queryText segs)) =
      referenceParse a segs := by
  have hlen := matchesAddress_length _ ha
  have hpre : ("ethereum:".data ++ a.data).length = 51 := by
    rw [List.length_append, hlen]; rfl
  have h9 : "ethereum:".data.length = 9 := rfl
  unfold decodeEthSend
  simp only
  have hne : ¬ ("ethereum:".data ++ a.data ++ queryText segs = [] ∨
      List.take 9 ("ethereum:".data ++ a.data ++ queryText segs) ≠ "ethereum:".data) := by
    rw [List.append_assoc, List.take_left' h9]
    simp
  rw [if_neg hne]
  have hdrop9 : List.drop 9 ("ethereum:".data ++ a.data ++ queryText segs) =
      a.data ++ queryText segs := by
    rw [List.append_assoc, List.drop_left' h9]
  have htake : List.take 42 (List.drop 9 ("ethereum:".data ++ a.data ++ queryText segs)) =
      a.data := by
    rw [hdrop9, List.take_left' hlen]
  have hdrop51 : List.drop 51 ("ethereum:".data ++ a.data ++ queryText segs) = queryText segs :=
    List.drop_left' hpre
  have hl : ("ethereum:".data ++ a.data ++ queryText segs).length =
      51 + (queryText segs).length := by
    rw [List.length_append, hpre]
  have hvalid : isValidAddress (.str a) = true := ha
  rw [htake, hdrop51, hl]
  have hto : (51 ≤ 51 + (queryText segs).length ∧
      isValidAddress (.str (String.mk a.data)) = true) := ⟨by omega, hvalid⟩
  rw [if_pos hto]
  cases segs with
  | nil =>
    rw [if_neg (by simp [queryText])]
    rfl
  | cons s rest =>
    have hs0 := hs s (List.mem_cons_self _ _)
    have hrest := fun u hu => hs u (List.mem_cons_of_mem _ hu)
    have hsep : (fun c => decide (c = '?' ∨ c = '&')) s.sep = true := by
      simp only [QuerySegment.wellFormed, Bool.and_eq_true, Bool.or_eq_true,
        decide_eq_true_eq] at hs0
      simpa using hs0.1.1
    rw [if_pos (by simp [queryText])]
    have hsplit : (splitAt (fun c => decide (c = '?' ∨ c = '&')) (queryText (s :: rest))).tail =
        (s :: rest).map QuerySegment.body := by
      rw [queryText, splitAt, if_pos hsep, List.tail_cons, splitAt_body_queryText s rest hs0 hrest,
        List.map_cons]
    rw [hsplit, foldl_applySegment_bodies (s :: rest) hs]
    rfl

theorem lookup_setProp_ne (k k0 : String) (v : JSVal) (r : List (String × JSVal))
    (h : k ≠ k0) : lookup k0 (setProp k v r) = lookup k0 r := by
  induction r with
  | nil => simp [setProp, lookup, h]
  | cons kv rest ih =>
    obtain ⟨k1, v1⟩ := kv
    by_cases h1 : k1 = k
    · subst h1
      simp [setProp, lookup, h]
    · by_cases h2 : k1 = k0
      · subst h2
        simp [setProp, lookup, h1]
      · simp [setProp, lookup, h1, h2, ih]

theorem referenceParse_to (a : String) (segs : List QuerySegment) :
    (referenceParse a segs).get "to" = .str a := by
  have key : ∀ (l : List QuerySegment) (r : List (String × JSVal)),
      (∀ s ∈ l, s.key ∈ ["gas", "amount", "from", "chainId"]) →
      lookup "to" (l.foldl (fun r s => setProp s.key (referenceValue s.key s.value) r) r) =
        lookup "to" r := by
    intro l
    induction l with
    | nil => intro r _; rfl
    | cons s rest ih =>
      intro r hl
      rw [List.foldl_cons, ih _ (fun u hu => hl u (List.mem_cons_of_mem _ hu)),
        lookup_setProp_ne]
      intro h
      have := hl s (List.mem_cons_self _ _)
      rw [h] at this
      revert this
      decide
  unfold referenceParse JSVal.get
  simp only
  rw [key]
  · rfl
  · intro s hs
    simpa using (List.mem_filter.1 hs).2

/-! ## Modes -/

theorem strictEq_str (v : JSVal) (s : String) : strictEq v (.str s) = true ↔ v = .str s := by
  cases v with
  | str a => simp [strictEq]
  | num n => cases n <;> simp [strictEq]
  | _ => simp [strictEq]

theorem strictEq_str_false (v : JSVal) (s : String) (h : v ≠ .str s) :
    strictEq v (.str s) = false := by
  cases hb : strictEq v (.str s) with
  | false => rfl
  | true => exact absurd ((strictEq_str v s).1 hb) h

theorem validate_unsupported (data : JSVal)
    (hdef : isAmountDefined (data.get "mode") = true)
    (h1 : data.get "mode" ≠ .str "contract_function")
    (h2 : data.get "mode" ≠ .str "erc20__transfer")
    (h3 : data.get "mode" ≠ .str "erc20__approve")
    (h4 : data.get "mode" ≠ .str "erc20__transferFrom") :
    validateEthereumUri data = .error (.notSupportedUriMode (data.get "mode")) := by
  have e1 := strictEq_str_false _ _ h1
  have e2 := strictEq_str_false _ _ h2
  have e3 := strictEq_str_false _ _ h3
  have e4 := strictEq_str_false _ _ h4
  cases data with
  | undefined => cases hdef
  | null => cases hdef
  | _ =>
    simp only [validateEthereumUri, hdef, uriModes.contractFunction, uriModes.erc20Transfer,
      uriModes.erc20Approve, uriModes.erc20TransferFrom, e1, e2, e3, e4]
    rfl

/-! ## Addresses inside JSON texts -/

theorem matchesAddress_chars (cs : List Char) (h : matchesAddress cs = true) :
    ∀ c ∈ cs, isHexChar c = true ∨ c = 'x' ∨ c = 'X' := by
  unfold matchesAddress at h
  split at h
  · rename_i c0 c1 rest
    simp only [Bool.and_eq_true, decide_eq_true_eq, Bool.or_eq_true, List.all_eq_true] at h
    obtain ⟨⟨⟨h0, h1⟩, _⟩, hall⟩ := h
    intro c hc
    simp only [List.mem_cons] at hc
    rcases hc with rfl | rfl | hc
    · subst h0; exact Or.inl (by decide)
    · exact Or.inr h1
    · exact Or.inl (hall c hc)
  · cases h

theorem escapeChar_address_char (c : Char) (h : isHexChar c = true ∨ c = 'x' ∨ c = 'X') :
    escapeChar c = [c] := by
  rcases h with h | h | h
  · rcases (isHexChar_iff c).mp h with h | h | h | h | h | h | h | h | h | h | h | h | h
    · rcases (isDigit_iff c).mp h with h | h | h | h | h | h | h | h | h | h <;> subst h <;> rfl
    all_goals subst h; rfl
  · subst h; rfl
  · subst h; rfl

theorem escapeChars_address (cs : List Char) (h : matchesAddress cs = true) :
    escapeChars cs = cs := by
  have key : ∀ l : List Char, (∀ c ∈ l, isHexChar c = true ∨ c = 'x' ∨ c = 'X') →
      escapeChars l = l := by
    intro l
    induction l with
    | nil => intro _; rfl
    | cons c rest ih =>
      intro hl
      rw [escapeChars, escapeChar_address_char c (hl c (List.mem_cons_self _ _)),
        ih (fun d hd => hl d (List.mem_cons_of_mem _ hd))]
      rfl
  exact key cs (matchesAddress_chars cs h)

theorem jsonStringify_to_mode (a m : String) (ha : matchesAddress a.data = true)
    (hm : escapeChars m.data = m.data) :
    jsonStringify (.obj [("to", .str a), ("mode", .str m)]) =
      String.mk ("\x7b\"to\":\"".data ++ a.data ++ "\",\"mode\":\"".data ++ m.data ++
        "\"\x7d".data) := by
  have h1 : stringifyVal (.obj [("to", .str a), ("mode", .str m)]) =
      '{' :: (quoteJSONString "to".data ++ ':' :: quoteJSONString a.data ++
        (',' :: quoteJSONString "mode".data ++ ':' :: quoteJSONString m.data ++ []) ++
          ['}']) := by
    simp [stringifyVal, stringifyProps]
  unfold jsonStringify
  rw [h1]
  simp only [quoteJSONString, escapeChars_address a.data ha, hm]
  congr 1
  have e1 : escapeChars "to".data = "to".data := rfl
  have e2 : escapeChars "mode".data = "mode".data := rfl
  rw [e1, e2]
  simp

/-! ## The schemas with a mode -/

theorem validate_function_eq (data : JSVal)
    (hmode : data.get "mode" = .str "contract_function") :
    validateEthereumUri data = validateUriSchemaFunction data := by
  cases data with
  | undefined => cases hmode
  | null => cases hmode
  | _ =>
    simp only [validateEthereumUri, hmode]
    rfl

theorem function_without_signature (data : JSVal)
    (hmode : data.get "mode" = .str "contract_function")
    (hfs : isAmountDefined (data.get "functionSignature") = false) :
    ∃ e, validateEthereumUri data = .error e := by
  rw [validate_function_eq data hmode]
  unfold validateUriSchemaFunction
  rw [hfs]
  split
  · exact ⟨_, rfl⟩
  · split_ifs <;> first | exact ⟨_, rfl⟩ | contradiction

theorem erc20_schemaAllowed (data : JSVal) (m : String)
    (hm : m ∈ ["erc20__transfer", "erc20__approve", "erc20__transferFrom"])
    (hmode : data.get "mode" = .str m) :
    schemaAllowed data = some ["to", "from", "gas", "mode", "chainId", "argsDefaults"] := by
  simp only [List.mem_cons, List.mem_singleton, List.not_mem_nil, or_false] at hm
  rcases hm with rfl | rfl | rfl <;> simp only [schemaAllowed, hmode] <;> rfl

theorem approve_minimal (a : String) (ha : isValidAddress (.str a) = true) :
    validateEthereumUri (.obj [("to", .str a), ("mode", .str "erc20__approve")]) = .ok () := by
  have hto : (JSVal.obj [("to", .str a), ("mode", .str "erc20__approve")]).get "to" = .str a :=
    rfl
  have hreq : isValidRequiredParam (.str a) isValidAddress = true := by
    simp [isValidRequiredParam, isAmountDefined, ha]
  have h1 : validateEthereumUri (.obj [("to", .str a), ("mode", .str "erc20__approve")]) =
      validateUriSchemaERC20Approve (.obj [("to", .str a), ("mode", .str "erc20__approve")]) :=
    rfl
  rw [h1]
  unfold validateUriSchemaERC20Approve
  rw [hto, hreq]
  rfl

/-! ## The ERC-20 schemas -/

theorem erc20_ok_iff (l : List (String × JSVal)) (m : String)
    (hm : m = "erc20__transfer" ∨ m = "erc20__approve" ∨ m = "erc20__transferFrom")
    (hmode : (JSVal.obj l).get "mode" = .str m) :
    ∃ args : List JSVal, args.map (fun arg => arg.get "name") = (erc20ArgNames m).map JSVal.str ∧
      (validateEthereumUri (.obj l) = .ok () ↔
        (∀ k ∈ l.map Prod.fst, k ∈ ["to", "from", "gas", "mode", "chainId", "argsDefaults"]) ∧
        isValidRequiredParam ((JSVal.obj l).get "to") isValidAddress = true ∧
        isValidOptionalParam ((JSVal.obj l).get "from") isValidAddress = true ∧
        isValidOptionalParam ((JSVal.obj l).get "amount") isValidEthAmount = true ∧
        isValidOptionalParam ((JSVal.obj l).get "gas") isValidGasAmount = true ∧
        isValidOptionalParam ((JSVal.obj l).get "chainId") isValidChainId = true ∧
        (isAmountDefined ((JSVal.obj l).get "argsDefaults") = true →
          validateArgsDefaults ((JSVal.obj l).get "argsDefaults") (.arr args) = .ok ())) := by
  rcases hm with rfl | rfl | rfl
  · refine ⟨[builtinArg "to" "address", builtinArg "amount" "uint"], rfl, ?_⟩
    have h1 : validateEthereumUri (.obj l) = validateUriSchemaERC20Transfer (.obj l) := by
      simp only [validateEthereumUri, hmode]
      rfl
    rw [h1]
    unfold validateUriSchemaERC20Transfer validateAllowedProperties
    simp only [objectKeys, checkAllowed_eq, hmode]
    rw [← firstOutside_eq_none_iff]
    cases h0 : firstOutside ["to", "from", "gas", "mode", "chainId", "argsDefaults"]
        (l.map Prod.fst) with
    | some k0 => simp
    | none =>
      simp only [true_and]
      have hs : strictEq (.str "erc20__transfer") (.str uriModes.erc20Transfer) = true := rfl
      rw [hs]
      cases isValidRequiredParam ((JSVal.obj l).get "to") isValidAddress <;>
      cases isValidOptionalParam ((JSVal.obj l).get "from") isValidAddress <;>
      cases isValidOptionalParam ((JSVal.obj l).get "amount") isValidEthAmount <;>
      cases isValidOptionalParam ((JSVal.obj l).get "gas") isValidGasAmount <;>
      cases isValidOptionalParam ((JSVal.obj l).get "chainId") isValidChainId <;>
      cases isAmountDefined ((JSVal.obj l).get "argsDefaults") <;>
      simp [erc20TransferArgs]
  · refine ⟨[builtinArg "spender" "address", builtinArg "amount" "uint"], rfl, ?_⟩
    have h1 : validateEthereumUri (.obj l) = validateUriSchemaERC20Approve (.obj l) := by
      simp only [validateEthereumUri, hmode]
      rfl
    rw [h1]
    unfold validateUriSchemaERC20Approve validateAllowedProperties
    simp only [objectKeys, checkAllowed_eq, hmode]
    rw [← firstOutside_eq_none_iff]
    cases h0 : firstOutside ["to", "from", "gas", "mode", "chainId", "argsDefaults"]
        (l.map Prod.fst) with
    | some k0 => simp
    | none =>
      simp only [true_and]
      have hs : strictEq (.str "erc20__approve") (.str uriModes.erc20Approve) = true := rfl
      rw [hs]
      cases isValidRequiredParam ((JSVal.obj l).get "to") isValidAddress <;>
      cases isValidOptionalParam ((JSVal.obj l).get "from") isValidAddress <;>
      cases isValidOptionalParam ((JSVal.obj l).get "amount") isValidEthAmount <;>
      cases isValidOptionalParam ((JSVal.obj l).get "gas") isValidGasAmount <;>
      cases isValidOptionalParam ((JSVal.obj l).get "chainId") isValidChainId <;>
      cases isAmountDefined ((JSVal.obj l).get "argsDefaults") <;>
      simp [erc20ApproveArgs]
  · refine ⟨[builtinArg "from" "address", builtinArg "to" "address",
      builtinArg "amount" "uint"], rfl, ?_⟩
    have h1 : validateEthereumUri (.obj l) = validateUriSchemaERC20TransferFrom (.obj l) := by
      simp only [validateEthereumUri, hmode]
      rfl
    rw [h1]
    unfold validateUriSchemaERC20TransferFrom validateAllowedProperties
    simp only [objectKeys, checkAllowed_eq, hmode]
    rw [← firstOutside_eq_none_iff]
    cases h0 : firstOutside ["to", "from", "gas", "mode", "chainId", "argsDefaults"]
        (l.map Prod.fst) with
    | some k0 => simp
    | none =>
      simp only [true_and]
      have hs : strictEq (.str "erc20__transferFrom") (.str uriModes.erc20TransferFrom) = true :=
        rfl
      rw [hs]
      cases isValidRequiredParam ((JSVal.obj l).get "to") isValidAddress <;>
      cases isValidOptionalParam ((JSVal.obj l).get "from") isValidAddress <;>
      cases isValidOptionalParam ((JSVal.obj l).get "amount") isValidEthAmount <;>
      cases isValidOptionalParam ((JSVal.obj l).get "gas") isValidGasAmount <;>
      cases isValidOptionalParam ((JSVal.obj l).get "chainId") isValidChainId <;>
      cases isAmountDefined ((JSVal.obj l).get "argsDefaults") <;>
      simp [erc20TransferFromArgs]

/-! ## Default arguments -/

theorem lookup_filter_ne (k k0 : String) (l : List (String × JSVal)) (h : k ≠ k0) :
    lookup k (l.filter (fun kv => decide (kv.1 ≠ k0))) = lookup k l := by
  induction l with
  | nil => rfl
  | cons kv rest ih =>
    obtain ⟨k1, v1⟩ := kv
    by_cases h1 : k1 = k0
    · have hne : ¬ k1 = k := fun h2 => h (h2.symm.trans h1)
      rw [List.filter_cons_of_neg (by simp [h1]), ih, lookup, if_neg hne]
    · rw [List.filter_cons_of_pos (by simp [h1]), lookup, lookup, ih]

theorem get_filter_ne (k k0 : String) (l : List (String × JSVal)) (h : k ≠ k0) :
    (JSVal.obj (l.filter (fun kv => decide (kv.1 ≠ k0)))).get k = (JSVal.obj l).get k := by
  simp only [JSVal.get, lookup_filter_ne k k0 l h]

theorem lookup_filter_self (k0 : String) (l : List (String × JSVal)) :
    lookup k0 (l.filter (fun kv => decide (kv.1 ≠ k0))) = none := by
  induction l with
  | nil => rfl
  | cons kv rest ih =>
    obtain ⟨k1, v1⟩ := kv
    by_cases h1 : k1 = k0
    · rw [List.filter_cons_of_neg (by simp [h1]), ih]
    · rw [List.filter_cons_of_pos (by simp [h1]), lookup, if_neg h1, ih]

theorem forEach_ok_iff (f : JSVal → Except Err Unit) (xs : List JSVal) :
    forEach f xs = .ok () ↔ ∀ x ∈ xs, f x = .ok () := by
  induction xs with
  | nil => simp [forEach]
  | cons x rest ih =>
    cases hx : f x with
    | error e => simp [forEach, hx]
    | ok u =>
      cases u
      simp [forEach, hx, ih]

theorem validateArgsDefaults_arr (entries args : List JSVal) (hne : entries ≠ []) :
    validateArgsDefaults (.arr entries) (.arr args) =
      forEach (validateArgDefault args) entries := by
  cases entries with
  | nil => exact absurd rfl hne
  | cons d ds => rfl

theorem strictEq_eq (a b : JSVal) (h : strictEq a b = true) : a = b := by
  cases a with
  | num x =>
    cases b with
    | num y =>
      cases x <;> simp [strictEq] at h
      all_goals simp [h]
    | _ => cases x <;> simp [strictEq] at h
  | undefined => cases b <;> simp [strictEq] at h; rfl
  | null => cases b <;> simp [strictEq] at h; rfl
  | bool x =>
    cases b <;> simp [strictEq] at h ⊢
    exact h
  | str x =>
    cases b <;> simp [strictEq] at h ⊢
    exact h
  | arr x => cases b <;> simp [strictEq] at h
  | obj x => cases b <;> simp [strictEq] at h
  | bigint x =>
    cases b <;> simp [strictEq] at h ⊢
    exact h

theorem strictEq_str_left (s : String) (v : JSVal) : strictEq (.str s) v = true ↔ v = .str s := by
  cases v with
  | str t =>
    simp only [strictEq, beq_iff_eq, JSVal.str.injEq]
    exact eq_comm
  | _ => simp [strictEq]

theorem validateArgDefault_ok_iff (args : List JSVal) (e : JSVal) :
    validateArgDefault args e = .ok () ↔
      (∃ keys, objectKeys e = .ok keys ∧ ∀ k ∈ keys, k ∈ ["name", "amount"]) ∧
      isValidRequiredParam (e.get "name") isValidFunctionArgumentName = true ∧
      isAmountDefined (e.get "amount") = true ∧
      args.any (fun arg => strictEq (arg.get "name") (e.get "name")) = true := by
  unfold validateArgDefault validateAllowedProperties
  cases hk : objectKeys e with
  | error err => simp
  | ok keys =>
    simp only [checkAllowed_eq]
    cases h0 : firstOutside ["name", "amount"] keys with
    | some k0 =>
      have := firstOutside_spec _ _ _ h0
      simp only [Except.ok.injEq, exists_eq_left']
      constructor
      · intro h
        cases h
      · intro h
        exact absurd (h.1 k0 this.1) this.2
    | none =>
      have hall := firstOutside_none _ _ h0
      simp only [Except.ok.injEq, exists_eq_left']
      cases isValidRequiredParam (e.get "name") isValidFunctionArgumentName <;>
      cases isAmountDefined (e.get "amount") <;>
      cases (args.any fun arg => strictEq (arg.get "name") (e.get "name")) <;>
      simp [-List.mem_cons]
      exact hall

theorem erc20ArgNames_valid (m n : String)
    (hm : m = "erc20__transfer" ∨ m = "erc20__approve" ∨ m = "erc20__transferFrom")
    (hn : n ∈ erc20ArgNames m) :
    isValidRequiredParam (.str n) isValidFunctionArgumentName = true := by
  rcases hm with rfl | rfl | rfl
  · have h : n ∈ ["to", "amount"] := hn
    simp only [List.mem_cons, List.mem_singleton, List.not_mem_nil, or_false] at h
    rcases h with rfl | rfl <;> decide
  · have h : n ∈ ["spender", "amount"] := hn
    simp only [List.mem_cons, List.mem_singleton, List.not_mem_nil, or_false] at h
    rcases h with rfl | rfl <;> decide
  · have h : n ∈ ["from", "to", "amount"] := hn
    simp only [List.mem_cons, List.mem_singleton, List.not_mem_nil, or_false] at h
    rcases h with rfl | rfl | rfl <;> decide

theorem any_name_iff (args : List JSVal) (names : List String) (v : JSVal)
    (hargs : args.map (fun arg => arg.get "name") = names.map JSVal.str) :
    args.any (fun arg => strictEq (arg.get "name") v) = true ↔ ∃ n ∈ names, v = .str n := by
  rw [List.any_eq_true]
  constructor
  · rintro ⟨arg, harg, hs⟩
    have h1 : arg.get "name" ∈ args.map (fun arg => arg.get "name") :=
      List.mem_map.2 ⟨arg, harg, rfl⟩
    rw [hargs] at h1
    obtain ⟨n, hn, hn'⟩ := List.mem_map.1 h1
    rw [← hn'] at hs
    exact ⟨n, hn, (strictEq_str_left n v).1 hs⟩
  · rintro ⟨n, hn, rfl⟩
    have h1 : JSVal.str n ∈ names.map JSVal.str := List.mem_map.2 ⟨n, hn, rfl⟩
    rw [← hargs] at h1
    obtain ⟨arg, harg, hname⟩ := List.mem_map.1 h1
    refine ⟨arg, harg, ?_⟩
    rw [hname]
    exact (strictEq_str_left n _).2 rfl

/-! ## Default arguments of a function payload -/

theorem function_ok_inv (data : JSVal) (h : validateUriSchemaFunction data = .ok ()) :
    validateFunctionSignature (data.get "functionSignature") = .ok () ∧
      (isAmountDefined (data.get "argsDefaults") = true →
        validateArgsDefaults (data.get "argsDefaults")
          ((data.get "functionSignature").get "args") = .ok ()) := by
  unfold validateUriSchemaFunction at h
  split at h
  · cases h
  · split_ifs at h <;> split at h
    · cases h
    · rename_i u hfs
      exact ⟨hfs, fun _ => h⟩
    · cases h
    · rename_i hn _ u hfs
      exact ⟨hfs, fun hd => absurd hd hn⟩

theorem validateArgsDefaults_ok_inv (ad fargs : JSVal)
    (hd : isAmountDefined ad = true) (h : validateArgsDefaults ad fargs = .ok ()) :
    ∃ entries args, ad = .arr entries ∧ entries ≠ [] ∧ fargs = .arr args ∧
      forEach (validateArgDefault args) entries = .ok () := by
  cases ad with
  | undefined => cases hd
  | null => cases hd
  | arr entries =>
    cases entries with
    | nil => cases h
    | cons d ds =>
      cases fargs with
      | arr args => exact ⟨d :: ds, args, rfl, by simp, rfl, h⟩
      | _ => cases h
  | _ => cases h

theorem argumentName_str (v w : JSVal) (hv : isValidFunctionArgumentName v = true)
    (hs : strictEq w v = true) :
    ∃ s : String, v = .str s ∧ s.data ≠ [] ∧ ∀ c ∈ s.data, isNameChar c = true := by
  cases v with
  | str s =>
    simp only [isValidFunctionArgumentName, Bool.and_eq_true, decide_eq_true_eq,
      List.all_eq_true] at hv
    exact ⟨s, rfl, List.ne_nil_of_length_pos hv.1, hv.2⟩
  | arr xs =>
    have := strictEq_eq _ _ hs
    subst this
    simp [strictEq] at hs
  | _ => simp [isValidFunctionArgumentName] at hv

theorem get_defined_obj (e : JSVal) (k : String) (h : isAmountDefined (e.get k) = true) :
    ∃ ekvs, e = .obj ekvs := by
  cases e with
  | obj ekvs => exact ⟨ekvs, rfl⟩
  | _ => cases h

/-! ## Character classes -/

theorem isLowerChar_iff (c : Char) : isLowerChar c = true ↔ 'a' ≤ c ∧ c ≤ 'z' := by
  simp only [isLowerChar, Bool.and_eq_true, decide_eq_true_eq]
  rfl

theorem isUpperChar_iff (c : Char) : isUpperChar c = true ↔ 'A' ≤ c ∧ c ≤ 'Z' := by
  simp only [isUpperChar, Bool.and_eq_true, decide_eq_true_eq]
  rfl

theorem char_of_toNat (c : Char) (n : Nat) (h : c.toNat = n) : c = Char.ofNat n := by
  rw [← h, Char.ofNat_toNat]

theorem isDigit_range (c : Char) : isDigit c = true ↔ '0' ≤ c ∧ c ≤ '9' := by
  constructor
  · intro h
    rcases (isDigit_iff c).mp h with h | h | h | h | h | h | h | h | h | h <;> subst h <;> decide
  · rintro ⟨h1, h2⟩
    have h3 : 48 ≤ c.toNat := h1
    have h4 : c.toNat ≤ 57 := h2
    have h5 : c.toNat = 48 ∨ c.toNat = 49 ∨ c.toNat = 50 ∨ c.toNat = 51 ∨ c.toNat = 52 ∨
        c.toNat = 53 ∨ c.toNat = 54 ∨ c.toNat = 55 ∨ c.toNat = 56 ∨ c.toNat = 57 := by omega
    rcases h5 with h | h | h | h | h | h | h | h | h | h <;>
      rw [char_of_toNat c _ h] <;> decide

theorem isHexChar_range (c : Char) :
    isHexChar c = true ↔ ('0' ≤ c ∧ c ≤ '9') ∨ ('a' ≤ c ∧ c ≤ 'f') ∨ ('A' ≤ c ∧ c ≤ 'F') := by
  constructor
  · intro h
    rcases (isHexChar_iff c).mp h with h | h | h | h | h | h | h | h | h | h | h | h | h
    · exact Or.inl ((isDigit_range c).1 h)
    all_goals subst h; decide
  · rintro (h | ⟨h1, h2⟩ | ⟨h1, h2⟩)
    · exact (isHexChar_iff c).2 (Or.inl ((isDigit_range c).2 h))
    · have h3 : 97 ≤ c.toNat := h1
      have h4 : c.toNat ≤ 102 := h2
      have h5 : c.toNat = 97 ∨ c.toNat = 98 ∨ c.toNat = 99 ∨ c.toNat = 100 ∨ c.toNat = 101 ∨
          c.toNat = 102 := by omega
      rcases h5 with h | h | h | h | h | h <;> rw [char_of_toNat c _ h] <;> decide
    · have h3 : 65 ≤ c.toNat := h1
      have h4 : c.toNat ≤ 70 := h2
      have h5 : c.toNat = 65 ∨ c.toNat = 66 ∨ c.toNat = 67 ∨ c.toNat = 68 ∨ c.toNat = 69 ∨
          c.toNat = 70 := by omega
      rcases h5 with h | h | h | h | h | h <;> rw [char_of_toNat c _ h] <;> decide

theorem matchesAddress_iff (cs : List Char) :
    matchesAddress cs = true ↔
      cs.length = 42 ∧ (cs.take 2 = ['0', 'x'] ∨ cs.take 2 = ['0', 'X']) ∧
        ∀ c ∈ cs.drop 2, isHexChar c = true := by
  cases cs with
  | nil => simp [matchesAddress]
  | cons c0 rest =>
    cases rest with
    | nil => simp [matchesAddress]
    | cons c1 rest =>
      simp only [matchesAddress, Bool.and_eq_true, decide_eq_true_eq, Bool.or_eq_true,
        List.all_eq_true, List.length_cons, List.take_succ_cons, List.take_zero,
        List.drop_succ_cons, List.drop_zero, List.cons.injEq, and_true]
      constructor
      · rintro ⟨⟨⟨h0, h1⟩, hl⟩, hall⟩
        exact ⟨by omega, h1.imp (fun h => ⟨h0, h⟩) (fun h => ⟨h0, h⟩), hall⟩
      · rintro ⟨hl, h01, hall⟩
        refine ⟨⟨⟨?_, ?_⟩, by omega⟩, hall⟩
        · rcases h01 with h | h <;> exact h.1
        · exact h01.imp (fun h => h.2) (fun h => h.2)

/-! ## Function signatures -/

theorem validateFunctionArg_ok_iff (e : JSVal) :
    validateFunctionArg e = .ok () ↔
      (∃ keys, objectKeys e = .ok keys ∧ ∀ k ∈ keys, k = "name" ∨ k = "type") ∧
      isValidRequiredParam (e.get "name") isValidFunctionArgumentName = true ∧
      isValidRequiredParam (e.get "type") isValidSolidityType = true := by
  unfold validateFunctionArg validateAllowedProperties
  cases hk : objectKeys e with
  | error err => simp
  | ok keys =>
    simp only [checkAllowed_eq]
    cases h0 : firstOutside ["name", "type"] keys with
    | some k0 =>
      have := firstOutside_spec _ _ _ h0
      simp only [Except.ok.injEq, exists_eq_left']
      constructor
      · intro h
        cases h
      · intro h
        exact absurd (by simpa using h.1 k0 this.1) this.2
    | none =>
      have hall := firstOutside_none _ _ h0
      simp only [Except.ok.injEq, exists_eq_left']
      cases isValidRequiredParam (e.get "name") isValidFunctionArgumentName <;>
      cases isValidRequiredParam (e.get "type") isValidSolidityType <;>
      simp
      intro k hk0
      simpa using hall k hk0

/-! ## JSON values that are not objects -/

theorem validate_nonObject (v : JSVal) (h1 : v ≠ .null) (h2 : v ≠ .undefined)
    (h3 : ∀ kvs, v ≠ .obj kvs) :
    ∃ e, validateEthereumUri v = .error e ∧ e.isValidationError = true := by
  have hbasic : ∀ keys, objectKeys v = .ok keys → v.get "mode" = .undefined →
      v.get "to" = .undefined → v ≠ .null → v ≠ .undefined →
      ∃ e, validateEthereumUri v = .error e ∧ e.isValidationError = true := by
    intro keys hk hm hto hn hu
    have hv : validateEthereumUri v = validateUriSchemaBasic v := by
      cases v with
      | null => exact absurd rfl hn
      | undefined => exact absurd rfl hu
      | _ =>
        simp only [validateEthereumUri, hm]
        rfl
    rw [hv]
    unfold validateUriSchemaBasic validateAllowedProperties
    rw [hk]
    simp only [checkAllowed_eq, hto]
    cases firstOutside ["to", "from", "amount", "gas", "chainId"] keys with
    | some k0 => exact ⟨_, rfl, rfl⟩
    | none => exact ⟨_, rfl, rfl⟩
  cases v with
  | null => exact absurd rfl h1
  | undefined => exact absurd rfl h2
  | obj kvs => exact absurd rfl (h3 kvs)
  | bool b => exact hbasic _ rfl rfl rfl h1 h2
  | num n => exact hbasic _ rfl rfl rfl h1 h2
  | str s => exact hbasic _ rfl rfl rfl h1 h2
  | arr xs => exact hbasic _ rfl rfl rfl h1 h2
  | bigint i => exact hbasic _ rfl rfl rfl h1 h2

theorem parseValue_ne_undefined (fuel : Nat) (cs : List Char) (v : JSVal) (r : List Char)
    (h : parseValue fuel cs = some (v, r)) : v ≠ .undefined := by
  cases fuel with
  | zero => cases h
  | succ fuel =>
    cases cs with
    | nil => cases h
    | cons c rest =>
      rw [parseValue_succ] at h
      intro hv
      subst hv
      split_ifs at h <;> split at h <;> first | cases h | (split at h <;> cases h)

theorem jsonParse_ne_undefined (t : String) (v : JSVal) (h : jsonParse t = some v) :
    v ≠ .undefined := by
  unfold jsonParse at h
  split at h
  · rename_i w r hw
    split_ifs at h
    cases h
    have := parseValue_ne_undefined _ _ _ _ hw
    cases w <;> simp [buildVal] at this ⊢
  · cases h

theorem decode_nonObject_json (t : String) (v : JSVal) (hp : jsonParse t = some v)
    (h1 : v ≠ .null) (h3 : ∀ kvs, v ≠ .obj kvs) :
    ∃ e, decodeEthereumUri t = .error e ∧ e.isValidationError = true := by
  obtain ⟨e, he, hval⟩ := validate_nonObject v h1 (jsonParse_ne_undefined t v hp) h3
  refine ⟨e, ?_, hval⟩
  unfold decodeEthereumUri
  simp only [hp, he]

/-! ## The segment `decodeEthSend` drops -/

theorem splitAt_head (sep : Char → Bool) (cs : List Char) :
    (splitAt sep cs).headD [] = cs.takeWhile (fun c => !sep c) := by
  induction cs with
  | nil => rfl
  | cons c cs ih =>
    unfold splitAt
    by_cases hc : sep c = true
    · simp [hc, List.takeWhile]
    · have hc' : sep c = false := by simpa using hc
      rw [if_neg hc]
      cases hs : splitAt sep cs with
      | nil => exact absurd hs (splitAt_ne_nil sep cs)
      | cons piece pieces =>
        rw [hs] at ih
        simp only [List.headD_cons] at ih
        simp [List.takeWhile, hc', ih]

theorem lookup_applySegment_to (r : List (String × JSVal)) (seg : List Char) :
    lookup "to" (applySegment r seg) = lookup "to" r := by
  unfold applySegment
  simp only
  split_ifs with h
  · apply lookup_setProp_ne
    intro h1
    rw [h1] at h
    revert h
    decide
  · rfl

theorem lookup_foldl_applySegment_to (segs : List (List Char)) (r : List (String × JSVal)) :
    lookup "to" (segs.foldl applySegment r) = lookup "to" r := by
  induction segs generalizing r with
  | nil => rfl
  | cons s rest ih => rw [List.foldl_cons, ih, lookup_applySegment_to]

theorem decode_legacy_inv (t : String) (d : JSVal) (hlen : 51 < t.data.length)
    (hj : jsonParse t = none) (hd : decodeEthereumUri t = .ok d) :
    t.data.take 9 = "ethereum:".data ∧
      isValidAddress (.str (String.mk ((t.data.drop 9).take 42))) = true ∧
      d = .obj ((splitAt (fun c => decide (c = '?' ∨ c = '&')) (t.data.drop 51)).tail.foldl
        applySegment [("to", .str (String.mk ((t.data.drop 9).take 42)))]) := by
  unfold decodeEthereumUri at hd
  simp only [hj] at hd
  split at hd
  · cases hd
  · rename_i u hv
    cases hd
    obtain ⟨hto, _, _⟩ := validate_ok_inv _ hv
    unfold decodeEthSend at hv hto ⊢
    simp only at hv hto ⊢
    by_cases hpre : t.data = [] ∨ List.take 9 t.data ≠ "ethereum:".data
    · rw [if_pos hpre] at hto
      cases hto
    · rw [if_neg hpre] at hto ⊢
      rw [if_pos hlen] at hto ⊢
      have h9 : List.take 9 t.data = "ethereum:".data := by
        by_contra h
        exact hpre (Or.inr h)
      by_cases ha : 51 ≤ t.data.length ∧
          isValidAddress (.str (String.mk ((t.data.drop 9).take 42))) = true
      · rw [if_pos ha]
        exact ⟨h9, ha.2, rfl⟩
      · rw [if_neg ha] at hto
        simp only [JSVal.get, lookup_foldl_applySegment_to] at hto
        cases hto

/-! ## The round trip of the optional fields -/

theorem parseInt_natToDec (n : Nat) :
    parseInt (.str (String.mk (natToDec n))) = .int (Int.ofNat n) := by
  obtain ⟨d, t, hdt, hd⟩ := natToDec_head_digit n
  have hsp : isStrWhiteSpace d = false := isDigit_not_space d hd
  have hm : d ≠ '-' := by rintro rfl; exact absurd hd (by decide)
  have hp : d ≠ '+' := by rintro rfl; exact absurd hd (by decide)
  have hdrop : List.dropWhile isStrWhiteSpace (d :: t) = d :: t := by
    simp [List.dropWhile, hsp]
  have hsigned : parseIntSigned (d :: t) = parseIntDigits false (d :: t) := by
    unfold parseIntSigned
    split
    · rename_i h; injection h with h1 _; exact absurd h1 hm
    · rename_i h; injection h with h1 _; exact absurd h1 hp
    · rfl
  show parseIntSigned (List.dropWhile isStrWhiteSpace (natToDec n)) = _
  rw [hdt, hdrop, hsigned, ← hdt]
  have hspan := spanDigits_all (natToDec n) (natToDec_all_digits n)
  unfold parseIntDigits
  rw [hspan]
  simp only [natToDec_ne_nil, if_false, digitsToNat_natToDec]
  rfl

theorem int_roundTrip (g : Nat) (h0 : 0 < g) (h1 : g < 10 ^ 21) :
    truthy (.num (.int (Int.ofNat g))) = true ∧
      JSVal.num (parseInt (.str (toStr (.num (.int (Int.ofNat g)))))) =
        .num (.int (Int.ofNat g)) := by
  constructor
  · simp only [truthy, bne_iff_ne, ne_eq]
    intro h
    have : g = 0 := Int.ofNat_eq_zero.1 h
    omega
  · have htext : toStr (.num (.int (Int.ofNat g))) = String.mk (natToDec g) := by
      show String.mk (natToJSString g) = _
      rw [natToJSString, if_pos h1]
    rw [htext, parseInt_natToDec]

theorem int_part (k : String) (G : JSVal) (c : Bool) (hG : isValidGasAmount G = true)
    (hc : c = true)
    (hb : ∀ g : Nat, G = .num (.int (Int.ofNat g)) → 0 < g ∧ g < 10 ^ 21) :
    (if truthy (if c = true then G else .null) = true then
        [(k, JSVal.num (parseInt (.str (toStr G))))] else []) = [(k, G)] := by
  obtain ⟨g, rfl⟩ := (isValidGasAmount_iff G).1 hG
  obtain ⟨h0, h1⟩ := hb g rfl
  obtain ⟨ht, hp⟩ := int_roundTrip g h0 h1
  subst hc
  rw [if_pos rfl, if_pos ht, hp]

theorem decodedSend_plain (kvs : List (String × JSVal))
    (hmode : isAmountDefined ((JSVal.obj kvs).get "mode") = false)
    (hv : validateEthereumUri (.obj kvs) = .ok ())
    (hgas : ∀ g : Nat, (JSVal.obj kvs).get "gas" = .num (.int (Int.ofNat g)) →
      0 < g ∧ g < 10 ^ 21)
    (hchain : ∀ c : Nat, (JSVal.obj kvs).get "chainId" = .num (.int (Int.ofNat c)) →
      c < 10 ^ 21) :
    decodedSend (.obj kvs) =
      [("to", JSVal.str (toStr ((JSVal.obj kvs).get "to")))] ++
        (if isAmountDefined ((JSVal.obj kvs).get "from") = true
          then [("from", JSVal.str (toStr ((JSVal.obj kvs).get "from")))] else []) ++
        (if isAmountDefined ((JSVal.obj kvs).get "amount") = true
          then [("amount",
            JSVal.str (String.mk (BigNumber.ofVal ((JSVal.obj kvs).get "amount")).toString10))]
          else []) ++
        (if isAmountDefined ((JSVal.obj kvs).get "gas") = true
          then [("gas", (JSVal.obj kvs).get "gas")] else []) ++
        (if isAmountDefined ((JSVal.obj kvs).get "chainId") = true
          then [("chainId", (JSVal.obj kvs).get "chainId")] else []) := by
  obtain ⟨_, vF, _, vG, vC⟩ := validate_basic_fields kvs hmode hv
  have hnull : truthy .null = false := rfl
  have h1 : (if truthy (if isAmountDefined ((JSVal.obj kvs).get "from") = true
        then (JSVal.obj kvs).get "from" else .null) = true
      then [("from", JSVal.str (toStr ((JSVal.obj kvs).get "from")))] else []) =
      (if isAmountDefined ((JSVal.obj kvs).get "from") = true
        then [("from", JSVal.str (toStr ((JSVal.obj kvs).get "from")))] else []) := by
    cases hd : isAmountDefined ((JSVal.obj kvs).get "from") with
    | false => simp [hnull]
    | true =>
      rw [if_pos rfl, if_pos (truthy_of_address _ (optional_valid _ _ vF hd)), if_pos rfl]
  have h2 : (if truthy (if isAmountDefined ((JSVal.obj kvs).get "gas") = true
        then (JSVal.obj kvs).get "gas" else .null) = true
      then [("gas", JSVal.num (parseInt (.str (toStr ((JSVal.obj kvs).get "gas")))))] else []) =
      (if isAmountDefined ((JSVal.obj kvs).get "gas") = true
        then [("gas", (JSVal.obj kvs).get "gas")] else []) := by
    cases hd : isAmountDefined ((JSVal.obj kvs).get "gas") with
    | false => simp [hnull]
    | true =>
      rw [int_part "gas" _ true (optional_valid _ _ vG hd) rfl hgas, if_pos rfl]
  have h3 : (if truthy (if (isAmountDefined ((JSVal.obj kvs).get "chainId") &&
          isValidChainId ((JSVal.obj kvs).get "chainId")) = true
        then (JSVal.obj kvs).get "chainId" else .null) = true
      then [("chainId", JSVal.num (parseInt (.str (toStr ((JSVal.obj kvs).get "chainId")))))]
      else []) =
      (if isAmountDefined ((JSVal.obj kvs).get "chainId") = true
        then [("chainId", (JSVal.obj kvs).get "chainId")] else []) := by
    cases hd : isAmountDefined ((JSVal.obj kvs).get "chainId") with
    | false => simp [hnull]
    | true =>
      have hC := optional_valid _ _ vC hd
      have hb : ∀ c : Nat, (JSVal.obj kvs).get "chainId" = .num (.int (Int.ofNat c)) →
          0 < c ∧ c < 10 ^ 21 := by
        intro c hc
        refine ⟨?_, hchain c hc⟩
        obtain ⟨n, hn, hn'⟩ := (isValidChainId_iff _).1 hC
        rw [hn'] at hc
        injection hc with hc
        injection hc with hc
        have : n = c := Int.ofNat.inj hc
        omega
      rw [int_part "chainId" _ (true && isValidChainId ((JSVal.obj kvs).get "chainId"))
        (isValidGasAmount_of_chainId _ hC) (by rw [hC]; rfl) hb, if_pos rfl]
  rw [decodedSend, h1, h2, h3]

theorem shape_get (a : String) (dF dA dG dC : Bool) (vF vA vG vC : JSVal) :
    (JSVal.obj ([("to", JSVal.str a)] ++ (if dF = true then [("from", vF)] else []) ++
        (if dA = true then [("amount", vA)] else []) ++
        (if dG = true then [("gas", vG)] else []) ++
        (if dC = true then [("chainId", vC)] else []))).get "mode" = .undefined ∧
    (JSVal.obj ([("to", JSVal.str a)] ++ (if dF = true then [("from", vF)] else []) ++
        (if dA = true then [("amount", vA)] else []) ++
        (if dG = true then [("gas", vG)] else []) ++
        (if dC = true then [("chainId", vC)] else []))).get "to" = .str a ∧
    (JSVal.obj ([("to", JSVal.str a)] ++ (if dF = true then [("from", vF)] else []) ++
        (if dA = true then [("amount", vA)] else []) ++
        (if dG = true then [("gas", vG)] else []) ++
        (if dC = true then [("chainId", vC)] else []))).get "from" =
      (if dF = true then vF else .undefined) ∧
    (JSVal.obj ([("to", JSVal.str a)] ++ (if dF = true then [("from", vF)] else []) ++
        (if dA = true then [("amount", vA)] else []) ++
        (if dG = true then [("gas", vG)] else []) ++
        (if dC = true then [("chainId", vC)] else []))).get "amount" =
      (if dA = true then vA else .undefined) ∧
    (JSVal.obj ([("to", JSVal.str a)] ++ (if dF = true then [("from", vF)] else []) ++
        (if dA = true then [("amount", vA)] else []) ++
        (if dG = true then [("gas", vG)] else []) ++
        (if dC = true then [("chainId", vC)] else []))).get "gas" =
      (if dG = true then vG else .undefined) ∧
    (JSVal.obj ([("to", JSVal.str a)] ++ (if dF = true then [("from", vF)] else []) ++
        (if dA = true then [("amount", vA)] else []) ++
        (if dG = true then [("gas", vG)] else []) ++
        (if dC = true then [("chainId", vC)] else []))).get "chainId" =
      (if dC = true then vC else .undefined) ∧
    ([("to", JSVal.str a)] ++ (if dF = true then [("from", vF)] else []) ++
        (if dA = true then [("amount", vA)] else []) ++
        (if dG = true then [("gas", vG)] else []) ++
        (if dC = true then [("chainId", vC)] else [])).map Prod.fst =
      ["to"] ++ (if dF = true then ["from"] else []) ++ (if dA = true then ["amount"] else []) ++
        (if dG = true then ["gas"] else []) ++ (if dC = true then ["chainId"] else []) := by
  cases dF <;> cases dA <;> cases dG <;> cases dC <;>
    exact ⟨rfl, rfl, rfl, rfl, rfl, rfl, rfl⟩

theorem encodeEthSend_congr (P Q : JSVal)
    (hto : toStr (P.get "to") = toStr (Q.get "to"))
    (hF : encodeParam "from" (if isAmountDefined (P.get "from") then P.get "from" else .null) =
      encodeParam "from" (if isAmountDefined (Q.get "from") then Q.get "from" else .null))
    (hA : encodeParam "amount" (if isAmountDefined (P.get "amount") then
        .str (String.mk (BigNumber.ofVal (P.get "amount")).toString10) else .null) =
      encodeParam "amount" (if isAmountDefined (Q.get "amount") then
        .str (String.mk (BigNumber.ofVal (Q.get "amount")).toString10) else .null))
    (hG : encodeParam "gas" (if isAmountDefined (P.get "gas") then P.get "gas" else .null) =
      encodeParam "gas" (if isAmountDefined (Q.get "gas") then Q.get "gas" else .null))
    (hC : encodeParam "chainId"
        (if isAmountDefined (P.get "chainId") && isValidChainId (P.get "chainId") then
          P.get "chainId" else .null) =
      encodeParam "chainId"
        (if isAmountDefined (Q.get "chainId") && isValidChainId (Q.get "chainId") then
          Q.get "chainId" else .null)) :
    encodeEthSend P = encodeEthSend Q := by
  rw [encodeEthSend_eq, encodeEthSend_eq]
  simp only [sendParams, List.map_cons, List.map_nil]
  rw [hto, hF, hA, hG, hC]

theorem encodeParam_text (k : String) (v : JSVal) (ht : truthy v = true)
    (hne : toChars v ≠ []) :
    encodeParam k (.str (toStr v)) = encodeParam k v := by
  have h1 : truthy (.str (toStr v)) = true := by
    simp only [truthy, toStr, bne_iff_ne, ne_eq]
    exact hne
  rw [encodeParam, encodeParam, if_pos h1, if_pos ht]
  rfl

theorem amount_text_again (A : JSVal) (hA : isValidEthAmount A = true) :
    (BigNumber.ofVal (.str (String.mk (BigNumber.ofVal A).toString10))).toString10 =
      (BigNumber.ofVal A).toString10 := by
  obtain ⟨n, hn⟩ := (isValidEthAmount_iff A).1 hA
  rw [toString10_of_toInt _ n hn]
  show (BigNumber.ofChars (natToDec n)).toString10 = _
  rw [ofChars_natToDec, toString10_natural]

theorem reencode_plain (kvs : List (String × JSVal))
    (hmode : isAmountDefined ((JSVal.obj kvs).get "mode") = false)
    (hv : validateEthereumUri (.obj kvs) = .ok ()) :
    encodeEthSend (.obj ([("to", JSVal.str (toStr ((JSVal.obj kvs).get "to")))] ++
        (if isAmountDefined ((JSVal.obj kvs).get "from") = true
          then [("from", JSVal.str (toStr ((JSVal.obj kvs).get "from")))] else []) ++
        (if isAmountDefined ((JSVal.obj kvs).get "amount") = true
          then [("amount",
            JSVal.str (String.mk (BigNumber.ofVal ((JSVal.obj kvs).get "amount")).toString10))]
          else []) ++
        (if isAmountDefined ((JSVal.obj kvs).get "gas") = true
          then [("gas", (JSVal.obj kvs).get "gas")] else []) ++
        (if isAmountDefined ((JSVal.obj kvs).get "chainId") = true
          then [("chainId", (JSVal.obj kvs).get "chainId")] else []))) =
      encodeEthSend (.obj kvs) := by
  obtain ⟨_, vF, vA, _, _⟩ := validate_basic_fields kvs hmode hv
  obtain ⟨_, gt, gF, gA, gG, gC, _⟩ := shape_get (toStr ((JSVal.obj kvs).get "to"))
    (isAmountDefined ((JSVal.obj kvs).get "from")) (isAmountDefined ((JSVal.obj kvs).get "amount"))
    (isAmountDefined ((JSVal.obj kvs).get "gas")) (isAmountDefined ((JSVal.obj kvs).get "chainId"))
    (JSVal.str (toStr ((JSVal.obj kvs).get "from")))
    (JSVal.str (String.mk (BigNumber.ofVal ((JSVal.obj kvs).get "amount")).toString10))
    ((JSVal.obj kvs).get "gas") ((JSVal.obj kvs).get "chainId")
  apply encodeEthSend_congr
  · rw [gt]; rfl
  · rw [gF]
    cases hd : isAmountDefined ((JSVal.obj kvs).get "from") with
    | false => rfl
    | true =>
      have hvalid := optional_valid _ _ vF hd
      have hne : toChars ((JSVal.obj kvs).get "from") ≠ [] := by
        intro h
        have := matchesAddress_length _ hvalid
        rw [h] at this
        cases this
      rw [if_pos rfl, if_pos rfl]
      exact encodeParam_text _ _ (truthy_of_address _ hvalid) hne
  · rw [gA]
    cases hd : isAmountDefined ((JSVal.obj kvs).get "amount") with
    | false => rfl
    | true =>
      rw [if_pos rfl, if_pos rfl, amount_text_again _ (optional_valid _ _ vA hd)]
      rfl
  · rw [gG]
    cases hd : isAmountDefined ((JSVal.obj kvs).get "gas") with
    | false => rfl
    | true => rw [if_pos rfl, hd]
  · rw [gC]
    cases hd : isAmountDefined ((JSVal.obj kvs).get "chainId") with
    | false => rfl
    | true => rw [if_pos rfl, hd]

/-! ## Amounts within the scope of the library embedding -/

theorem tooManyDigits_of_lt (n : Nat) (h : n < 2 ^ 53) : tooManyDigits n = false := by
  unfold tooManyDigits
  have hd : decide (2 ^ 53 ≤ n) = false := decide_eq_false (Nat.not_le.2 h)
  rw [hd]
  rfl

theorem tooManyDigits_top : tooManyDigits (2 ^ 53) = true := by decide

theorem ofVal_toInt_iff (v : JSVal) (hs : amountInScope v = true) :
    (∃ n : Nat, (BigNumber.ofVal v).toInt? = some (Int.ofNat n)) ↔
      ((∃ n : Nat, n < 2 ^ 53 ∧ v = .num (.int (Int.ofNat n))) ∨
        ((∀ x, v ≠ .num x) ∧
          ∃ n : Nat, (BigNumber.ofChars (toChars v)).toInt? = some (Int.ofNat n))) := by
  cases v with
  | num x =>
    cases x with
    | int i =>
      cases i with
      | ofNat n =>
        have hle : n ≤ 2 ^ 53 := by simpa [amountInScope] using hs
        rcases Nat.lt_or_ge n (2 ^ 53) with hlt | hge
        · constructor
          · intro _
            exact Or.inl ⟨n, hlt, rfl⟩
          · intro _
            refine ⟨n, ?_⟩
            simp [BigNumber.ofVal, tooManyDigits_of_lt n hlt, BigNumber.toInt?]
        · have hn : n = 2 ^ 53 := Nat.le_antisymm hle hge
          have ht : tooManyDigits n = true := by rw [hn]; exact tooManyDigits_top
          have hv : BigNumber.ofVal (.num (.int (Int.ofNat n))) = .nan := by
            show (if tooManyDigits n = true then BigNumber.nan else BigNumber.fin false n 0) = _
            rw [if_pos ht]
          constructor
          · rintro ⟨k, hk⟩
            rw [hv] at hk
            cases hk
          · rintro (⟨k, hk, he⟩ | ⟨hx, _⟩)
            · injection he with he
              injection he with he
              have he' : n = k := Int.ofNat.inj he
              omega
            · exact absurd rfl (hx _)
      | negSucc n =>
        constructor
        · rintro ⟨k, hk⟩
          exfalso
          by_cases ht : tooManyDigits (n + 1) = true
          · simp [BigNumber.ofVal, ht, BigNumber.toInt?] at hk
          · simp [BigNumber.ofVal, ht, BigNumber.toInt?] at hk
            omega
        · rintro (⟨k, _, he⟩ | ⟨hx, _⟩)
          · injection he with he
            injection he with he
            cases he
          · exact absurd rfl (hx _)
    | frac neg m k =>
      have hc : 0 < k ∧ m % 10 ≠ 0 := by simpa [amountInScope] using hs
      constructor
      · rintro ⟨j, hj⟩
        exfalso
        obtain ⟨k', rfl⟩ : ∃ k', k = k' + 1 := ⟨k - 1, by omega⟩
        have hneg : - Int.ofNat (k' + 1) = Int.negSucc k' := rfl
        have hm : ¬ (m % 10 ^ (k' + 1) = 0) := by
          intro h0
          apply hc.2
          have hd : 10 ∣ m := Dvd.dvd.trans (dvd_pow_self 10 (Nat.succ_ne_zero k'))
            (Nat.dvd_of_mod_eq_zero h0)
          exact Nat.mod_eq_zero_of_dvd hd
        simp only [BigNumber.ofVal, hneg, BigNumber.toInt?, if_neg hm] at hj
        cases hj
      · rintro (⟨j, _, he⟩ | ⟨hx, _⟩)
        · injection he with he
          cases he
        · exact absurd rfl (hx _)
    | nan =>
      constructor
      · rintro ⟨j, hj⟩
        simp [BigNumber.ofVal, BigNumber.toInt?] at hj
      · rintro (⟨j, _, he⟩ | ⟨hx, _⟩)
        · injection he with he
          cases he
        · exact absurd rfl (hx _)
  | undefined => simp [BigNumber.ofVal]
  | null => simp [BigNumber.ofVal]
  | bool b => simp [BigNumber.ofVal]
  | str s => simp [BigNumber.ofVal]
  | arr xs => simp [BigNumber.ofVal]
  | obj kvs => simp [BigNumber.ofVal]
  | bigint i => simp [BigNumber.ofVal]

/-! ## Claims -/

/-- C1: for every payload without a mode that passes `validateEthereumUri` and whose
`amount` denotes a non-negative integer `n` of any magnitude, `encodeEthereumUri`
returns a text and `decodeEthereumUri` of that text returns an object whose `to` is the
text of the payload's `to` (the payload's `to` itself when that is a string) and whose
`amount` is the string of the plain decimal digits of `n`. -/
theorem roundTrip_basic (kvs : List (String × JSVal)) (n : Nat)
    (hmode : isAmountDefined ((JSVal.obj kvs).get "mode") = false)
    (hv : validateEthereumUri (.obj kvs) = .ok ())
    (hn : (BigNumber.ofVal ((JSVal.obj kvs).get "amount")).toInt? = some (Int.ofNat n)) :
    ∃ s d, encodeEthereumUri (.obj kvs) = .ok s ∧ decodeEthereumUri s = .ok d ∧
      d.get "to" = .str (toStr ((JSVal.obj kvs).get "to")) ∧
      (∀ a, (JSVal.obj kvs).get "to" = .str a → d.get "to" = (JSVal.obj kvs).get "to") ∧
      d.get "amount" = .str (String.mk (natToDec n)) := by
  obtain ⟨h1, h2, h3⟩ := decode_of_encodeEthSend kvs hmode hv
  have hdef : isAmountDefined ((JSVal.obj kvs).get "amount") = true := by
    cases hA : (JSVal.obj kvs).get "amount" with
    | undefined =>
      rw [hA] at hn
      have : (BigNumber.ofVal .undefined).toInt? = none := by decide
      rw [this] at hn
      cases hn
    | null =>
      rw [hA] at hn
      have : (BigNumber.ofVal .null).toInt? = none := by decide
      rw [this] at hn
      cases hn
    | _ => rfl
  have hs := toString10_of_toInt _ n hn
  have hto : (JSVal.obj (decodedSend (.obj kvs))).get "to" =
      .str (toStr ((JSVal.obj kvs).get "to")) := rfl
  refine ⟨encodeEthSend (.obj kvs), .obj (decodedSend (.obj kvs)), ?_, ?_, hto, ?_, ?_⟩
  · simp [encodeEthereumUri, hv, hmode]
  · simp [decodeEthereumUri, h1, h2, h3]
  · intro a ha
    rw [hto, ha]
    rfl
  · simp only [decodedSend, hdef, if_true, hs]
    by_cases ht : truthy (if isAmountDefined ((JSVal.obj kvs).get "from") = true
        then (JSVal.obj kvs).get "from" else .null) = true
    · rw [if_pos ht]; rfl
    · rw [if_neg ht]; rfl

/-- C1, at the amount `123456789012345678901234567890`. -/
theorem roundTrip_basic_witness :
    ∃ s d,
      encodeEthereumUri (.obj [("to", .str "0xaaaaaaaaaaaaaaaaaaaaaaaaaaaaaaaaaaaaaaaa"),
        ("amount", .str "123456789012345678901234567890")]) = .ok s ∧
      decodeEthereumUri s = .ok d ∧
      d.get "to" = .str "0xaaaaaaaaaaaaaaaaaaaaaaaaaaaaaaaaaaaaaaaa" ∧
      d.get "amount" = .str "123456789012345678901234567890" := by
  obtain ⟨s, d, h1, h2, h3, _, h5⟩ := roundTrip_basic
    [("to", .str "0xaaaaaaaaaaaaaaaaaaaaaaaaaaaaaaaaaaaaaaaa"),
      ("amount", .str "123456789012345678901234567890")]
    123456789012345678901234567890 (by decide) (by decide) (by decide)
  exact ⟨s, d, h1, h2, h3, by rw [h5]; decide⟩

/-- C2 as stated fails: the `erc20__transfer` payload whose default amount is `NaN` passes
validation, but its JSON text carries `null` for that amount and `decodeEthereumUri`
rejects it; and the `erc20__transfer` payload with `from: undefined` passes validation,
but the decoded object has no `from` property, so it differs from the payload. -/
theorem roundTrip_explicit_counterexample :
    (validateEthereumUri (.obj [("to", .str "0xaaaaaaaaaaaaaaaaaaaaaaaaaaaaaaaaaaaaaaaa"),
        ("mode", .str "erc20__transfer"),
        ("argsDefaults", .arr [.obj [("name", .str "to"), ("amount", .num .nan)]])]) = .ok () ∧
      encodeEthereumUri (.obj [("to", .str "0xaaaaaaaaaaaaaaaaaaaaaaaaaaaaaaaaaaaaaaaa"),
        ("mode", .str "erc20__transfer"),
        ("argsDefaults", .arr [.obj [("name", .str "to"), ("amount", .num .nan)]])]) =
        .ok ("\x7b\"to\":\"0xaaaaaaaaaaaaaaaaaaaaaaaaaaaaaaaaaaaaaaaa\"," ++
          "\"mode\":\"erc20__transfer\"," ++
          "\"argsDefaults\":[\x7b\"name\":\"to\",\"amount\":null\x7d]\x7d") ∧
      decodeEthereumUri ("\x7b\"to\":\"0xaaaaaaaaaaaaaaaaaaaaaaaaaaaaaaaaaaaaaaaa\"," ++
          "\"mode\":\"erc20__transfer\"," ++
          "\"argsDefaults\":[\x7b\"name\":\"to\",\"amount\":null\x7d]\x7d") =
        .error (.defaultAmountMissing .null)) ∧
    (validateEthereumUri (.obj [("to", .str "0xaaaaaaaaaaaaaaaaaaaaaaaaaaaaaaaaaaaaaaaa"),
        ("from", .undefined), ("mode", .str "erc20__transfer")]) = .ok () ∧
      encodeEthereumUri (.obj [("to", .str "0xaaaaaaaaaaaaaaaaaaaaaaaaaaaaaaaaaaaaaaaa"),
        ("from", .undefined), ("mode", .str "erc20__transfer")]) =
        .ok ("\x7b\"to\":\"0xaaaaaaaaaaaaaaaaaaaaaaaaaaaaaaaaaaaaaaaa\"," ++
          "\"mode\":\"erc20__transfer\"\x7d") ∧
      decodeEthereumUri ("\x7b\"to\":\"0xaaaaaaaaaaaaaaaaaaaaaaaaaaaaaaaaaaaaaaaa\"," ++
          "\"mode\":\"erc20__transfer\"\x7d") =
        .ok (.obj [("to", .str "0xaaaaaaaaaaaaaaaaaaaaaaaaaaaaaaaaaaaaaaaa"),
          ("mode", .str "erc20__transfer")]) ∧
      JSVal.obj [("to", .str "0xaaaaaaaaaaaaaaaaaaaaaaaaaaaaaaaaaaaaaaaa"),
          ("mode", .str "erc20__transfer")] ≠
        .obj [("to", .str "0xaaaaaaaaaaaaaaaaaaaaaaaaaaaaaaaaaaaaaaaa"),
          ("from", .undefined), ("mode", .str "erc20__transfer")]) := by
  refine ⟨⟨?_, ?_, ?_⟩, ⟨?_, ?_, ?_, ?_⟩⟩
  · decide
  · rfl
  · rfl
  · decide
  · rfl
  · rfl
  · decide

/-- C2, amended: for every payload with a defined mode that passes `validateEthereumUri`
(its mode is then one of the four modes) and is plain JSON data (`null`, booleans,
finite numbers, strings, arrays and objects with distinct keys; no `undefined`, no
`NaN`), `encodeEthereumUri` returns the JSON text of the payload and
`decodeEthereumUri` of that text returns the payload itself. -/
theorem roundTrip_explicit (kvs : List (String × JSVal))
    (hmode : isAmountDefined ((JSVal.obj kvs).get "mode") = true)
    (hv : validateEthereumUri (.obj kvs) = .ok ())
    (hplain : isPlain (.obj kvs) = true) :
    encodeEthereumUri (.obj kvs) = .ok (jsonStringify (.obj kvs)) ∧
      decodeEthereumUri (jsonStringify (.obj kvs)) = .ok (.obj kvs) := by
  constructor
  · simp [encodeEthereumUri, hv, hmode, isPlain_no_bigint _ hplain]
  · simp [decodeEthereumUri, jsonParse_jsonStringify _ hplain, hv]

/-- C2, amended, at an `erc20__transfer` payload with two defaults and a gas limit. -/
theorem roundTrip_explicit_witness :
    decodeEthereumUri (jsonStringify (.obj
      [("to", .str "0xaaaaaaaaaaaaaaaaaaaaaaaaaaaaaaaaaaaaaaaa"),
        ("mode", .str "erc20__transfer"), ("gas", .num (.int 21000)),
        ("argsDefaults", .arr [.obj [("name", .str "to"), ("amount", .str "0xbb")],
          .obj [("name", .str "amount"), ("amount", .num (.int 1000))]])])) =
      .ok (.obj
        [("to", .str "0xaaaaaaaaaaaaaaaaaaaaaaaaaaaaaaaaaaaaaaaa"),
          ("mode", .str "erc20__transfer"), ("gas", .num (.int 21000)),
          ("argsDefaults", .arr [.obj [("name", .str "to"), ("amount", .str "0xbb")],
            .obj [("name", .str "amount"), ("amount", .num (.int 1000))]])]) :=
  (roundTrip_explicit
    [("to", .str "0xaaaaaaaaaaaaaaaaaaaaaaaaaaaaaaaaaaaaaaaa"),
      ("mode", .str "erc20__transfer"), ("gas", .num (.int 21000)),
      ("argsDefaults", .arr [.obj [("name", .str "to"), ("amount", .str "0xbb")],
        .obj [("name", .str "amount"), ("amount", .num (.int 1000))]])]
    (by decide) (by decide) (by decide)).2

/-- C3: for every payload whose mode selects a schema, a key of the payload outside the
allow-list of that schema makes `validateEthereumUri`, and with it `encodeEthereumUri`,
fail with the error of the first such key in key order, whatever the other fields are;
the message of the error contains the name of that key. -/
theorem allowList_enforced (data : JSVal) (keys allowed : List String) (k : String)
    (hkeys : objectKeys data = .ok keys) (hs : schemaAllowed data = some allowed)
    (hk : k ∈ keys) (hn : k ∉ allowed) :
    ∃ k0, firstOutside allowed keys = some k0 ∧ k0 ∈ keys ∧ k0 ∉ allowed ∧
      validateEthereumUri data = .error (.notAllowed k0 allowed) ∧
      encodeEthereumUri data = .error (.notAllowed k0 allowed) ∧
      ∃ pre post, (Err.notAllowed k0 allowed).message = pre ++ k0 ++ post := by
  obtain ⟨k0, h0⟩ := firstOutside_some_of_mem allowed keys k hk hn
  have hv := validate_notAllowed data keys allowed k0 hkeys hs h0
  refine ⟨k0, h0, (firstOutside_spec allowed keys k0 h0).1,
    (firstOutside_spec allowed keys k0 h0).2, hv, ?_, ?_⟩
  · simp [encodeEthereumUri, hv]
  · exact ⟨"Not allowed property found: ", "! Allowed properties: " ++ ",".intercalate allowed,
      by simp [Err.message, String.append_assoc]⟩

/-- C3, at the payload `{to: <valid address>, extra: 1}`: the error names `extra`. -/
theorem allowList_enforced_witness :
    ∃ k0, firstOutside ["to", "from", "amount", "gas", "chainId"] ["to", "extra"] = some k0 ∧
      k0 ∈ ["to", "extra"] ∧ k0 ∉ ["to", "from", "amount", "gas", "chainId"] ∧
      validateEthereumUri (.obj [("to", .str "0xaaaaaaaaaaaaaaaaaaaaaaaaaaaaaaaaaaaaaaaa"),
          ("extra", .num (.int 1))]) =
        .error (.notAllowed k0 ["to", "from", "amount", "gas", "chainId"]) ∧
      encodeEthereumUri (.obj [("to", .str "0xaaaaaaaaaaaaaaaaaaaaaaaaaaaaaaaaaaaaaaaa"),
          ("extra", .num (.int 1))]) =
        .error (.notAllowed k0 ["to", "from", "amount", "gas", "chainId"]) ∧
      ∃ pre post,
        (Err.notAllowed k0 ["to", "from", "amount", "gas", "chainId"]).message =
          pre ++ k0 ++ post :=
  allowList_enforced
    (.obj [("to", .str "0xaaaaaaaaaaaaaaaaaaaaaaaaaaaaaaaaaaaaaaaa"), ("extra", .num (.int 1))])
    ["to", "extra"] ["to", "from", "amount", "gas", "chainId"] "extra" rfl rfl
    (by decide) (by decide)

/-- C4 as stated fails: the payload `{to: <valid address>, mode: "erc20__transfer",
amount: 1}`, whose amount is a valid amount, is rejected, and the error says that
`amount` is a property that is not allowed. -/
theorem erc20_amount_counterexample :
    isValidEthAmount (.num (.int 1)) = true ∧
    validateEthereumUri (.obj [("to", .str "0xaaaaaaaaaaaaaaaaaaaaaaaaaaaaaaaaaaaaaaaa"),
      ("mode", .str "erc20__transfer"), ("amount", .num (.int 1))]) =
        .error (.notAllowed "amount" ["to", "from", "gas", "mode", "chainId", "argsDefaults"]) := by
  decide

/-- C4, amended: under each of the modes `erc20__transfer`, `erc20__approve` and
`erc20__transferFrom` the allow-list is `to`, `from`, `gas`, `mode`, `chainId`,
`argsDefaults`: a payload made of a valid `to` and that mode passes
`validateEthereumUri`, and the same payload with an `amount` is rejected, whatever the
amount is, with the error of `amount` as a property that is not allowed. -/
theorem erc20_amount_notAllowed (a : String) (amount : JSVal) (m : String)
    (ha : matchesAddress a.data = true)
    (hm : m ∈ [uriModes.erc20Transfer, uriModes.erc20Approve, uriModes.erc20TransferFrom]) :
    validateEthereumUri (.obj [("to", .str a), ("mode", .str m)]) = .ok () ∧
    validateEthereumUri (.obj [("to", .str a), ("mode", .str m), ("amount", amount)]) =
      .error (.notAllowed "amount" ["to", "from", "gas", "mode", "chainId", "argsDefaults"]) := by
  have hv : isValidAddress (.str a) = true := ha
  simp only [List.mem_cons, List.mem_singleton, List.not_mem_nil, or_false] at hm
  constructor
  · rcases hm with rfl | rfl | rfl
    · have h1 : validateEthereumUri (.obj [("to", .str a), ("mode", .str uriModes.erc20Transfer)]) =
          validateUriSchemaERC20Transfer
            (.obj [("to", .str a), ("mode", .str uriModes.erc20Transfer)]) := rfl
      rw [h1]
      simp [validateUriSchemaERC20Transfer, validateAllowedProperties, objectKeys, checkAllowed,
        JSVal.get, lookup, isValidRequiredParam, isValidOptionalParam, isAmountDefined, hv,
        strictEq, uriModes.erc20Transfer]
    · have h1 : validateEthereumUri (.obj [("to", .str a), ("mode", .str uriModes.erc20Approve)]) =
          validateUriSchemaERC20Approve
            (.obj [("to", .str a), ("mode", .str uriModes.erc20Approve)]) := rfl
      rw [h1]
      simp [validateUriSchemaERC20Approve, validateAllowedProperties, objectKeys, checkAllowed,
        JSVal.get, lookup, isValidRequiredParam, isValidOptionalParam, isAmountDefined, hv,
        strictEq, uriModes.erc20Approve]
    · have h1 : validateEthereumUri
          (.obj [("to", .str a), ("mode", .str uriModes.erc20TransferFrom)]) =
          validateUriSchemaERC20TransferFrom
            (.obj [("to", .str a), ("mode", .str uriModes.erc20TransferFrom)]) := rfl
      rw [h1]
      simp [validateUriSchemaERC20TransferFrom, validateAllowedProperties, objectKeys,
        checkAllowed, JSVal.get, lookup, isValidRequiredParam, isValidOptionalParam,
        isAmountDefined, hv, strictEq, uriModes.erc20TransferFrom]
  · rcases hm with rfl | rfl | rfl <;>
      exact validate_notAllowed _ ["to", "mode", "amount"] _ "amount" rfl rfl rfl

/-- C4, amended, at the mode `erc20__approve` and the amount `1`. -/
theorem erc20_amount_notAllowed_witness :
    validateEthereumUri (.obj [("to", .str "0xaaaaaaaaaaaaaaaaaaaaaaaaaaaaaaaaaaaaaaaa"),
      ("mode", .str "erc20__approve")]) = .ok () ∧
    validateEthereumUri (.obj [("to", .str "0xaaaaaaaaaaaaaaaaaaaaaaaaaaaaaaaaaaaaaaaa"),
      ("mode", .str "erc20__approve"), ("amount", .num (.int 1))]) =
      .error (.notAllowed "amount" ["to", "from", "gas", "mode", "chainId", "argsDefaults"]) :=
  erc20_amount_notAllowed "0xaaaaaaaaaaaaaaaaaaaaaaaaaaaaaaaaaaaaaaaa" (.num (.int 1))
    "erc20__approve" (by decide) (by decide)

/-- C5 as stated fails: the payload `{to: <valid address>, amount: 2 ** 53}` has no mode,
its keys are allowed, its `to` matches the address pattern, it has no `from`, `gas` or
`chainId`, and its `amount` is the integer number `9007199254740992`, which is not
negative; yet `validateEthereumUri` fails on it, because `new BigNumber` refuses a number
above `2 ^ 53 - 1` that has more than 15 significant digits. -/
theorem basicSchema_counterexample :
    isAmountDefined ((JSVal.obj [("to", .str "0xaaaaaaaaaaaaaaaaaaaaaaaaaaaaaaaaaaaaaaaa"),
        ("amount", .num (.int 9007199254740992))]).get "mode") = false ∧
      (∀ k ∈ ([("to", JSVal.str "0xaaaaaaaaaaaaaaaaaaaaaaaaaaaaaaaaaaaaaaaa"),
        ("amount", JSVal.num (.int 9007199254740992))]).map Prod.fst,
          k ∈ ["to", "from", "amount", "gas", "chainId"]) ∧
      isValidAddress ((JSVal.obj [("to", .str "0xaaaaaaaaaaaaaaaaaaaaaaaaaaaaaaaaaaaaaaaa"),
        ("amount", .num (.int 9007199254740992))]).get "to") = true ∧
      (JSVal.obj [("to", .str "0xaaaaaaaaaaaaaaaaaaaaaaaaaaaaaaaaaaaaaaaa"),
        ("amount", .num (.int 9007199254740992))]).get "amount" =
          .num (.int (Int.ofNat (2 ^ 53))) ∧
      validateEthereumUri (.obj [("to", .str "0xaaaaaaaaaaaaaaaaaaaaaaaaaaaaaaaaaaaaaaaa"),
        ("amount", .num (.int 9007199254740992))]) ≠ .ok () := by
  refine ⟨by decide, by decide, by decide, by decide, by decide⟩

/-- C5, amended: for a payload without a mode whose `amount` is one that the embedding of
`bignumber.js` follows (`amountInScope`), `validateEthereumUri` succeeds exactly when every
key is one of `to`, `from`, `amount`, `gas`, `chainId`, `to` is defined and matches the
address pattern, `from` is absent, `null` or matches the address pattern, `amount` is
absent, `null`, an integer number from `0` to `2 ^ 53 - 1`, or a value that is not a number
and whose text denotes an integer that is not negative, `gas` is absent, `null` or an
integer number that is not negative, and `chainId` is absent, `null` or a positive integer
number. -/
theorem basicSchema_iff (kvs : List (String × JSVal))
    (hmode : isAmountDefined ((JSVal.obj kvs).get "mode") = false)
    (hscope : amountInScope ((JSVal.obj kvs).get "amount") = true) :
    validateEthereumUri (.obj kvs) = .ok () ↔
      (∀ k ∈ kvs.map Prod.fst, k ∈ ["to", "from", "amount", "gas", "chainId"]) ∧
      ((JSVal.obj kvs).get "to" ≠ .undefined ∧ (JSVal.obj kvs).get "to" ≠ .null ∧
        matchesAddress (toChars ((JSVal.obj kvs).get "to")) = true) ∧
      ((JSVal.obj kvs).get "from" = .undefined ∨ (JSVal.obj kvs).get "from" = .null ∨
        matchesAddress (toChars ((JSVal.obj kvs).get "from")) = true) ∧
      ((JSVal.obj kvs).get "amount" = .undefined ∨ (JSVal.obj kvs).get "amount" = .null ∨
        (∃ n : Nat, n < 2 ^ 53 ∧ (JSVal.obj kvs).get "amount" = .num (.int (Int.ofNat n))) ∨
        ((∀ x, (JSVal.obj kvs).get "amount" ≠ .num x) ∧
          ∃ n : Nat, (BigNumber.ofChars (toChars ((JSVal.obj kvs).get "amount"))).toInt? =
            some (Int.ofNat n))) ∧
      ((JSVal.obj kvs).get "gas" = .undefined ∨ (JSVal.obj kvs).get "gas" = .null ∨
        ∃ n : Nat, (JSVal.obj kvs).get "gas" = .num (.int (Int.ofNat n))) ∧
      ((JSVal.obj kvs).get "chainId" = .undefined ∨ (JSVal.obj kvs).get "chainId" = .null ∨
        ∃ n : Nat, 0 < n ∧ (JSVal.obj kvs).get "chainId" = .num (.int (Int.ofNat n))) := by
  rw [validate_basic_eq kvs hmode, validateUriSchemaBasic_ok_iff, isValidRequiredParam_iff,
    isValidOptionalParam_iff, isValidOptionalParam_iff, isValidOptionalParam_iff,
    isValidOptionalParam_iff, isValidEthAmount_iff, isValidGasAmount_iff, isValidChainId_iff,
    ofVal_toInt_iff _ hscope]
  rfl

/-- C5, at the payloads `{to: <valid address>, amount: "1.5"}` (a fractional amount) and
`{to: <valid address>, chainId: 0}`, which are rejected, and at
`{to: <valid address>, amount: "1e3", gas: 0}`, which is accepted. -/
theorem basicSchema_iff_witness :
    validateEthereumUri (.obj [("to", .str "0xaaaaaaaaaaaaaaaaaaaaaaaaaaaaaaaaaaaaaaaa"),
        ("amount", .str "1.5")]) ≠ .ok () ∧
    validateEthereumUri (.obj [("to", .str "0xaaaaaaaaaaaaaaaaaaaaaaaaaaaaaaaaaaaaaaaa"),
        ("chainId", .num (.int 0))]) ≠ .ok () ∧
    validateEthereumUri (.obj [("to", .str "0xaaaaaaaaaaaaaaaaaaaaaaaaaaaaaaaaaaaaaaaa"),
        ("amount", .str "1e3"), ("gas", .num (.int 0))]) = .ok () := by
  refine ⟨?_, ?_, ?_⟩
  · intro h
    have h4 := ((basicSchema_iff
      [("to", .str "0xaaaaaaaaaaaaaaaaaaaaaaaaaaaaaaaaaaaaaaaa"), ("amount", .str "1.5")]
      rfl (by decide)).mp h).2.2.2.1
    rcases h4 with h4 | h4 | ⟨n, _, h4⟩ | ⟨_, n, h4⟩
    · exact absurd h4 (by decide)
    · exact absurd h4 (by decide)
    · have hstr : (JSVal.obj [("to", .str "0xaaaaaaaaaaaaaaaaaaaaaaaaaaaaaaaaaaaaaaaa"),
          ("amount", .str "1.5")]).get "amount" = .str "1.5" := by decide
      rw [hstr] at h4
      cases h4
    · have hnone : (BigNumber.ofChars (toChars ((JSVal.obj
          [("to", .str "0xaaaaaaaaaaaaaaaaaaaaaaaaaaaaaaaaaaaaaaaa"),
            ("amount", .str "1.5")]).get "amount"))).toInt? = none := by decide
      rw [hnone] at h4
      cases h4
  · intro h
    have h6 := ((basicSchema_iff
      [("to", .str "0xaaaaaaaaaaaaaaaaaaaaaaaaaaaaaaaaaaaaaaaa"), ("chainId", .num (.int 0))]
      rfl (by decide)).mp h).2.2.2.2.2
    rcases h6 with h6 | h6 | ⟨n, hn, h6⟩
    · exact absurd h6 (by decide)
    · exact absurd h6 (by decide)
    · have h0 : (JSVal.obj [("to", .str "0xaaaaaaaaaaaaaaaaaaaaaaaaaaaaaaaaaaaaaaaa"),
          ("chainId", .num (.int 0))]).get "chainId" = .num (.int (Int.ofNat 0)) := by decide
      rw [h0] at h6
      injection h6 with h6
      injection h6 with h6
      have h7 : 0 = n := Int.ofNat.inj h6
      omega
  · exact (basicSchema_iff
      [("to", .str "0xaaaaaaaaaaaaaaaaaaaaaaaaaaaaaaaaaaaaaaaa"), ("amount", .str "1e3"),
        ("gas", .num (.int 0))] rfl (by decide)).mpr
      ⟨by decide, ⟨by decide, by decide, by decide⟩, Or.inl (by decide),
        Or.inr (Or.inr (Or.inr ⟨fun x hx => (by cases hx), 1000, by decide⟩)),
        Or.inr (Or.inr ⟨0, by decide⟩), Or.inl (by decide)⟩

/-- C6: the payload `{to: <valid address>, gas: 0}` passes validation and its `gas` is
defined, yet the encoded text carries no `gas=` segment: it is `ethereum:<to>?`. -/
theorem encode_drops_zero_gas :
    validateEthereumUri (.obj [("to", .str "0xaaaaaaaaaaaaaaaaaaaaaaaaaaaaaaaaaaaaaaaa"),
        ("gas", .num (.int 0))]) = .ok () ∧
    isAmountDefined ((JSVal.obj [("to", .str "0xaaaaaaaaaaaaaaaaaaaaaaaaaaaaaaaaaaaaaaaa"),
        ("gas", .num (.int 0))]).get "gas") = true ∧
    encodeEthereumUri (.obj [("to", .str "0xaaaaaaaaaaaaaaaaaaaaaaaaaaaaaaaaaaaaaaaa"),
        ("gas", .num (.int 0))]) = .ok "ethereum:0xaaaaaaaaaaaaaaaaaaaaaaaaaaaaaaaaaaaaaaaa?" := by
  decide

/-- C7: for a payload without a mode that passes validation, `encodeEthereumUri` returns
`ethereum:` followed by the text of `to`, a `?` and segments joined by single `&`; the
segments are taken, in this order, from `from=<from>`, `amount=<amount>`, `gas=<gas>`
and `chainId=<chainId>`, and none of them is empty; a defined amount is always emitted,
as the plain decimal digits of the integer it denotes; and when `from`, `amount`, `gas`
and `chainId` are all defined and `gas` is not `0`, all four segments are emitted. -/
theorem encode_shape (kvs : List (String × JSVal))
    (hmode : isAmountDefined ((JSVal.obj kvs).get "mode") = false)
    (hv : validateEthereumUri (.obj kvs) = .ok ()) :
    ∃ segs : List String,
      encodeEthereumUri (.obj kvs) =
        .ok ("ethereum:" ++ toStr ((JSVal.obj kvs).get "to") ++ "?" ++ "&".intercalate segs) ∧
      segs.Sublist
        [ "from=" ++ toStr ((JSVal.obj kvs).get "from"),
          "amount=" ++ String.mk (BigNumber.ofVal ((JSVal.obj kvs).get "amount")).toString10,
          "gas=" ++ toStr ((JSVal.obj kvs).get "gas"),
          "chainId=" ++ toStr ((JSVal.obj kvs).get "chainId") ] ∧
      (∀ s ∈ segs, s ≠ "") ∧
      (isAmountDefined ((JSVal.obj kvs).get "amount") = true →
        ∃ n : Nat,
          (BigNumber.ofVal ((JSVal.obj kvs).get "amount")).toInt? = some (Int.ofNat n) ∧
          (BigNumber.ofVal ((JSVal.obj kvs).get "amount")).toString10 = natToDec n ∧
          "amount=" ++ String.mk (natToDec n) ∈ segs) ∧
      (isAmountDefined ((JSVal.obj kvs).get "from") = true →
        isAmountDefined ((JSVal.obj kvs).get "amount") = true →
        isAmountDefined ((JSVal.obj kvs).get "gas") = true →
        (JSVal.obj kvs).get "gas" ≠ .num (.int 0) →
        isAmountDefined ((JSVal.obj kvs).get "chainId") = true →
        segs =
          [ "from=" ++ toStr ((JSVal.obj kvs).get "from"),
            "amount=" ++ String.mk (BigNumber.ofVal ((JSVal.obj kvs).get "amount")).toString10,
            "gas=" ++ toStr ((JSVal.obj kvs).get "gas"),
            "chainId=" ++ toStr ((JSVal.obj kvs).get "chainId") ]) := by
  have hb := hv
  rw [validate_basic_eq kvs hmode, validateUriSchemaBasic_ok_iff] at hb
  obtain ⟨_, _, hF, hA, hG, hC⟩ := hb
  generalize hP : JSVal.obj kvs = P at *
  refine ⟨keptItems ((sendParams P).map (fun kv => encodeParam kv.1 kv.2)), ?_, ?_, ?_, ?_, ?_⟩
  · simp only [encodeEthereumUri, hv, hmode, if_true]
    rw [encodeEthSend_eq]
  all_goals rw [keptItems_sendParams]
  · exact (segment_sublist "from" _ _).append ((segment_sublist "amount" _ _).append
      ((segment_sublist "gas" _ _).append (segment_sublist "chainId" _ _)))
  · intro s hs
    simp only [List.mem_append] at hs
    rcases hs with hs | hs | hs | hs <;> exact segment_mem_ne_empty _ _ _ s hs
  · intro hdef
    have hvalid : isValidEthAmount (P.get "amount") = true := by
      rcases (isValidOptionalParam_iff _ _).mp hA with h | h | h
      · rw [h] at hdef; cases hdef
      · rw [h] at hdef; cases hdef
      · exact h
    obtain ⟨n, hn⟩ := (isValidEthAmount_iff _).mp hvalid
    have hs := toString10_of_toInt _ n hn
    refine ⟨n, hn, hs, ?_⟩
    simp only [hdef, if_true, hs, truthy_natToDec, List.mem_append, List.mem_singleton]
    right; left
    rfl
  · intro dF dA dG gz dC
    have vF : isValidAddress (P.get "from") = true := by
      rcases (isValidOptionalParam_iff _ _).mp hF with h | h | h
      · rw [h] at dF; cases dF
      · rw [h] at dF; cases dF
      · exact h
    have vA : isValidEthAmount (P.get "amount") = true := by
      rcases (isValidOptionalParam_iff _ _).mp hA with h | h | h
      · rw [h] at dA; cases dA
      · rw [h] at dA; cases dA
      · exact h
    have vG : isValidGasAmount (P.get "gas") = true := by
      rcases (isValidOptionalParam_iff _ _).mp hG with h | h | h
      · rw [h] at dG; cases dG
      · rw [h] at dG; cases dG
      · exact h
    have vC : isValidChainId (P.get "chainId") = true := by
      rcases (isValidOptionalParam_iff _ _).mp hC with h | h | h
      · rw [h] at dC; cases dC
      · rw [h] at dC; cases dC
      · exact h
    obtain ⟨n, hn⟩ := (isValidEthAmount_iff _).mp vA
    have hs := toString10_of_toInt _ n hn
    have tG : truthy (P.get "gas") = true := by
      obtain ⟨g, hg⟩ := (isValidGasAmount_iff _).mp vG
      rw [hg] at gz ⊢
      simp only [truthy, bne_iff_ne, ne_eq]
      intro h0
      exact gz (by rw [h0])
    have tC : truthy (P.get "chainId") = true := by
      obtain ⟨c, hc0, hc⟩ := (isValidChainId_iff _).mp vC
      rw [hc]
      simp only [truthy, bne_iff_ne, ne_eq]
      intro h0
      have : (Int.ofNat c) = 0 := h0
      have : (c : Int) = 0 := this
      omega
    simp only [dF, dA, dG, dC, vC, if_true, Bool.and_self, truthy_of_address _ vF, hs,
      truthy_natToDec, tG, tC]
    rfl

/-- C7, at a payload with all four optional fields: the text is
`ethereum:<to>?from=<from>&amount=1000&gas=21000&chainId=1`. -/
theorem encode_shape_witness :
    encodeEthereumUri (.obj [("to", .str "0xaaaaaaaaaaaaaaaaaaaaaaaaaaaaaaaaaaaaaaaa"),
        ("chainId", .num (.int 1)), ("gas", .num (.int 21000)), ("amount", .str "1e3"),
        ("from", .str "0xbbbbbbbbbbbbbbbbbbbbbbbbbbbbbbbbbbbbbbbb")]) =
      .ok ("ethereum:0xaaaaaaaaaaaaaaaaaaaaaaaaaaaaaaaaaaaaaaaa?" ++
        "from=0xbbbbbbbbbbbbbbbbbbbbbbbbbbbbbbbbbbbbbbbb&amount=1000&gas=21000&chainId=1") := by
  obtain ⟨segs, h1, _, _, _, h5⟩ := encode_shape
    [("to", .str "0xaaaaaaaaaaaaaaaaaaaaaaaaaaaaaaaaaaaaaaaa"),
      ("chainId", .num (.int 1)), ("gas", .num (.int 21000)), ("amount", .str "1e3"),
      ("from", .str "0xbbbbbbbbbbbbbbbbbbbbbbbbbbbbbbbbbbbbbbbb")] (by decide) (by decide)
  rw [h5 (by decide) (by decide) (by decide) (by decide) (by decide)] at h1
  rw [h1]
  decide

/-- C8: whenever `decodeEthereumUri` returns a value, that value passes
`validateEthereumUri`; in particular its `to` is defined and matches the address
pattern, its mode selects a schema and none of its keys is outside the allow-list of
that schema. The value is the parsed JSON when the text is JSON and the result of
`decodeEthSend` otherwise. -/
theorem decode_postcondition (t : String) (d : JSVal) (h : decodeEthereumUri t = .ok d) :
    validateEthereumUri d = .ok () ∧
      (jsonParse t = some d ∨ (jsonParse t = none ∧ decodeEthSend t = d)) ∧
      (d.get "to" ≠ .undefined ∧ d.get "to" ≠ .null ∧
        matchesAddress (toChars (d.get "to")) = true) ∧
      ∃ allowed keys, schemaAllowed d = some allowed ∧ objectKeys d = .ok keys ∧
        ∀ k ∈ keys, k ∈ allowed := by
  have key : validateEthereumUri d = .ok () ∧
      (jsonParse t = some d ∨ (jsonParse t = none ∧ decodeEthSend t = d)) := by
    unfold decodeEthereumUri at h
    cases hp : jsonParse t with
    | some v =>
      simp only [hp] at h
      cases hv : validateEthereumUri v with
      | error e => simp [hv] at h
      | ok u =>
        simp only [hv, Except.ok.injEq] at h
        subst h
        exact ⟨hv, Or.inl rfl⟩
    | none =>
      simp only [hp] at h
      cases hv : validateEthereumUri (decodeEthSend t) with
      | error e => simp [hv] at h
      | ok u =>
        simp only [hv, Except.ok.injEq] at h
        subst h
        exact ⟨hv, Or.inr ⟨rfl, rfl⟩⟩
  obtain ⟨h1, h2, h3⟩ := validate_ok_inv d key.1
  exact ⟨key.1, key.2, ⟨((isAmountDefined_eq_true _).mp h1).1, ((isAmountDefined_eq_true _).mp h1).2,
    h2⟩, h3⟩

/-- C8, on the JSON path (an `erc20__approve` payload) and on the legacy path (a URI with
a `gas` segment). -/
theorem decode_postcondition_witness :
    validateEthereumUri (.obj [("to", .str "0xbbbbbbbbbbbbbbbbbbbbbbbbbbbbbbbbbbbbbbbb"),
        ("mode", .str "erc20__approve")]) = .ok () ∧
    validateEthereumUri (.obj [("to", .str "0xbbbbbbbbbbbbbbbbbbbbbbbbbbbbbbbbbbbbbbbb"),
        ("gas", .num (.int 21000))]) = .ok () :=
  ⟨(decode_postcondition
      "\x7b\"to\":\"0xbbbbbbbbbbbbbbbbbbbbbbbbbbbbbbbbbbbbbbbb\",\"mode\":\"erc20__approve\"\x7d"
      (.obj [("to", .str "0xbbbbbbbbbbbbbbbbbbbbbbbbbbbbbbbbbbbbbbbb"),
        ("mode", .str "erc20__approve")]) (by decide)).1,
   (decode_postcondition "ethereum:0xbbbbbbbbbbbbbbbbbbbbbbbbbbbbbbbbbbbbbbbb?gas=21000"
      (.obj [("to", .str "0xbbbbbbbbbbbbbbbbbbbbbbbbbbbbbbbbbbbbbbbb"),
        ("gas", .num (.int 21000))]) (by decide)).1⟩

/-- C9 as stated fails: the `erc20__transfer` payload whose default amount is the BigInt
`10n` passes validation, and `encodeEthereumUri` fails on it with the `TypeError` of
`JSON.stringify`, which is not an error of the validator. -/
theorem encode_bigint_counterexample :
    validateEthereumUri (.obj [("to", .str "0xaaaaaaaaaaaaaaaaaaaaaaaaaaaaaaaaaaaaaaaa"),
        ("mode", .str "erc20__transfer"),
        ("argsDefaults", .arr [.obj [("name", .str "amount"), ("amount", .bigint 10)]])]) =
        .ok () ∧
      encodeEthereumUri (.obj [("to", .str "0xaaaaaaaaaaaaaaaaaaaaaaaaaaaaaaaaaaaaaaaa"),
        ("mode", .str "erc20__transfer"),
        ("argsDefaults", .arr [.obj [("name", .str "amount"), ("amount", .bigint 10)]])]) =
        .error .typeError ∧
      Err.isValidationError .typeError = false := by
  refine ⟨by decide, by decide, rfl⟩

/-- C9, amended: for every payload (a tree of values), `encodeEthereumUri` fails exactly
when `validateEthereumUri` fails, and then with the same error, or when the payload
passes validation, has a mode and holds a BigInt, and then with the `TypeError` of
`JSON.stringify`; it returns exactly when validation succeeds and the serialisation does
not fail, and then the text of `encodeEthSend` for a payload without a mode and the JSON
text of the payload otherwise. -/
theorem encode_fails_iff (p : JSVal) :
    (∀ e, encodeEthereumUri p = .error e ↔
      validateEthereumUri p = .error e ∨
        (validateEthereumUri p = .ok () ∧ isAmountDefined (p.get "mode") = true ∧
          holdsBigInt p = true ∧ e = .typeError)) ∧
    (∀ t, encodeEthereumUri p = .ok t ↔
      validateEthereumUri p = .ok () ∧
        ((isAmountDefined (p.get "mode") = false ∧ t = encodeEthSend p) ∨
          (isAmountDefined (p.get "mode") = true ∧ holdsBigInt p = false ∧
            t = jsonStringify p))) := by
  unfold encodeEthereumUri
  cases hv : validateEthereumUri p with
  | error e0 =>
    refine ⟨fun e => ?_, fun t => ?_⟩
    · simp
    · simp
  | ok u =>
    cases hm : isAmountDefined (p.get "mode") <;> cases hb : holdsBigInt p <;>
      refine ⟨fun e => ?_, fun t => ?_⟩ <;> simp [eq_comm]

/-- C10: a text that is not JSON and does not start with `ethereum:` makes `decodeEthSend`
return the sentinel `false`, and `decodeEthereumUri` fail with the error of the
required `to`, raised on that sentinel (its `to` is `undefined`). -/
theorem decode_unrecognised (t : String) (hjson : jsonParse t = none)
    (hpre : ¬ "ethereum:".data <+: t.data) :
    decodeEthSend t = .bool false ∧
      decodeEthereumUri t = .error (.invalidTo .undefined) ∧
      (Err.invalidTo .undefined).message =
        "Property \"to\" is not an valid Ethereum address: undefined" := by
  have hs : decodeEthSend t = .bool false := by
    unfold decodeEthSend
    have : t.data = [] ∨ List.take 9 t.data ≠ "ethereum:".data := by
      right
      intro h
      apply hpre
      rw [← h]
      exact List.take_prefix 9 t.data
    simp only [this, if_true]
  refine ⟨hs, ?_, by decide⟩
  unfold decodeEthereumUri
  simp only [hjson, hs]
  decide

/-- C10, at the texts `not-a-uri` and the empty text. -/
theorem decode_unrecognised_witness :
    decodeEthereumUri "not-a-uri" = .error (.invalidTo .undefined) ∧
      decodeEthereumUri "" = .error (.invalidTo .undefined) :=
  ⟨(decode_unrecognised "not-a-uri" (by decide) (by decide)).2.1,
   (decode_unrecognised "" (by decide) (by decide)).2.1⟩

/-- C11: for every valid address `a` and every query of well-formed `key=value` segments,
each behind a `?` or an `&`, placed right after `a`, with every `gas` and `chainId` value
read as an integer of magnitude at most `2 ^ 53` (or as `NaN`) and every `amount` value a
decimal literal within the exponent range of `bignumber.js` (`QuerySegment.inScope`),
whenever the object of the reference parse (`to` is `a`; every segment with the key `gas`,
`amount`, `from` or `chainId` maps its key to the converted value; the other segments are
left out) passes validation, `decodeEthereumUri` of `ethereum:` + `a` + query returns
exactly that object. -/
theorem decode_legacy_reference (a : String) (segs : List QuerySegment)
    (ha : isValidAddress (.str a) = true)
    (hs : ∀ s ∈ segs, s.wellFormed = true)
    (_hscope : ∀ s ∈ segs, s.inScope = true)
    (hv : validateEthereumUri (referenceParse a segs) = .ok ()) :
    decodeEthereumUri (String.mk ("ethereum:".data ++ a.data ++ queryText segs)) =
        .ok (referenceParse a segs) ∧
      (referenceParse a segs).get "to" = .str a := by
  refine ⟨?_, referenceParse_to a segs⟩
  have hj : jsonParse (String.mk ("ethereum:".data ++ a.data ++ queryText segs)) = none :=
    jsonParse_letter_e _ ("thereum:".data ++ a.data ++ queryText segs) rfl
  unfold decodeEthereumUri
  simp only [hj, decodeEthSend_query a segs ha hs, hv]

/-- C11, at `ethereum:0xbb…b?gas=21000`, which decodes to exactly `{to, gas: 21000}`, and
at a query with an unknown key between two known ones. -/
theorem decode_legacy_reference_witness :
    decodeEthereumUri "ethereum:0xbbbbbbbbbbbbbbbbbbbbbbbbbbbbbbbbbbbbbbbb?gas=21000" =
        .ok (.obj [("to", .str "0xbbbbbbbbbbbbbbbbbbbbbbbbbbbbbbbbbbbbbbbb"),
          ("gas", .num (.int 21000))]) ∧
      decodeEthereumUri
          "ethereum:0xbbbbbbbbbbbbbbbbbbbbbbbbbbbbbbbbbbbbbbbb?amount=1e3&label=shop&chainId=1" =
        .ok (.obj [("to", .str "0xbbbbbbbbbbbbbbbbbbbbbbbbbbbbbbbbbbbbbbbb"),
          ("amount", .str "1000"), ("chainId", .num (.int 1))]) :=
  ⟨(decode_legacy_reference "0xbbbbbbbbbbbbbbbbbbbbbbbbbbbbbbbbbbbbbbbb"
      [⟨'?', "gas", "21000"⟩] (by decide) (by decide) (by decide) (by decide)).1,
   (decode_legacy_reference "0xbbbbbbbbbbbbbbbbbbbbbbbbbbbbbbbbbbbbbbbb"
      [⟨'?', "amount", "1e3"⟩, ⟨'&', "label", "shop"⟩, ⟨'&', "chainId", "1"⟩]
      (by decide) (by decide) (by decide) (by decide)).1⟩

/-- C12: a payload whose `mode` is defined and is none of the four mode strings fails
`validateEthereumUri` with the error whose message is `Not supported URI mode: ` followed
by the text of that mode, whatever its other fields; so for every valid address `a` the
JSON text `{"to":"a","mode":"unknown_mode"}` makes `decodeEthereumUri` fail with that
error for the mode `unknown_mode`. -/
theorem unsupported_mode (data : JSVal) (a : String)
    (hdef : isAmountDefined (data.get "mode") = true)
    (h1 : data.get "mode" ≠ .str "contract_function")
    (h2 : data.get "mode" ≠ .str "erc20__transfer")
    (h3 : data.get "mode" ≠ .str "erc20__approve")
    (h4 : data.get "mode" ≠ .str "erc20__transferFrom")
    (ha : isValidAddress (.str a) = true) :
    validateEthereumUri data = .error (.notSupportedUriMode (data.get "mode")) ∧
      (Err.notSupportedUriMode (data.get "mode")).message =
        "Not supported URI mode: " ++ toStr (data.get "mode") ∧
      decodeEthereumUri (String.mk ("\x7b\"to\":\"".data ++ a.data ++
          "\",\"mode\":\"unknown_mode\"\x7d".data)) =
        .error (.notSupportedUriMode (.str "unknown_mode")) ∧
      (Err.notSupportedUriMode (.str "unknown_mode")).message =
        "Not supported URI mode: unknown_mode" := by
  refine ⟨validate_unsupported data hdef h1 h2 h3 h4, rfl, ?_, by decide⟩
  have htext : String.mk ("\x7b\"to\":\"".data ++ a.data ++
      "\",\"mode\":\"unknown_mode\"\x7d".data) =
      jsonStringify (.obj [("to", .str a), ("mode", .str "unknown_mode")]) := by
    rw [jsonStringify_to_mode a "unknown_mode" ha rfl]
    congr 1
    simp
  have hparse := jsonParse_jsonStringify
    (.obj [("to", .str a), ("mode", .str "unknown_mode")]) (by rfl)
  have hg : (JSVal.obj [("to", .str a), ("mode", .str "unknown_mode")]).get "mode" =
      .str "unknown_mode" := rfl
  have hv := validate_unsupported (.obj [("to", .str a), ("mode", .str "unknown_mode")])
    (by rw [hg]; rfl) (by rw [hg]; decide) (by rw [hg]; decide) (by rw [hg]; decide)
    (by rw [hg]; decide)
  unfold decodeEthereumUri
  rw [htext]
  simp only [hparse, hv]
  rfl

/-- C12, at the payload `{to, mode: 7}` (a mode that is not even a string) and at the JSON
text with the mode `unknown_mode`. -/
theorem unsupported_mode_witness :
    validateEthereumUri (.obj [("to", .str "0xaaaaaaaaaaaaaaaaaaaaaaaaaaaaaaaaaaaaaaaa"),
        ("mode", .num (.int 7))]) = .error (.notSupportedUriMode (.num (.int 7))) ∧
      decodeEthereumUri
          "\x7b\"to\":\"0xaaaaaaaaaaaaaaaaaaaaaaaaaaaaaaaaaaaaaaaa\",\"mode\":\"unknown_mode\"\x7d" =
        .error (.notSupportedUriMode (.str "unknown_mode")) :=
  let h := unsupported_mode
    (.obj [("to", .str "0xaaaaaaaaaaaaaaaaaaaaaaaaaaaaaaaaaaaaaaaa"), ("mode", .num (.int 7))])
    "0xaaaaaaaaaaaaaaaaaaaaaaaaaaaaaaaaaaaaaaaa"
    (by decide) (by decide) (by decide) (by decide) (by decide) (by decide)
  ⟨h.1, h.2.2.1⟩

/-- C13: a payload with the mode `contract_function` whose `functionSignature` is
`undefined` or `null` fails `validateEthereumUri`, whatever its other fields; for every
valid address `a` the payload `{to: a, mode: "erc20__approve"}` passes; and a payload in
one of the three ERC-20 modes that has a key `functionSignature` fails with the error of
the allow-list. -/
theorem functionSignature_only_for_function (data erc : JSVal) (a m : String)
    (keys : List String)
    (hmode : data.get "mode" = .str "contract_function")
    (hfs : data.get "functionSignature" = .undefined ∨ data.get "functionSignature" = .null)
    (ha : isValidAddress (.str a) = true)
    (hm : m = "erc20__transfer" ∨ m = "erc20__approve" ∨ m = "erc20__transferFrom")
    (hemode : erc.get "mode" = .str m)
    (hkeys : objectKeys erc = .ok keys)
    (hkey : "functionSignature" ∈ keys) :
    (∃ e, validateEthereumUri data = .error e) ∧
      validateEthereumUri (.obj [("to", .str a), ("mode", .str "erc20__approve")]) = .ok () ∧
      ∃ k, k ∈ keys ∧ validateEthereumUri erc =
        .error (.notAllowed k ["to", "from", "gas", "mode", "chainId", "argsDefaults"]) := by
  refine ⟨function_without_signature data hmode ((isAmountDefined_eq_false _).2 hfs),
    approve_minimal a ha, ?_⟩
  have hs := erc20_schemaAllowed erc m (by simpa using hm) hemode
  obtain ⟨k0, hk0⟩ := firstOutside_some_of_mem
    ["to", "from", "gas", "mode", "chainId", "argsDefaults"] keys "functionSignature" hkey
    (by decide)
  exact ⟨k0, (firstOutside_spec _ _ _ hk0).1, validate_notAllowed erc keys _ k0 hkeys hs hk0⟩

/-- C13, at a `contract_function` payload without a signature, at the minimal
`erc20__approve` payload and at an `erc20__transfer` payload that carries a signature. -/
theorem functionSignature_only_for_function_witness :
    (∃ e, validateEthereumUri (.obj [("to", .str "0xaaaaaaaaaaaaaaaaaaaaaaaaaaaaaaaaaaaaaaaa"),
        ("mode", .str "contract_function")]) = .error e) ∧
      validateEthereumUri (.obj [("to", .str "0xaaaaaaaaaaaaaaaaaaaaaaaaaaaaaaaaaaaaaaaa"),
        ("mode", .str "erc20__approve")]) = .ok () ∧
      ∃ k, k ∈ ["to", "mode", "functionSignature"] ∧
        validateEthereumUri (.obj [("to", .str "0xaaaaaaaaaaaaaaaaaaaaaaaaaaaaaaaaaaaaaaaa"),
          ("mode", .str "erc20__transfer"),
          ("functionSignature", .obj [("name", .str "f"), ("payable", .bool false)])]) =
        .error (.notAllowed k ["to", "from", "gas", "mode", "chainId", "argsDefaults"]) :=
  functionSignature_only_for_function
    (.obj [("to", .str "0xaaaaaaaaaaaaaaaaaaaaaaaaaaaaaaaaaaaaaaaa"),
      ("mode", .str "contract_function")])
    (.obj [("to", .str "0xaaaaaaaaaaaaaaaaaaaaaaaaaaaaaaaaaaaaaaaa"),
      ("mode", .str "erc20__transfer"),
      ("functionSignature", .obj [("name", .str "f"), ("payable", .bool false)])])
    "0xaaaaaaaaaaaaaaaaaaaaaaaaaaaaaaaaaaaaaaaa" "erc20__transfer"
    ["to", "mode", "functionSignature"]
    (by decide) (by decide) (by decide) (by decide) (by decide) (by decide) (by decide)

/-- C14: for a payload in an ERC-20 mode `m` that is valid apart from its `argsDefaults`
(the payload without that property passes validation) and whose `argsDefaults` is a
non-empty array of objects with keys among `name` and `amount` and a defined `amount`,
`validateEthereumUri` succeeds exactly when the `name` of every entry is one of the
argument names of `m`: `to`, `amount` for `erc20__transfer`; `spender`, `amount` for
`erc20__approve`; `from`, `to`, `amount` for `erc20__transferFrom`. -/
theorem erc20_argsDefaults_iff (kvs : List (String × JSVal)) (m : String)
    (entries : List JSVal)
    (hm : m = "erc20__transfer" ∨ m = "erc20__approve" ∨ m = "erc20__transferFrom")
    (hmode : (JSVal.obj kvs).get "mode" = .str m)
    (hother : validateEthereumUri
      (.obj (kvs.filter (fun kv => decide (kv.1 ≠ "argsDefaults")))) = .ok ())
    (had : (JSVal.obj kvs).get "argsDefaults" = .arr entries)
    (hne : entries ≠ [])
    (hent : ∀ e ∈ entries, ∃ ekvs, e = .obj ekvs ∧
      (∀ k ∈ ekvs.map Prod.fst, k = "name" ∨ k = "amount") ∧
      isAmountDefined (e.get "amount") = true) :
    validateEthereumUri (.obj kvs) = .ok () ↔
      ∀ e ∈ entries, ∃ n ∈ erc20ArgNames m, e.get "name" = .str n := by
  have hmode' : (JSVal.obj (kvs.filter (fun kv => decide (kv.1 ≠ "argsDefaults")))).get "mode" =
      .str m := by
    rw [get_filter_ne _ _ _ (by decide), hmode]
  obtain ⟨args, hargs, hiff⟩ := erc20_ok_iff kvs m hm hmode
  obtain ⟨_, _, hiff'⟩ := erc20_ok_iff _ m hm hmode'
  obtain ⟨hk, h1, h2, h3, h4, h5, _⟩ := hiff'.1 hother
  rw [get_filter_ne _ _ _ (by decide)] at h1 h2 h3 h4 h5
  have hkeys : ∀ k ∈ kvs.map Prod.fst,
      k ∈ ["to", "from", "gas", "mode", "chainId", "argsDefaults"] := by
    intro k hk0
    by_cases hka : k = "argsDefaults"
    · rw [hka]; decide
    · apply hk
      obtain ⟨kv, hkv, hfst⟩ := List.mem_map.1 hk0
      exact List.mem_map.2 ⟨kv, List.mem_filter.2 ⟨hkv, by simpa [hfst] using hka⟩, hfst⟩
  rw [hiff]
  constructor
  · intro h e he
    have hd := h.2.2.2.2.2.2 (by rw [had]; rfl)
    rw [had, validateArgsDefaults_arr _ _ hne, forEach_ok_iff] at hd
    have h6 := ((validateArgDefault_ok_iff args e).1 (hd e he)).2.2.2
    exact (any_name_iff args _ _ hargs).1 h6
  · intro h
    refine ⟨hkeys, h1, h2, h3, h4, h5, fun _ => ?_⟩
    rw [had, validateArgsDefaults_arr _ _ hne, forEach_ok_iff]
    intro e he
    obtain ⟨ekvs, rfl, hek, hea⟩ := hent e he
    obtain ⟨n, hn, hname⟩ := h _ he
    rw [validateArgDefault_ok_iff]
    refine ⟨⟨_, rfl, ?_⟩, ?_, hea, (any_name_iff args _ _ hargs).2 ⟨n, hn, hname⟩⟩
    · intro k hk1
      simpa using hek k hk1
    · rw [hname]
      exact erc20ArgNames_valid m n hm hn

/-- C14, at two `erc20__transfer` payloads: the defaults for `to` and `amount` pass, a
default for `spender` does not. -/
theorem erc20_argsDefaults_iff_witness :
    validateEthereumUri (.obj [("to", .str "0xaaaaaaaaaaaaaaaaaaaaaaaaaaaaaaaaaaaaaaaa"),
        ("mode", .str "erc20__transfer"),
        ("argsDefaults", .arr [
          .obj [("name", .str "to"), ("amount", .str "0xbbbbbbbbbbbbbbbbbbbbbbbbbbbbbbbbbbbbbbbb")],
          .obj [("name", .str "amount"), ("amount", .num (.int 5))]])]) = .ok () ∧
      validateEthereumUri (.obj [("to", .str "0xaaaaaaaaaaaaaaaaaaaaaaaaaaaaaaaaaaaaaaaa"),
        ("mode", .str "erc20__transfer"),
        ("argsDefaults", .arr [
          .obj [("name", .str "spender"), ("amount", .num (.int 5))]])]) ≠ .ok () :=
  ⟨(erc20_argsDefaults_iff
      [("to", .str "0xaaaaaaaaaaaaaaaaaaaaaaaaaaaaaaaaaaaaaaaa"),
        ("mode", .str "erc20__transfer"),
        ("argsDefaults", .arr [
          .obj [("name", .str "to"), ("amount", .str "0xbbbbbbbbbbbbbbbbbbbbbbbbbbbbbbbbbbbbbbbb")],
          .obj [("name", .str "amount"), ("amount", .num (.int 5))]])]
      "erc20__transfer"
      [.obj [("name", .str "to"), ("amount", .str "0xbbbbbbbbbbbbbbbbbbbbbbbbbbbbbbbbbbbbbbbb")],
        .obj [("name", .str "amount"), ("amount", .num (.int 5))]]
      (by decide) (by decide) (by decide) (by decide) (by decide)
      (by
        intro e he
        simp only [List.mem_cons, List.mem_singleton, List.not_mem_nil, or_false] at he
        rcases he with rfl | rfl <;> exact ⟨_, rfl, by decide, by decide⟩)).2 (by decide),
   fun h => absurd ((erc20_argsDefaults_iff
      [("to", .str "0xaaaaaaaaaaaaaaaaaaaaaaaaaaaaaaaaaaaaaaaa"),
        ("mode", .str "erc20__transfer"),
        ("argsDefaults", .arr [.obj [("name", .str "spender"), ("amount", .num (.int 5))]])]
      "erc20__transfer"
      [.obj [("name", .str "spender"), ("amount", .num (.int 5))]]
      (by decide) (by decide) (by decide) (by decide) (by decide)
      (by
        intro e he
        simp only [List.mem_singleton] at he
        subst he
        exact ⟨_, rfl, by decide, by decide⟩)).1 h) (by decide)⟩

/-- C15: for a payload with the mode `contract_function` and an `argsDefaults` that is
neither `undefined` nor `null`, `validateEthereumUri` succeeds only if `argsDefaults` is a
non-empty array, `functionSignature.args` is an array, and every entry is an object with
keys among `name` and `amount`, a defined `amount`, and a `name` that passes
`isValidFunctionArgumentName` (it is not empty and matches the identifier pattern) and
equals the `name` of one of the declared arguments.
In particular the payload fails when `argsDefaults` is the empty array, and when it is a
non-empty array while `functionSignature.args` is `undefined` or `null`. -/
theorem function_argsDefaults (kvs : List (String × JSVal))
    (hmode : (JSVal.obj kvs).get "mode" = .str "contract_function")
    (hdef : isAmountDefined ((JSVal.obj kvs).get "argsDefaults") = true) :
    (validateEthereumUri (.obj kvs) = .ok () →
      ∃ entries args, (JSVal.obj kvs).get "argsDefaults" = .arr entries ∧ entries ≠ [] ∧
        ((JSVal.obj kvs).get "functionSignature").get "args" = .arr args ∧
        ∀ e ∈ entries,
          (∃ ekvs, e = .obj ekvs ∧ ∀ k ∈ ekvs.map Prod.fst, k = "name" ∨ k = "amount") ∧
          isAmountDefined (e.get "amount") = true ∧
          isValidFunctionArgumentName (e.get "name") = true ∧
          ∃ arg ∈ args, arg.get "name" = e.get "name") ∧
      ((JSVal.obj kvs).get "argsDefaults" = .arr [] →
        ∃ err, validateEthereumUri (.obj kvs) = .error err) ∧
      (isAmountDefined (((JSVal.obj kvs).get "functionSignature").get "args") = false →
        ∃ err, validateEthereumUri (.obj kvs) = .error err) := by
  have main : validateEthereumUri (.obj kvs) = .ok () →
      ∃ entries args, (JSVal.obj kvs).get "argsDefaults" = .arr entries ∧ entries ≠ [] ∧
        ((JSVal.obj kvs).get "functionSignature").get "args" = .arr args ∧
        ∀ e ∈ entries,
          (∃ ekvs, e = .obj ekvs ∧ ∀ k ∈ ekvs.map Prod.fst, k = "name" ∨ k = "amount") ∧
          isAmountDefined (e.get "amount") = true ∧
          isValidFunctionArgumentName (e.get "name") = true ∧
          ∃ arg ∈ args, arg.get "name" = e.get "name" := by
    intro hv
    rw [validate_function_eq _ hmode] at hv
    obtain ⟨entries, args, had, hne, hargs, hall⟩ :=
      validateArgsDefaults_ok_inv _ _ hdef ((function_ok_inv _ hv).2 hdef)
    refine ⟨entries, args, had, hne, hargs, fun e he => ?_⟩
    obtain ⟨⟨keys, hkeys, hk⟩, hname, hamount, hany⟩ :=
      (validateArgDefault_ok_iff args e).1 ((forEach_ok_iff _ _).1 hall e he)
    obtain ⟨ekvs, rfl⟩ := get_defined_obj e "amount" hamount
    obtain ⟨arg, harg, hs⟩ := List.any_eq_true.1 hany
    refine ⟨⟨ekvs, rfl, fun k hk0 => ?_⟩, hamount,
      ((isValidRequiredParam_iff _ _).1 hname).2.2, arg, harg, strictEq_eq _ _ hs⟩
    cases hkeys
    simpa using hk k hk0
  refine ⟨main, fun hempty => ?_, fun hno => ?_⟩
  · cases hv : validateEthereumUri (.obj kvs) with
    | error err => exact ⟨err, rfl⟩
    | ok u =>
      obtain ⟨entries, _, had, hne, _⟩ := main hv
      rw [hempty] at had
      cases had
      exact absurd rfl hne
  · cases hv : validateEthereumUri (.obj kvs) with
    | error err => exact ⟨err, rfl⟩
    | ok u =>
      obtain ⟨_, args, _, _, hargs, _⟩ := main hv
      rw [hargs] at hno
      cases hno

/-- C15, at a payload whose default names the declared argument `value`, at the same
payload with `argsDefaults: []`, and at a signature without `args`. -/
theorem function_argsDefaults_witness :
    (∃ entries args,
      (JSVal.obj [("to", .str "0xaaaaaaaaaaaaaaaaaaaaaaaaaaaaaaaaaaaaaaaa"),
        ("mode", .str "contract_function"),
        ("functionSignature", .obj [("name", .str "mint"), ("payable", .bool false),
          ("args", .arr [.obj [("name", .str "value"), ("type", .str "uint256")]])]),
        ("argsDefaults", .arr [.obj [("name", .str "value"), ("amount", .num (.int 1))]])]).get
          "argsDefaults" = .arr entries ∧ entries ≠ [] ∧
      (JSVal.obj [("name", .str "mint"), ("payable", .bool false),
          ("args", .arr [.obj [("name", .str "value"), ("type", .str "uint256")]])]).get "args" =
        .arr args) ∧
      (∃ err, validateEthereumUri (.obj [("to", .str "0xaaaaaaaaaaaaaaaaaaaaaaaaaaaaaaaaaaaaaaaa"),
        ("mode", .str "contract_function"),
        ("functionSignature", .obj [("name", .str "mint"), ("payable", .bool false),
          ("args", .arr [.obj [("name", .str "value"), ("type", .str "uint256")]])]),
        ("argsDefaults", .arr [])]) = .error err) ∧
      (∃ err, validateEthereumUri (.obj [("to", .str "0xaaaaaaaaaaaaaaaaaaaaaaaaaaaaaaaaaaaaaaaa"),
        ("mode", .str "contract_function"),
        ("functionSignature", .obj [("name", .str "mint"), ("payable", .bool false)]),
        ("argsDefaults", .arr [.obj [("name", .str "value"), ("amount", .num (.int 1))]])]) =
          .error err) := by
  refine ⟨?_, ?_, ?_⟩
  · obtain ⟨entries, args, h1, h2, h3, _⟩ := (function_argsDefaults
      [("to", .str "0xaaaaaaaaaaaaaaaaaaaaaaaaaaaaaaaaaaaaaaaa"),
        ("mode", .str "contract_function"),
        ("functionSignature", .obj [("name", .str "mint"), ("payable", .bool false),
          ("args", .arr [.obj [("name", .str "value"), ("type", .str "uint256")]])]),
        ("argsDefaults", .arr [.obj [("name", .str "value"), ("amount", .num (.int 1))]])]
      (by decide) (by decide)).1 (by decide)
    exact ⟨entries, args, h1, h2, h3⟩
  · exact (function_argsDefaults
      [("to", .str "0xaaaaaaaaaaaaaaaaaaaaaaaaaaaaaaaaaaaaaaaa"),
        ("mode", .str "contract_function"),
        ("functionSignature", .obj [("name", .str "mint"), ("payable", .bool false),
          ("args", .arr [.obj [("name", .str "value"), ("type", .str "uint256")]])]),
        ("argsDefaults", .arr [])]
      (by decide) (by decide)).2.1 (by decide)
  · exact (function_argsDefaults
      [("to", .str "0xaaaaaaaaaaaaaaaaaaaaaaaaaaaaaaaaaaaaaaaa"),
        ("mode", .str "contract_function"),
        ("functionSignature", .obj [("name", .str "mint"), ("payable", .bool false)]),
        ("argsDefaults", .arr [.obj [("name", .str "value"), ("amount", .num (.int 1))]])]
      (by decide) (by decide)).2.2 (by decide)

/-- C16 as stated fails: the type name `Uint256` is rejected, and the `contract_function`
payload with an argument of that type fails validation with the error of the argument
type, while the same payload with the type `uint256` passes. -/
theorem type_pattern_counterexample :
    isValidSolidityType (.str "Uint256") = false ∧
      validateEthereumUri (.obj [("to", .str "0xaaaaaaaaaaaaaaaaaaaaaaaaaaaaaaaaaaaaaaaa"),
        ("mode", .str "contract_function"),
        ("functionSignature", .obj [("name", .str "mint"), ("payable", .bool false),
          ("args", .arr [.obj [("name", .str "value"), ("type", .str "Uint256")]])])]) =
        .error (.invalidArgType (.str "value")) ∧
      validateEthereumUri (.obj [("to", .str "0xaaaaaaaaaaaaaaaaaaaaaaaaaaaaaaaaaaaaaaaa"),
        ("mode", .str "contract_function"),
        ("functionSignature", .obj [("name", .str "mint"), ("payable", .bool false),
          ("args", .arr [.obj [("name", .str "value"), ("type", .str "uint256")]])])]) =
        .ok () := by
  refine ⟨by decide, by decide, by decide⟩

/-- C16, amended: a function name and an argument name (a string) are accepted exactly
when they are non-empty and consist only of ASCII letters of either case, digits, `-` and
`_`; a type name (a string) is accepted exactly when it is non-empty and consists only of
lower-case ASCII letters and digits. -/
theorem identifier_patterns (s : String) :
    (isValidContractFunctionName (.str s) = true ↔
      s.data ≠ [] ∧ ∀ c ∈ s.data,
        ('a' ≤ c ∧ c ≤ 'z') ∨ ('A' ≤ c ∧ c ≤ 'Z') ∨ ('0' ≤ c ∧ c ≤ '9') ∨ c = '-' ∨ c = '_') ∧
    (isValidFunctionArgumentName (.str s) = true ↔
      s.data ≠ [] ∧ ∀ c ∈ s.data,
        ('a' ≤ c ∧ c ≤ 'z') ∨ ('A' ≤ c ∧ c ≤ 'Z') ∨ ('0' ≤ c ∧ c ≤ '9') ∨ c = '-' ∨ c = '_') ∧
    (isValidSolidityType (.str s) = true ↔
      s.data ≠ [] ∧ ∀ c ∈ s.data, ('a' ≤ c ∧ c ≤ 'z') ∨ ('0' ≤ c ∧ c ≤ '9')) := by
  have hname : ∀ c : Char, isNameChar c = true ↔
      ('a' ≤ c ∧ c ≤ 'z') ∨ ('A' ≤ c ∧ c ≤ 'Z') ∨ ('0' ≤ c ∧ c ≤ '9') ∨ c = '-' ∨ c = '_' := by
    intro c
    simp only [isNameChar, Bool.or_eq_true, decide_eq_true_eq, isLowerChar_iff, isUpperChar_iff,
      isDigit_range, or_assoc]
  have htype : ∀ c : Char, isTypeChar c = true ↔ ('a' ≤ c ∧ c ≤ 'z') ∨ ('0' ≤ c ∧ c ≤ '9') := by
    intro c
    simp only [isTypeChar, Bool.or_eq_true, isLowerChar_iff, isDigit_range]
  have hlen : 0 < s.data.length ↔ s.data ≠ [] := List.length_pos
  refine ⟨?_, ?_, ?_⟩
  · simp only [isValidContractFunctionName, Bool.and_eq_true, decide_eq_true_eq,
      List.all_eq_true, hlen, hname]
  · simp only [isValidFunctionArgumentName, Bool.and_eq_true, decide_eq_true_eq,
      List.all_eq_true, hlen, hname]
  · simp only [isValidSolidityType, Bool.and_eq_true, decide_eq_true_eq,
      List.all_eq_true, hlen, htype]

/-- C17: a string is a valid address exactly when it has 42 characters, starts with `0x`
or `0X`, and its other 40 characters are hexadecimal digits in either case; as `to`, the
text `0xabc` is rejected and `0x` + 40 × `a` and `0X` + 40 × `A` are accepted. -/
theorem address_pattern (s : String) :
    (isValidAddress (.str s) = true ↔
      s.data.length = 42 ∧ (s.data.take 2 = ['0', 'x'] ∨ s.data.take 2 = ['0', 'X']) ∧
        ∀ c ∈ s.data.drop 2,
          ('0' ≤ c ∧ c ≤ '9') ∨ ('a' ≤ c ∧ c ≤ 'f') ∨ ('A' ≤ c ∧ c ≤ 'F')) ∧
      validateEthereumUri (.obj [("to", .str "0xabc")]) = .error (.invalidTo (.str "0xabc")) ∧
      validateEthereumUri (.obj [("to", .str "0xaaaaaaaaaaaaaaaaaaaaaaaaaaaaaaaaaaaaaaaa")]) =
        .ok () ∧
      validateEthereumUri (.obj [("to", .str "0XAAAAAAAAAAAAAAAAAAAAAAAAAAAAAAAAAAAAAAAA")]) =
        .ok () := by
  refine ⟨?_, by decide, by decide, by decide⟩
  show matchesAddress s.data = true ↔ _
  rw [matchesAddress_iff]
  simp only [isHexChar_range]

/-- C18: for every signature object, `validateFunctionSignature` succeeds exactly when its
`name` is present and passes the function-name test, its `payable` is the boolean `true`
or `false`, and its `args` is `undefined`, `null`, or a non-empty array in which every
entry has no key other than `name` and `type`, a present `name` that passes the
argument-name test and a present `type` that passes the type test; the signatures with
`args: []`, with a string as `args` and without `payable` fail. -/
theorem functionSignature_iff (kvs : List (String × JSVal)) :
    (validateFunctionSignature (.obj kvs) = .ok () ↔
      ((JSVal.obj kvs).get "name" ≠ .undefined ∧ (JSVal.obj kvs).get "name" ≠ .null ∧
        isValidContractFunctionName ((JSVal.obj kvs).get "name") = true) ∧
      ((JSVal.obj kvs).get "payable" = .bool true ∨
        (JSVal.obj kvs).get "payable" = .bool false) ∧
      ((JSVal.obj kvs).get "args" = .undefined ∨ (JSVal.obj kvs).get "args" = .null ∨
        ∃ args, (JSVal.obj kvs).get "args" = .arr args ∧ args ≠ [] ∧
          ∀ e ∈ args,
            (∃ keys, objectKeys e = .ok keys ∧ ∀ k ∈ keys, k = "name" ∨ k = "type") ∧
            (e.get "name" ≠ .undefined ∧ e.get "name" ≠ .null ∧
              isValidFunctionArgumentName (e.get "name") = true) ∧
            (e.get "type" ≠ .undefined ∧ e.get "type" ≠ .null ∧
              isValidSolidityType (e.get "type") = true))) ∧
    validateFunctionSignature (.obj [("name", .str "f"), ("payable", .bool false),
      ("args", .arr [])]) = .error .argsEmpty ∧
    validateFunctionSignature (.obj [("name", .str "f"), ("payable", .bool false),
      ("args", .str "uint")]) = .error (.argsNotArray (.str "uint")) ∧
    validateFunctionSignature (.obj [("name", .str "f")]) =
      .error (.invalidPayable .undefined) := by
  refine ⟨?_, by decide, by decide, by decide⟩
  unfold validateFunctionSignature
  rw [← isValidRequiredParam_iff]
  cases isValidRequiredParam ((JSVal.obj kvs).get "name") isValidContractFunctionName with
  | false => simp
  | true =>
    simp only [if_false, true_and, Bool.true_eq_false]
    cases hp : (JSVal.obj kvs).get "payable" with
    | bool b =>
      have hb : (JSVal.bool b = .bool true ∨ JSVal.bool b = .bool false) := by
        cases b <;> simp
      simp only [hb, true_and]
      cases ha : (JSVal.obj kvs).get "args" with
      | undefined => simp
      | null => simp
      | arr args =>
        cases args with
        | nil => simp
        | cons a as =>
          simp only [forEach_ok_iff, validateFunctionArg_ok_iff, isValidRequiredParam_iff,
            false_or, JSVal.arr.injEq, exists_eq_left', ne_eq, List.cons_ne_nil,
            not_false_eq_true, true_and, reduceCtorEq]
      | _ => simp
    | _ => simp

/-- C19: the text `null` parses as the JSON value `null`, and `decodeEthereumUri` of it
fails with the `TypeError` of the property read `data.mode`, which is not an error thrown
by the validator; the other non-object JSON texts `true`, `7`, `"abc"` and `[]` fail with
errors of the validator. -/
theorem decode_json_null :
    jsonParse "null" = some .null ∧
      decodeEthereumUri "null" = .error .typeError ∧
      Err.isValidationError .typeError = false ∧
      decodeEthereumUri "true" = .error (.invalidTo .undefined) ∧
      decodeEthereumUri "7" = .error (.invalidTo .undefined) ∧
      decodeEthereumUri "\"abc\"" =
        .error (.notAllowed "0" ["to", "from", "amount", "gas", "chainId"]) ∧
      decodeEthereumUri "[]" = .error (.invalidTo .undefined) := by
  refine ⟨by decide, by decide, rfl, by decide, by decide, by decide, by decide⟩

/-- C20: for every arbitrary-precision value `b` (finite, or `NaN`), the verdict of
`isValidEthAmount` on it, `b.isInteger() && b >= 0`, holds exactly when `b` is an integer
that is not negative, at every magnitude: the conversion to a native number inside
`ethWeiAmount >= 0` never changes the verdict. So the amounts `2 ^ 53 + 1` and `10 ^ 400`
pass, their negatives fail, and so does `0.5`. -/
theorem amount_check_every_magnitude (b : BigNumber) :
    ((b.isInteger && b.geZero) = true ↔ ∃ i : Int, b.toInt? = some i ∧ 0 ≤ i) ∧
    (BigNumber.ofVal (.str "9007199254740993")).toInt? = some (Int.ofNat (2 ^ 53 + 1)) ∧
    isValidEthAmount (.str "9007199254740993") = true ∧
    isValidEthAmount (.str "-9007199254740993") = false ∧
    (BigNumber.ofVal (.str "1e400")).toInt? = some (Int.ofNat (10 ^ 400)) ∧
    isValidEthAmount (.str "1e400") = true ∧
    isValidEthAmount (.str "-1e400") = false ∧
    isValidEthAmount (.str "0.5") = false := by
  refine ⟨?_, by decide, by decide, by decide, by decide, by decide, by decide, by decide⟩
  rw [integer_geZero_iff]
  constructor
  · rintro ⟨n, hn⟩
    exact ⟨Int.ofNat n, hn, Int.ofNat_zero_le n⟩
  · rintro ⟨i, hi, h0⟩
    obtain ⟨n, rfl⟩ := Int.eq_ofNat_of_zero_le h0
    exact ⟨n, hi⟩

/-- C21 as stated fails: the text `ethereum:` + address + `Xgas=1` is longer than 51
characters, is not JSON and is accepted through the legacy path, yet the dropped segment
is `Xgas=1`; and with a 41st hexadecimal digit after the address and the query `?gas=5`
the dropped segment is that digit. -/
theorem dropped_segment_counterexample :
    (51 < "ethereum:0xaaaaaaaaaaaaaaaaaaaaaaaaaaaaaaaaaaaaaaaaXgas=1".data.length ∧
      jsonParse "ethereum:0xaaaaaaaaaaaaaaaaaaaaaaaaaaaaaaaaaaaaaaaaXgas=1" = none ∧
      decodeEthereumUri "ethereum:0xaaaaaaaaaaaaaaaaaaaaaaaaaaaaaaaaaaaaaaaaXgas=1" =
        .ok (.obj [("to", .str "0xaaaaaaaaaaaaaaaaaaaaaaaaaaaaaaaaaaaaaaaa")]) ∧
      droppedSegment "ethereum:0xaaaaaaaaaaaaaaaaaaaaaaaaaaaaaaaaaaaaaaaaXgas=1" =
        "Xgas=1".data) ∧
    (decodeEthereumUri "ethereum:0xaaaaaaaaaaaaaaaaaaaaaaaaaaaaaaaaaaaaaaaaa?gas=5" =
        .ok (.obj [("to", .str "0xaaaaaaaaaaaaaaaaaaaaaaaaaaaaaaaaaaaaaaaa"),
          ("gas", .num (.int 5))]) ∧
      droppedSegment "ethereum:0xaaaaaaaaaaaaaaaaaaaaaaaaaaaaaaaaaaaaaaaaa?gas=5" =
        "a".data) := by
  refine ⟨⟨by decide, by decide, by decide, by decide⟩, by decide, by decide⟩

/-- C21, amended: for every text longer than 51 characters that `decodeEthereumUri`
accepts through the legacy path, the text starts with `ethereum:` and a valid address,
the dropped segment is the run of characters from offset 51 up to the first `?` or `&`
(or the end of the text), it is empty exactly when the character right after the address
is `?` or `&`, and the result is built from the address and the segments after the
dropped one alone. -/
theorem dropped_segment_spec (t : String) (d : JSVal) (hlen : 51 < t.data.length)
    (hj : jsonParse t = none) (hd : decodeEthereumUri t = .ok d) :
    t.data.take 9 = "ethereum:".data ∧
      isValidAddress (.str (String.mk ((t.data.drop 9).take 42))) = true ∧
      droppedSegment t = (t.data.drop 51).takeWhile (fun c => !decide (c = '?' ∨ c = '&')) ∧
      (droppedSegment t = [] ↔ ∃ c, t.data.get? 51 = some c ∧ (c = '?' ∨ c = '&')) ∧
      d = .obj ((splitAt (fun c => decide (c = '?' ∨ c = '&')) (t.data.drop 51)).tail.foldl
        applySegment [("to", .str (String.mk ((t.data.drop 9).take 42)))]) := by
  obtain ⟨h1, h2, h3⟩ := decode_legacy_inv t d hlen hj hd
  have hdrop : droppedSegment t =
      (t.data.drop 51).takeWhile (fun c => !decide (c = '?' ∨ c = '&')) :=
    splitAt_head _ _
  refine ⟨h1, h2, hdrop, ?_, h3⟩
  rw [hdrop]
  cases hr : t.data.drop 51 with
  | nil =>
    have := List.drop_eq_nil_iff.1 hr
    omega
  | cons c rest =>
    have hget : t.data.get? 51 = some c := by
      have := List.head?_drop t.data 51
      rw [hr] at this
      simpa using this.symm
    rw [hget]
    by_cases hc : c = '?' ∨ c = '&'
    · simp [List.takeWhile, hc]
    · simp [List.takeWhile, hc]

/-- C21, amended, at `ethereum:` + address + `?gas=21000` (the dropped segment is empty)
and at `ethereum:` + address + `Xgas=1` (it is `Xgas=1`). -/
theorem dropped_segment_spec_witness :
    droppedSegment "ethereum:0xbbbbbbbbbbbbbbbbbbbbbbbbbbbbbbbbbbbbbbbb?gas=21000" = [] ∧
      droppedSegment "ethereum:0xaaaaaaaaaaaaaaaaaaaaaaaaaaaaaaaaaaaaaaaaXgas=1" =
        "Xgas=1".data :=
  ⟨(dropped_segment_spec "ethereum:0xbbbbbbbbbbbbbbbbbbbbbbbbbbbbbbbbbbbbbbbb?gas=21000"
      (.obj [("to", .str "0xbbbbbbbbbbbbbbbbbbbbbbbbbbbbbbbbbbbbbbbb"), ("gas", .num (.int 21000))])
      (by decide) (by decide) (by decide)).2.2.2.1.2 ⟨'?', by decide, Or.inl rfl⟩,
   (dropped_segment_spec "ethereum:0xaaaaaaaaaaaaaaaaaaaaaaaaaaaaaaaaaaaaaaaaXgas=1"
      (.obj [("to", .str "0xaaaaaaaaaaaaaaaaaaaaaaaaaaaaaaaaaaaaaaaa")])
      (by decide) (by decide) (by decide)).2.2.1.trans (by decide)⟩

/-- C22 as stated fails: the payload `{to, gas: 10 ^ 21}` passes validation, its text is
`ethereum:` + address + `?gas=1e+21`, and decoding that text gives `gas: 1`; re-encoding
the decoded object gives a different text. -/
theorem roundTrip_gas_counterexample :
    validateEthereumUri (.obj [("to", .str "0xaaaaaaaaaaaaaaaaaaaaaaaaaaaaaaaaaaaaaaaa"),
        ("gas", .num (.int 1000000000000000000000))]) = .ok () ∧
      encodeEthereumUri (.obj [("to", .str "0xaaaaaaaaaaaaaaaaaaaaaaaaaaaaaaaaaaaaaaaa"),
        ("gas", .num (.int 1000000000000000000000))]) =
        .ok "ethereum:0xaaaaaaaaaaaaaaaaaaaaaaaaaaaaaaaaaaaaaaaa?gas=1e+21" ∧
      decodeEthereumUri "ethereum:0xaaaaaaaaaaaaaaaaaaaaaaaaaaaaaaaaaaaaaaaa?gas=1e+21" =
        .ok (.obj [("to", .str "0xaaaaaaaaaaaaaaaaaaaaaaaaaaaaaaaaaaaaaaaa"),
          ("gas", .num (.int 1))]) ∧
      encodeEthereumUri (.obj [("to", .str "0xaaaaaaaaaaaaaaaaaaaaaaaaaaaaaaaaaaaaaaaa"),
        ("gas", .num (.int 1))]) =
        .ok "ethereum:0xaaaaaaaaaaaaaaaaaaaaaaaaaaaaaaaaaaaaaaaa?gas=1" := by
  refine ⟨by decide, by decide, by decide, by decide⟩

/-- C22, amended: for every payload without a mode that passes validation, whose `gas`,
when defined, is positive and below `10 ^ 21` and whose `chainId`, when defined, is below
`10 ^ 21`, decoding the encoded text gives the object with exactly the keys defined in
the payload, in the order `to`, `from`, `amount`, `gas`, `chainId`: `to` and `from` are
the texts of the payload's values (the values themselves when they are strings), `amount`
is the decimal string of the payload's amount, `gas` and `chainId` are the payload's
integers; and encoding that object gives the same text again. -/
theorem roundTrip_optional_fields (kvs : List (String × JSVal))
    (hmode : isAmountDefined ((JSVal.obj kvs).get "mode") = false)
    (hv : validateEthereumUri (.obj kvs) = .ok ())
    (hgas : ∀ g : Nat, (JSVal.obj kvs).get "gas" = .num (.int (Int.ofNat g)) →
      0 < g ∧ g < 10 ^ 21)
    (hchain : ∀ c : Nat, (JSVal.obj kvs).get "chainId" = .num (.int (Int.ofNat c)) →
      c < 10 ^ 21) :
    ∃ s l, encodeEthereumUri (.obj kvs) = .ok s ∧ decodeEthereumUri s = .ok (.obj l) ∧
      l = [("to", JSVal.str (toStr ((JSVal.obj kvs).get "to")))] ++
        (if isAmountDefined ((JSVal.obj kvs).get "from") = true
          then [("from", JSVal.str (toStr ((JSVal.obj kvs).get "from")))] else []) ++
        (if isAmountDefined ((JSVal.obj kvs).get "amount") = true
          then [("amount",
            JSVal.str (String.mk (BigNumber.ofVal ((JSVal.obj kvs).get "amount")).toString10))]
          else []) ++
        (if isAmountDefined ((JSVal.obj kvs).get "gas") = true
          then [("gas", (JSVal.obj kvs).get "gas")] else []) ++
        (if isAmountDefined ((JSVal.obj kvs).get "chainId") = true
          then [("chainId", (JSVal.obj kvs).get "chainId")] else []) ∧
      l.map Prod.fst = ["to", "from", "amount", "gas", "chainId"].filter
        (fun k => isAmountDefined ((JSVal.obj kvs).get k)) ∧
      (∀ a, (JSVal.obj kvs).get "from" = .str a → (JSVal.obj l).get "from" = .str a) ∧
      (∀ n : Nat, (BigNumber.ofVal ((JSVal.obj kvs).get "amount")).toInt? = some (Int.ofNat n) →
        (JSVal.obj l).get "amount" = .str (String.mk (natToDec n))) ∧
      (isAmountDefined ((JSVal.obj kvs).get "gas") = true →
        (JSVal.obj l).get "gas" = (JSVal.obj kvs).get "gas") ∧
      (isAmountDefined ((JSVal.obj kvs).get "chainId") = true →
        (JSVal.obj l).get "chainId" = (JSVal.obj kvs).get "chainId") ∧
      encodeEthereumUri (.obj l) = .ok s := by
  obtain ⟨h1, h2, h3⟩ := decode_of_encodeEthSend kvs hmode hv
  rw [decodedSend_plain kvs hmode hv hgas hchain] at h2 h3
  obtain ⟨hto, _⟩ := validate_ok_inv _ hv
  obtain ⟨gm, _, gF, gA, gG, gC, gk⟩ := shape_get (toStr ((JSVal.obj kvs).get "to"))
    (isAmountDefined ((JSVal.obj kvs).get "from")) (isAmountDefined ((JSVal.obj kvs).get "amount"))
    (isAmountDefined ((JSVal.obj kvs).get "gas")) (isAmountDefined ((JSVal.obj kvs).get "chainId"))
    (JSVal.str (toStr ((JSVal.obj kvs).get "from")))
    (JSVal.str (String.mk (BigNumber.ofVal ((JSVal.obj kvs).get "amount")).toString10))
    ((JSVal.obj kvs).get "gas") ((JSVal.obj kvs).get "chainId")
  refine ⟨encodeEthSend (.obj kvs), _, ?_, ?_, rfl, ?_, ?_, ?_, ?_, ?_, ?_⟩
  · simp [encodeEthereumUri, hv, hmode]
  · unfold decodeEthereumUri
    simp only [h1, h2, h3]
  · rw [gk]
    simp only [List.filter, hto]
    cases isAmountDefined ((JSVal.obj kvs).get "from") <;>
    cases isAmountDefined ((JSVal.obj kvs).get "amount") <;>
    cases isAmountDefined ((JSVal.obj kvs).get "gas") <;>
    cases isAmountDefined ((JSVal.obj kvs).get "chainId") <;> rfl
  · intro a ha
    rw [gF, ha]
    rfl
  · intro n hn
    have hdef : isAmountDefined ((JSVal.obj kvs).get "amount") = true := by
      cases hA : (JSVal.obj kvs).get "amount" with
      | undefined =>
        rw [hA] at hn
        have : (BigNumber.ofVal .undefined).toInt? = none := by decide
        rw [this] at hn
        cases hn
      | null =>
        rw [hA] at hn
        have : (BigNumber.ofVal .null).toInt? = none := by decide
        rw [this] at hn
        cases hn
      | _ => rfl
    rw [gA, hdef, if_pos rfl, toString10_of_toInt _ n hn]
  · intro hd
    rw [gG, hd, if_pos rfl]
  · intro hd
    rw [gC, hd, if_pos rfl]
  · unfold encodeEthereumUri
    rw [h3]
    simp only
    rw [gm, reencode_plain kvs hmode hv]
    rfl

/-- C22, amended, at a payload with all five fields: the decoded object holds them in
the order of the text, with the amount `1e3` as `1000`, and encodes to the same text. -/
theorem roundTrip_optional_fields_witness :
    ∃ s,
      encodeEthereumUri (.obj [("chainId", .num (.int 1)), ("gas", .num (.int 21000)),
        ("amount", .str "1e3"), ("from", .str "0xbbbbbbbbbbbbbbbbbbbbbbbbbbbbbbbbbbbbbbbb"),
        ("to", .str "0xaaaaaaaaaaaaaaaaaaaaaaaaaaaaaaaaaaaaaaaa")]) = .ok s ∧
      decodeEthereumUri s =
        .ok (.obj [("to", .str "0xaaaaaaaaaaaaaaaaaaaaaaaaaaaaaaaaaaaaaaaa"),
          ("from", .str "0xbbbbbbbbbbbbbbbbbbbbbbbbbbbbbbbbbbbbbbbb"), ("amount", .str "1000"),
          ("gas", .num (.int 21000)), ("chainId", .num (.int 1))]) ∧
      encodeEthereumUri (.obj [("to", .str "0xaaaaaaaaaaaaaaaaaaaaaaaaaaaaaaaaaaaaaaaa"),
        ("from", .str "0xbbbbbbbbbbbbbbbbbbbbbbbbbbbbbbbbbbbbbbbb"), ("amount", .str "1000"),
        ("gas", .num (.int 21000)), ("chainId", .num (.int 1))]) = .ok s := by
  obtain ⟨s, l, h1, h2, h3, _, _, _, _, _, h9⟩ := roundTrip_optional_fields
    [("chainId", .num (.int 1)), ("gas", .num (.int 21000)),
      ("amount", .str "1e3"), ("from", .str "0xbbbbbbbbbbbbbbbbbbbbbbbbbbbbbbbbbbbbbbbb"),
      ("to", .str "0xaaaaaaaaaaaaaaaaaaaaaaaaaaaaaaaaaaaaaaaa")]
    (by decide) (by decide)
    (by
      intro g h
      have h' : JSVal.num (.int 21000) = .num (.int (Int.ofNat g)) := h
      simp only [JSVal.num.injEq, JSNum.int.injEq, Int.ofNat_eq_coe] at h'
      omega)
    (by
      intro c h
      have h' : JSVal.num (.int 1) = .num (.int (Int.ofNat c)) := h
      simp only [JSVal.num.injEq, JSNum.int.injEq, Int.ofNat_eq_coe] at h'
      omega)
  have hl : l = [("to", .str "0xaaaaaaaaaaaaaaaaaaaaaaaaaaaaaaaaaaaaaaaa"),
      ("from", .str "0xbbbbbbbbbbbbbbbbbbbbbbbbbbbbbbbbbbbbbbbb"), ("amount", .str "1000"),
      ("gas", .num (.int 21000)), ("chainId", .num (.int 1))] := by
    rw [h3]
    decide
  rw [hl] at h2 h9
  exact ⟨s, h1, h2, h9⟩

end EthQR
